import Mathlib

/-! lrcstats: three-way alignment engine (`src/collection/alignments/alignments.cpp`)

A shallow embedding of the `Alignments`, `UntrimmedAlignments` and
`TrimmedAlignments` classes, followed by theorems about them.

Modelling conventions
* `std::string` is `List Char`; `islower`, `isupper`, `toupper` are the "C" locale ones.
* `int64_t` values are `Int`; string lengths and loop indices are taken to lie in
  the `int64_t` range.  `rows` and `columns` are declared in `alignments.hpp`, which
  is not among the sources; they are taken to be 64-bit as the loop indices are.
* The DP matrix holds C `int`s: every store into the matrix goes through
  `toInt32`, the conversion of a 64-bit value to a 32-bit `int`.
* `size_t` arithmetic appears once (`clr.length() - 1` compared with the
  `int64_t` index in `checkIfEndingLowerCase`) and wraps modulo `2^64` exactly
  when the string is empty or the index is negative.
* Text printed on `std::cout` by the backtracking error branches is recorded as
  a list of error codes (`errors`); the trimmed variant's unnumbered message is code `0`.
* The backtracking `while` loop is run with fuel; the constructors return `none`
  when the fuel is exhausted before the loop condition becomes false.
-/

namespace LRCStats

/-! ## Characters and strings -/

/-- C `islower` in the "C" locale. -/
def islower (c : Char) : Bool := decide (97 ≤ c.toNat ∧ c.toNat ≤ 122)

/-- C `isupper` in the "C" locale. -/
def isupper (c : Char) : Bool := decide (65 ≤ c.toNat ∧ c.toNat ≤ 90)

/-- C `toupper` in the "C" locale. -/
def toupper (c : Char) : Char := if islower c then Char.ofNat (c.toNat - 32) else c

/-- The NUL character, the value the model gives to a read outside a string
(`s[s.length()]` is NUL in C++; other out-of-range reads are undefined there). -/
def nul : Char := Char.ofNat 0

/-- Indexing `s[i]` of a `std::string` by a 64-bit index. -/
def charAt (s : List Char) (i : Int) : Char :=
  if 0 ≤ i then s.getD i.toNat nul else nul

/-! ## Machine integers -/

/-- Value of `std::numeric_limits<int>::max()`. -/
def infinity : Int := 2147483647

/-- Conversion of a 64-bit integer to a 32-bit `int` (what a store into the
`int` matrix does). -/
def toInt32 (x : Int) : Int := (x + 2147483648) % 4294967296 - 2147483648

/-- `std::abs` on `int64_t`. -/
def stdAbs (x : Int) : Int := if x < 0 then -x else x

/-- Conversion of an `int64_t` to `size_t`: a negative value wraps by `2^64`. -/
def toSizeT (i : Int) : Int := if i < 0 then i + 18446744073709551616 else i

/-- The `size_t` expression `s.length() - 1`: it wraps to `2^64 - 1` when the
string is empty. -/
def lengthMinusOne (s : List Char) : Int :=
  if s.length = 0 then 18446744073709551615 else (s.length : Int) - 1

/-! ## The DP matrix -/

/-- The matrix `int** matrix`, as a list of rows. -/
abbrev DPMatrix := List (List Int)

/-- Read of `matrix[i][j]`. -/
def readCell (m : DPMatrix) (i j : Int) : Int :=
  if 0 ≤ i ∧ 0 ≤ j then (m.getD i.toNat []).getD j.toNat 0 else 0

/-- Store `matrix[i][j] = v`, with the conversion of `v` to `int`. -/
def writeCell (m : DPMatrix) (i j : Int) (v : Int) : DPMatrix :=
  if 0 ≤ i ∧ 0 ≤ j then m.set i.toNat ((m.getD i.toNat []).set j.toNat (toInt32 v)) else m

/-- Loop `for (int64_t k = lo; k < lo + count; k++) body`. -/
def forCount {σ : Type} (body : Int → σ → σ) : Nat → Int → σ → σ
  | 0, _, s => s
  | n + 1, k, s => forCount body n (k + 1) (body k s)

/-- Loop `for (int64_t k = lo; k < hi; k++) body`. -/
def forRange {σ : Type} (lo hi : Int) (body : Int → σ → σ) (s : σ) : σ :=
  forCount body (hi - lo).toNat lo s

/-! ## `Alignments` -/

/-- Member fields of an `Alignments` object (`lastBaseIndices` belongs to
`TrimmedAlignments`), together with the record of the printed error codes. -/
structure Alignments where
  ref : List Char
  ulr : List Char
  clr : List Char
  rows : Int
  columns : Int
  matrix : DPMatrix
  lastBaseIndices : List Int
  errors : List Nat

/-- `Alignments::createMatrix`: allocation of a `rows` by `columns` matrix
(uninitialised in the source, zero in the model). -/
def Alignments.createMatrix (a : Alignments) : Alignments :=
  let cleanedClr := a.clr.filter (fun c => c != ' ')
  let rows : Int := (cleanedClr.length : Int) + 1
  let columns : Int := (a.ulr.length : Int) + 1
  { a with rows := rows, columns := columns,
           matrix := List.replicate rows.toNat (List.replicate columns.toNat 0) }

/-- `Alignments::Alignments(reference, uLongRead, cLongRead)`. -/
def Alignments.construct (reference uLongRead cLongRead : List Char) : Alignments :=
  Alignments.createMatrix
    { ref := reference, ulr := uLongRead, clr := cLongRead, rows := 0, columns := 0,
      matrix := [], lastBaseIndices := [], errors := [] }

/-- `Alignments::reset`: the matrix is deleted and created again. -/
def Alignments.reset (a : Alignments) (reference uLongRead cLongRead : List Char) : Alignments :=
  Alignments.createMatrix { a with ref := reference, ulr := uLongRead, clr := cLongRead,
                                   errors := [] }

/-- `Alignments::getClr`. -/
def Alignments.getClr (a : Alignments) : List Char := a.clr

/-- `Alignments::getUlr`. -/
def Alignments.getUlr (a : Alignments) : List Char := a.ulr

/-- `Alignments::getRef`. -/
def Alignments.getRef (a : Alignments) : List Char := a.ref

/-- `Alignments::cost`. -/
def cost (refBase cBase : Char) : Int :=
  if islower cBase then 0
  else if toupper refBase = cBase then 0
  else 2

/-! ## Backtracking state shared by both variants -/

/-- Local variables of `findAlignments` that live across loop iterations. -/
structure Walk where
  clrMaf : List Char
  ulrMaf : List Char
  refMaf : List Char
  rowIndex : Int
  columnIndex : Int
  firstDeletion : Bool
  errors : List Nat
  deriving DecidableEq

/-- The `while (rowIndex > 0 || columnIndex > 0)` loop, with fuel. -/
def backtrackLoop (step : Walk → Walk) : Nat → Walk → Option Walk
  | 0, s => if s.rowIndex > 0 ∨ s.columnIndex > 0 then none else some s
  | n + 1, s =>
    if s.rowIndex > 0 ∨ s.columnIndex > 0 then backtrackLoop step n (step s) else some s

/-- A deletion column: gap in the corrected read, bases in the other two tracks. -/
def deletionStep (a : Alignments) (s : Walk) : Walk :=
  { s with clrMaf := '-' :: s.clrMaf,
           ulrMaf := charAt a.ulr (s.columnIndex - 1) :: s.ulrMaf,
           refMaf := charAt a.ref (s.columnIndex - 1) :: s.refMaf,
           columnIndex := s.columnIndex - 1 }

/-- An insertion column: corrected-read base, gaps in the other two tracks. -/
def insertionStep (a : Alignments) (s : Walk) : Walk :=
  { s with clrMaf := charAt a.clr (s.rowIndex - 1) :: s.clrMaf,
           ulrMaf := '-' :: s.ulrMaf,
           refMaf := '-' :: s.refMaf,
           rowIndex := s.rowIndex - 1 }

/-- A substitution column: bases in all three tracks. -/
def substitutionStep (a : Alignments) (s : Walk) : Walk :=
  { s with clrMaf := charAt a.clr (s.rowIndex - 1) :: s.clrMaf,
           ulrMaf := charAt a.ulr (s.columnIndex - 1) :: s.ulrMaf,
           refMaf := charAt a.ref (s.columnIndex - 1) :: s.refMaf,
           rowIndex := s.rowIndex - 1,
           columnIndex := s.columnIndex - 1 }

/-- The "No paths found" branches: the message is printed and both indices are zeroed. -/
def noPath (code : Nat) (s : Walk) : Walk :=
  { s with rowIndex := 0, columnIndex := 0, errors := s.errors ++ [code] }

/-- The three candidate costs `(deletion, insert, substitute)` a backtracking
iteration computes from its neighbours, restricted near the matrix edges.  The
last case assigns nothing in the source; it does not occur inside the loop, where
one of the two indices is positive. -/
def candidates (del ins sub : Int) (rowIndex columnIndex : Int) : Int × Int × Int :=
  if rowIndex > 0 ∧ columnIndex > 0 then (del, ins, sub)
  else if rowIndex ≤ 0 ∧ columnIndex > 0 then (del, infinity, infinity)
  else if rowIndex > 0 ∧ columnIndex ≤ 0 then (infinity, ins, infinity)
  else (infinity, infinity, infinity)

/-! ## `UntrimmedAlignments` -/

/-- `UntrimmedAlignments::checkIfEndingLowerCase`: the base at `cIndex` is
lowercase and is followed by an uppercase base or is the last base.  The
comparisons are made in `size_t`. -/
def UntrimmedAlignments.checkIfEndingLowerCase (clr : List Char) (cIndex : Int) : Bool :=
  (decide (toSizeT cIndex < lengthMinusOne clr) && islower (charAt clr cIndex)
      && isupper (charAt clr (cIndex + 1)))
    || (decide (toSizeT cIndex = lengthMinusOne clr) && islower (charAt clr cIndex))

/-- Value computed for `matrix[rowIndex][columnIndex]` by the body of the
nested loop of `UntrimmedAlignments::initialize` (before its conversion to `int`). -/
def UntrimmedAlignments.cellValue (ref ulr clr : List Char) (m : DPMatrix)
    (rowIndex columnIndex : Int) : Int :=
  let cIndex := rowIndex - 1
  let urIndex := columnIndex - 1
  let isEndingLC := UntrimmedAlignments.checkIfEndingLowerCase clr cIndex
  if isEndingLC then
    if toupper (charAt ulr urIndex) = toupper (charAt clr cIndex) then
      let keep := stdAbs (readCell m (rowIndex - 1) (columnIndex - 1)
        + cost (charAt ref urIndex) (charAt clr cIndex))
      let deletion := stdAbs (readCell m rowIndex (columnIndex - 1)
        + cost (charAt ref urIndex) '-')
      min keep deletion
    else
      stdAbs (readCell m rowIndex (columnIndex - 1) + cost (charAt ref urIndex) '-')
  else if islower (charAt clr cIndex) then
    if toupper (charAt ulr urIndex) = toupper (charAt clr cIndex) then
      stdAbs (readCell m (rowIndex - 1) (columnIndex - 1)
        + cost (charAt ref urIndex) (charAt clr cIndex))
    else if charAt ulr urIndex = '-' then
      readCell m rowIndex (columnIndex - 1)
    else
      infinity
  else
    let deletion := stdAbs (readCell m rowIndex (columnIndex - 1)
      + cost (charAt ref urIndex) '-')
    let insert := stdAbs (readCell m (rowIndex - 1) columnIndex
      + cost '-' (charAt clr cIndex))
    let substitute := stdAbs (readCell m (rowIndex - 1) (columnIndex - 1)
      + cost (charAt ref urIndex) (charAt clr cIndex))
    min deletion (min insert substitute)

/-- The three loops of `UntrimmedAlignments::initialize` that fill the matrix. -/
def UntrimmedAlignments.fill (a : Alignments) : DPMatrix :=
  let m0 := forRange 0 a.rows (fun rowIndex m => writeCell m rowIndex 0 rowIndex) a.matrix
  let m1 := forRange 1 a.columns (fun columnIndex m => writeCell m 0 columnIndex columnIndex) m0
  forRange 1 a.rows (fun rowIndex m =>
    forRange 1 a.columns (fun columnIndex m =>
      writeCell m rowIndex columnIndex
        (UntrimmedAlignments.cellValue a.ref a.ulr a.clr m rowIndex columnIndex)) m) m1

/-- One iteration of the `while` loop of `UntrimmedAlignments::findAlignments`. -/
def UntrimmedAlignments.step (a : Alignments) (s : Walk) : Walk :=
  let rowIndex := s.rowIndex
  let columnIndex := s.columnIndex
  let urIndex := columnIndex - 1
  let cIndex := rowIndex - 1
  let currentCost := readCell a.matrix rowIndex columnIndex
  let cand := candidates
    (stdAbs (readCell a.matrix rowIndex (columnIndex - 1) + cost (charAt a.ref urIndex) '-'))
    (stdAbs (readCell a.matrix (rowIndex - 1) columnIndex + cost '-' (charAt a.clr cIndex)))
    (stdAbs (readCell a.matrix (rowIndex - 1) (columnIndex - 1)
      + cost (charAt a.ref urIndex) (charAt a.clr cIndex)))
    rowIndex columnIndex
  let deletion := cand.1
  let insert := cand.2.1
  let substitute := cand.2.2
  let isEndingLC := UntrimmedAlignments.checkIfEndingLowerCase a.clr cIndex
  if rowIndex = 0 ∨ columnIndex = 0 then
    if rowIndex = 0 then deletionStep a s else insertionStep a s
  else if isEndingLC then
    if toupper (charAt a.ulr urIndex) = toupper (charAt a.clr cIndex) then
      if deletion = currentCost then deletionStep a s
      else if substitute = currentCost then substitutionStep a s
      else noPath 1 s
    else
      if deletion = currentCost then deletionStep a s
      else noPath 2 s
  else if islower (charAt a.clr cIndex) then
    if toupper (charAt a.ulr urIndex) = toupper (charAt a.clr cIndex) then
      if substitute = currentCost then substitutionStep a s
      else noPath 3 s
    else if charAt a.ulr urIndex = '-' then
      if readCell a.matrix rowIndex (columnIndex - 1) = currentCost then deletionStep a s
      else noPath 4 s
    else noPath 5 s
  else
    if deletion = currentCost then deletionStep a s
    else if insert = currentCost then insertionStep a s
    else if substitute = currentCost then substitutionStep a s
    else noPath 6 s

/-- First state of the backtracking walk: the bottom-right cell, empty tracks. -/
def Alignments.startWalk (a : Alignments) : Walk :=
  { clrMaf := [], ulrMaf := [], refMaf := [], rowIndex := a.rows - 1,
    columnIndex := a.columns - 1, firstDeletion := false, errors := [] }

/-- Last statements of `findAlignments`: the three tracks replace the inputs. -/
def Alignments.finish (a : Alignments) (s : Walk) : Alignments :=
  { a with clr := s.clrMaf, ulr := s.ulrMaf, ref := s.refMaf, errors := a.errors ++ s.errors }

/-- `UntrimmedAlignments::findAlignments`. -/
def UntrimmedAlignments.findAlignments (a : Alignments) : Option Alignments :=
  (backtrackLoop (UntrimmedAlignments.step a) (a.rows + a.columns).toNat a.startWalk).map
    a.finish

/-- `UntrimmedAlignments::initialize`. -/
def UntrimmedAlignments.initialize (a : Alignments) : Option Alignments :=
  UntrimmedAlignments.findAlignments { a with matrix := UntrimmedAlignments.fill a }

/-- `UntrimmedAlignments::UntrimmedAlignments(reference, uLongRead, cLongRead)`. -/
def UntrimmedAlignments.construct (reference uLongRead cLongRead : List Char) :
    Option Alignments :=
  UntrimmedAlignments.initialize (Alignments.construct reference uLongRead cLongRead)

/-- `UntrimmedAlignments::reset`. -/
def UntrimmedAlignments.reset (a : Alignments) (reference uLongRead cLongRead : List Char) :
    Option Alignments :=
  UntrimmedAlignments.initialize (a.reset reference uLongRead cLongRead)

/-! ## `TrimmedAlignments` -/

/-- C `isspace` in the "C" locale. -/
def isspace (c : Char) : Bool := decide (c.toNat = 32 ∨ (9 ≤ c.toNat ∧ c.toNat ≤ 13))

/-- Scan of `split`: `cur` is the fragment being read, in reverse. -/
def splitGo : List Char → List Char → List (List Char)
  | [], cur => if cur = [] then [] else [cur.reverse]
  | c :: cs, cur =>
    if isspace c then
      if cur = [] then splitGo cs [] else cur.reverse :: splitGo cs []
    else splitGo cs (c :: cur)

/-- Modelled from the spec: `split` is declared in `data.hpp`, which is not part of
the sources; the spec says the corrected read is "split into fragments at
whitespace boundaries".  The model returns the maximal whitespace-free runs. -/
def split (s : List Char) : List (List Char) := splitGo s []

/-- The loop of `TrimmedAlignments::initialize` that records the index of the
last base of each fragment. -/
def TrimmedAlignments.recordLastBases :
    List (List Char) → Int → List Int → List Int
  | [], _, lastBaseIndices => lastBaseIndices
  | t :: ts, lastBaseIndex, lastBaseIndices =>
    TrimmedAlignments.recordLastBases ts (lastBaseIndex + t.length)
      (lastBaseIndices ++ [lastBaseIndex + t.length])

/-- Value computed for `matrix[rowIndex][columnIndex]` by the body of the
nested loop of `TrimmedAlignments::initialize`. -/
def TrimmedAlignments.cellValue (ref clr : List Char) (lastBaseIndices : List Int)
    (m : DPMatrix) (rowIndex columnIndex : Int) : Int :=
  let cIndex := rowIndex - 1
  let urIndex := columnIndex - 1
  let isLastBase := decide (cIndex ∈ lastBaseIndices)
  let deletion :=
    if isLastBase then readCell m rowIndex (columnIndex - 1)
    else readCell m rowIndex (columnIndex - 1) + cost (charAt ref urIndex) '-'
  let insert := readCell m (rowIndex - 1) columnIndex + cost '-' (charAt clr cIndex)
  let substitute := readCell m (rowIndex - 1) (columnIndex - 1)
    + cost (charAt clr cIndex) (charAt ref urIndex)
  min deletion (min insert substitute)

/-- First part of `TrimmedAlignments::initialize`: the corrected read is split,
its spaces are removed, `rows` and `columns` are set and the fragment ends recorded. -/
def TrimmedAlignments.prepare (a : Alignments) : Alignments :=
  let trimmedClrs := split a.clr
  let clr := a.clr.filter (fun c => c != ' ')
  { a with clr := clr,
           rows := (clr.length : Int) + 1,
           columns := (a.ref.length : Int) + 1,
           lastBaseIndices :=
             TrimmedAlignments.recordLastBases trimmedClrs (-1) a.lastBaseIndices }

/-- The three loops of `TrimmedAlignments::initialize` that fill the matrix. -/
def TrimmedAlignments.fill (a : Alignments) : DPMatrix :=
  let m0 := forRange 0 a.rows (fun rowIndex m => writeCell m rowIndex 0 rowIndex) a.matrix
  let m1 := forRange 1 a.columns (fun columnIndex m => writeCell m 0 columnIndex 0) m0
  forRange 1 a.rows (fun rowIndex m =>
    forRange 1 a.columns (fun columnIndex m =>
      writeCell m rowIndex columnIndex
        (TrimmedAlignments.cellValue a.ref a.clr a.lastBaseIndices m rowIndex columnIndex)) m) m1

/-- The boundary marker column: `X` in the corrected read, gaps in the other two tracks. -/
def markX (s : Walk) : Walk :=
  { s with clrMaf := 'X' :: s.clrMaf, ulrMaf := '-' :: s.ulrMaf, refMaf := '-' :: s.refMaf }

/-- The marker added when the first base of both sequences has been reached. -/
def markFirst (cIndex urIndex : Int) (s : Walk) : Walk :=
  if cIndex = 0 ∧ urIndex = 0 then markX s else s

/-- One iteration of the `while` loop of `TrimmedAlignments::findAlignments`. -/
def TrimmedAlignments.step (a : Alignments) (s : Walk) : Walk :=
  let rowIndex := s.rowIndex
  let columnIndex := s.columnIndex
  let urIndex := columnIndex - 1
  let cIndex := rowIndex - 1
  let currentCost := readCell a.matrix rowIndex columnIndex
  let isLastBase := decide (cIndex ∈ a.lastBaseIndices)
  let cand := candidates
    (if isLastBase then readCell a.matrix rowIndex (columnIndex - 1)
      else readCell a.matrix rowIndex (columnIndex - 1) + cost (charAt a.ref urIndex) '-')
    (readCell a.matrix (rowIndex - 1) columnIndex + cost '-' (charAt a.clr cIndex))
    (readCell a.matrix (rowIndex - 1) (columnIndex - 1)
      + cost (charAt a.ref urIndex) (charAt a.clr cIndex))
    rowIndex columnIndex
  let deletion := cand.1
  let insert := cand.2.1
  let substitute := cand.2.2
  if rowIndex = 0 ∨ columnIndex = 0 then
    if rowIndex = 0 then
      let s1 := if s.firstDeletion then markX s else s
      { deletionStep a s1 with firstDeletion := false }
    else insertionStep a s
  else if deletion = currentCost then
    let s1 := if isLastBase ∧ s.firstDeletion then markX s else s
    let s2 := markFirst cIndex urIndex
      { s1 with clrMaf := '-' :: s1.clrMaf,
                ulrMaf := charAt a.ulr urIndex :: s1.ulrMaf,
                refMaf := charAt a.ref urIndex :: s1.refMaf }
    { s2 with columnIndex := columnIndex - 1, firstDeletion := false }
  else if insert = currentCost then
    let s1 := if isLastBase then markX s else s
    let s2 := markFirst cIndex urIndex
      { s1 with clrMaf := charAt a.clr cIndex :: s1.clrMaf,
                ulrMaf := '-' :: s1.ulrMaf,
                refMaf := '-' :: s1.refMaf }
    { s2 with rowIndex := rowIndex - 1, firstDeletion := true }
  else if substitute = currentCost then
    let s1 := if isLastBase then markX s else s
    let s2 := markFirst cIndex urIndex
      { s1 with clrMaf := charAt a.clr cIndex :: s1.clrMaf,
                ulrMaf := charAt a.ulr urIndex :: s1.ulrMaf,
                refMaf := charAt a.ref urIndex :: s1.refMaf }
    { s2 with rowIndex := rowIndex - 1, columnIndex := columnIndex - 1, firstDeletion := true }
  else noPath 0 s

/-- `TrimmedAlignments::findAlignments`. -/
def TrimmedAlignments.findAlignments (a : Alignments) : Option Alignments :=
  (backtrackLoop (TrimmedAlignments.step a) (a.rows + a.columns).toNat a.startWalk).map
    a.finish

/-- `TrimmedAlignments::initialize`. -/
def TrimmedAlignments.initialize (a : Alignments) : Option Alignments :=
  let b := TrimmedAlignments.prepare a
  TrimmedAlignments.findAlignments { b with matrix := TrimmedAlignments.fill b }

/-- `TrimmedAlignments::TrimmedAlignments(reference, uLongRead, cLongRead)`. -/
def TrimmedAlignments.construct (reference uLongRead cLongRead : List Char) :
    Option Alignments :=
  TrimmedAlignments.initialize (Alignments.construct reference uLongRead cLongRead)

/-- `TrimmedAlignments::reset`: the fragment ends of the previous alignment are cleared. -/
def TrimmedAlignments.reset (a : Alignments) (reference uLongRead cLongRead : List Char) :
    Option Alignments :=
  TrimmedAlignments.initialize
    { a.reset reference uLongRead cLongRead with lastBaseIndices := [] }

/-! ## Predicates and auxiliary definitions used by the statements and proofs -/

/-- The matrix has `R` rows of `C` cells each. -/
def Dims (m : DPMatrix) (R C : Nat) : Prop :=
  m.length = R ∧ ∀ k, k < R → (m.getD k []).length = C

/-- The value a fill body stores depends only on the left, upper and upper-left neighbours. -/
def LocalBody (f : DPMatrix → Int → Int → Int) : Prop :=
  ∀ m m2 i j, readCell m i (j - 1) = readCell m2 i (j - 1) →
    readCell m (i - 1) j = readCell m2 (i - 1) j →
    readCell m (i - 1) (j - 1) = readCell m2 (i - 1) (j - 1) → f m i j = f m2 i j

/-- The shape shared by the fill loops of both variants: column 0, then row 0
(value `g`), then the interior in row-major order (value `f`). -/
def fillLoops (g : Int → Int) (f : DPMatrix → Int → Int → Int) (rows columns : Int)
    (m : DPMatrix) : DPMatrix :=
  let m0 := forRange 0 rows (fun rowIndex m => writeCell m rowIndex 0 rowIndex) m
  let m1 := forRange 1 columns (fun columnIndex m => writeCell m 0 columnIndex (g columnIndex)) m0
  forRange 1 rows (fun rowIndex m =>
    forRange 1 columns (fun columnIndex m =>
      writeCell m rowIndex columnIndex (f m rowIndex columnIndex)) m) m1

/-- The equations satisfied by a filled matrix. -/
structure Filled (g : Int → Int) (f : DPMatrix → Int → Int → Int) (R C : Nat)
    (M : DPMatrix) : Prop where
  dims : Dims M R C
  col0 : ∀ i : Int, 0 ≤ i → i < R → readCell M i 0 = toInt32 i
  row0 : ∀ j : Int, 1 ≤ j → j < C → readCell M 0 j = toInt32 (g j)
  inner : ∀ i j : Int, 1 ≤ i → i < R → 1 ≤ j → j < C → readCell M i j = toInt32 (f M i j)

/-- The three tracks built so far have the same length. -/
def Walk.Balanced (s : Walk) : Prop :=
  s.clrMaf.length = s.ulrMaf.length ∧ s.ulrMaf.length = s.refMaf.length

/-- The matrix of `a` satisfies the equations of the untrimmed fill for the
strings of `a`, whose corrected read has no space. -/
def UntrimmedFilled (a : Alignments) : Prop :=
  Filled (fun j => j) (UntrimmedAlignments.cellValue a.ref a.ulr a.clr)
    (a.clr.length + 1) (a.ulr.length + 1) a.matrix

/-- The object handed to `findAlignments` by the untrimmed constructor. -/
def UntrimmedAlignments.filledObject (reference uLongRead cLongRead : List Char) : Alignments :=
  { Alignments.construct reference uLongRead cLongRead with
    matrix := UntrimmedAlignments.fill (Alignments.construct reference uLongRead cLongRead) }

/-- Row `i` of the untrimmed matrix belongs to a lowercase base that is not an
ending one: the only rows that may hold the infinity marker. -/
def NonEndingRow (clr : List Char) (i : Int) : Prop :=
  1 ≤ i ∧ UntrimmedAlignments.checkIfEndingLowerCase clr (i - 1) = false
    ∧ islower (charAt clr (i - 1)) = true

/-- Deletion of every `-` from a track. -/
def stripGaps (l : List Char) : List Char := l.filter (fun c => c != '-')

/-- What the backtracking walk of the untrimmed variant maintains on a filled matrix. -/
structure UntrimmedInv (a : Alignments) (s : Walk) : Prop where
  row0 : 0 ≤ s.rowIndex
  rowLe : s.rowIndex ≤ a.clr.length
  col0 : 0 ≤ s.columnIndex
  colLe : s.columnIndex ≤ a.ulr.length
  finite : readCell a.matrix s.rowIndex s.columnIndex ≠ infinity
  noError : s.errors = []
  clrOk : stripGaps s.clrMaf = stripGaps (a.clr.drop s.rowIndex.toNat)
  ulrOk : stripGaps s.ulrMaf = stripGaps (a.ulr.drop s.columnIndex.toNat)
  refOk : stripGaps s.refMaf = stripGaps (a.ref.drop s.columnIndex.toNat)

/-- The uppercase bases. -/
def upperBases : List Char := ['A', 'C', 'G', 'T', 'N']

/-- What the backtracking walk maintains when the three inputs are the same
uppercase string. -/
structure DiagInv (s0 : List Char) (w : Walk) : Prop where
  row0 : 0 ≤ w.rowIndex
  rowLe : w.rowIndex ≤ s0.length
  col : w.columnIndex = w.rowIndex
  noError : w.errors = []
  clrOk : w.clrMaf = s0.drop w.rowIndex.toNat
  ulrOk : w.ulrMaf = s0.drop w.rowIndex.toNat
  refOk : w.refMaf = s0.drop w.rowIndex.toNat

/-- The alphabet of the design: the bases, the gap, and the lowercase bases. -/
def designAlphabet : List Char := ['A', 'C', 'G', 'T', 'N', '-', 'a', 'c', 'g', 't', 'n']

/-- The object handed to `findAlignments` by the trimmed constructor. -/
def TrimmedAlignments.filledObject (reference uLongRead cLongRead : List Char) : Alignments :=
  { TrimmedAlignments.prepare (Alignments.construct reference uLongRead cLongRead) with
    matrix := TrimmedAlignments.fill
      (TrimmedAlignments.prepare (Alignments.construct reference uLongRead cLongRead)) }

/-- Running totals `l + |t_0|`, `l + |t_0| + |t_1|`, ... of the fragment lengths. -/
def partialEnds : List (List Char) → Int → List Int
  | [], _ => []
  | t :: ts, l => (l + t.length) :: partialEnds ts (l + t.length)

theorem islower_not_isupper {c : Char} (h : islower c = true) : isupper c = false := by
  simp only [islower, isupper, decide_eq_true_eq, decide_eq_false_iff_not] at *
  omega

theorem cost_lower (r : Char) {c : Char} (h : islower c = true) : cost r c = 0 := by
  simp [cost, h]

theorem cost_nonneg (r c : Char) : 0 ≤ cost r c := by
  unfold cost; split_ifs <;> decide

theorem cost_le_two (r c : Char) : cost r c ≤ 2 := by
  unfold cost; split_ifs <;> decide

theorem stdAbs_of_nonneg {x : Int} (h : 0 ≤ x) : stdAbs x = x := by
  unfold stdAbs; split_ifs <;> omega

theorem stdAbs_nonneg (x : Int) : 0 ≤ stdAbs x := by
  unfold stdAbs; split_ifs <;> omega

theorem toInt32_of_range {x : Int} (h0 : -2147483648 ≤ x) (h1 : x ≤ 2147483647) :
    toInt32 x = x := by
  unfold toInt32; omega

/-! ## Reads and writes of matrix cells -/

theorem dims_replicate (R C : Nat) : Dims (List.replicate R (List.replicate C 0)) R C := by
  refine ⟨by simp, fun k hk => ?_⟩
  simp [List.getElem?_replicate, hk]

theorem dims_writeCell {m : DPMatrix} {R C : Nat} (h : Dims m R C) (i j v : Int) :
    Dims (writeCell m i j v) R C := by
  unfold writeCell
  split_ifs with hij
  · refine ⟨by simp [h.1], fun k hk => ?_⟩
    have hk2 := h.2 k hk
    by_cases e : i.toNat = k
    · subst e
      simp only [List.getD_eq_getElem?_getD] at hk2 ⊢
      rw [List.getElem?_set_self (by rw [h.1]; exact hk)]
      simpa using hk2
    · simp only [List.getD_eq_getElem?_getD] at hk2 ⊢
      rw [List.getElem?_set_ne e]
      exact hk2
  · exact h

theorem readCell_writeCell_same {m : DPMatrix} {R C : Nat} (h : Dims m R C) {i j : Int}
    (hi0 : 0 ≤ i) (hi : i < R) (hj0 : 0 ≤ j) (hj : j < C) (v : Int) :
    readCell (writeCell m i j v) i j = toInt32 v := by
  have hi2 : i.toNat < R := by omega
  have hj2 : j.toNat < C := by omega
  have hrow := h.2 _ hi2
  unfold readCell writeCell
  simp only [hi0, hj0, and_self, if_true, List.getD_eq_getElem?_getD] at hrow ⊢
  rw [List.getElem?_set_self (by rw [h.1]; exact hi2)]
  simp only [Option.getD_some]
  rw [List.getElem?_set_self (by rw [hrow]; exact hj2)]
  rfl

theorem readCell_writeCell_other (m : DPMatrix) {i j i2 j2 : Int} (v : Int)
    (hne : i ≠ i2 ∨ j ≠ j2) :
    readCell (writeCell m i j v) i2 j2 = readCell m i2 j2 := by
  unfold readCell writeCell
  by_cases h2 : 0 ≤ i2 ∧ 0 ≤ j2
  · by_cases h1 : 0 ≤ i ∧ 0 ≤ j
    · simp only [h1, h2, and_self, if_true, List.getD_eq_getElem?_getD]
      by_cases e : i.toNat = i2.toNat
      · have hj : j.toNat ≠ j2.toNat := by omega
        rw [← e, List.getElem?_set]
        simp only [if_true]
        split_ifs with hlt
        · simp only [Option.getD_some]
          rw [List.getElem?_set_ne hj]
        · have : m[i.toNat]? = none := by
            rw [List.getElem?_eq_none_iff]; omega
          simp [this]
      · rw [List.getElem?_set_ne e]
    · simp [h1]
  · simp [h2]

/-! ## The `for` loops -/

theorem forCount_inv {σ : Type} (body : Int → σ → σ) (P : Int → σ → Prop) :
    ∀ (n : Nat) (k : Int) (s : σ), P k s →
      (∀ k2 s2, k ≤ k2 → k2 < k + n → P k2 s2 → P (k2 + 1) (body k2 s2)) →
      P (k + n) (forCount body n k s) := by
  intro n
  induction n with
  | zero => intro k s h _; simpa [forCount] using h
  | succ n ih =>
    intro k s h hstep
    have h1 : P (k + 1) (body k s) := hstep k s (le_refl _) (by push_cast; omega) h
    have := ih (k + 1) (body k s) h1 (fun k2 s2 hk hk2 hp =>
      hstep k2 s2 (by omega) (by push_cast; omega) hp)
    simp only [forCount]
    have e : k + ((n + 1 : Nat) : Int) = k + 1 + (n : Int) := by push_cast; omega
    rw [e]; exact this

theorem forRange_inv {σ : Type} (body : Int → σ → σ) (P : Int → σ → Prop) (lo hi : Int)
    (hle : lo ≤ hi) (s : σ) (h0 : P lo s)
    (hstep : ∀ k s2, lo ≤ k → k < hi → P k s2 → P (k + 1) (body k s2)) :
    P hi (forRange lo hi body s) := by
  have := forCount_inv body P (hi - lo).toNat lo s h0 (fun k2 s2 h1 h2 hp =>
    hstep k2 s2 h1 (by omega) hp)
  have e : lo + ((hi - lo).toNat : Int) = hi := by omega
  rw [e] at this
  exact this

/-! ## What the fill loops establish -/

theorem localBody_writeCell {f : DPMatrix → Int → Int → Int} (hf : LocalBody f)
    (m : DPMatrix) (i j i2 j2 v : Int)
    (h1 : i2 ≠ i ∨ j2 ≠ j - 1) (h2 : i2 ≠ i - 1 ∨ j2 ≠ j) (h3 : i2 ≠ i - 1 ∨ j2 ≠ j - 1) :
    f (writeCell m i2 j2 v) i j = f m i j :=
  hf _ _ i j (readCell_writeCell_other m v h1) (readCell_writeCell_other m v h2)
    (readCell_writeCell_other m v h3)

theorem fillLoops_filled (g : Int → Int) (f : DPMatrix → Int → Int → Int) (hf : LocalBody f)
    (R C : Nat) (hR : 1 ≤ R) (hC : 1 ≤ C) (m : DPMatrix) (hm : Dims m R C) :
    Filled g f R C (fillLoops g f R C m) := by
  -- column 0
  have s0 := forRange_inv (fun rowIndex m => writeCell m rowIndex 0 rowIndex)
    (fun (k : Int) (m : DPMatrix) => Dims m R C ∧
      ∀ i : Int, 0 ≤ i → i < k → readCell m i 0 = toInt32 i) 0 R (by omega) m
    ⟨hm, fun i h0 h1 => by omega⟩
    (by
      rintro k s2 hk0 hk1 ⟨hd, hc⟩
      refine ⟨dims_writeCell hd _ _ _, fun i h0 h1 => ?_⟩
      by_cases e : i = k
      · subst e
        exact readCell_writeCell_same hd h0 hk1 (le_refl _) (by omega) _
      · rw [readCell_writeCell_other _ _ (Or.inl (Ne.symm e))]
        exact hc i h0 (by omega))
  obtain ⟨hd0, hc0⟩ := s0
  -- row 0
  have s1 := forRange_inv (fun columnIndex m => writeCell m 0 columnIndex (g columnIndex))
    (fun (k : Int) (m : DPMatrix) => Dims m R C ∧
      (∀ i : Int, 0 ≤ i → i < R → readCell m i 0 = toInt32 i) ∧
      ∀ j : Int, 1 ≤ j → j < k → readCell m 0 j = toInt32 (g j)) 1 C (by omega) _
    ⟨hd0, hc0, fun j h0 h1 => by omega⟩
    (by
      rintro k s2 hk0 hk1 ⟨hd, hc, hr⟩
      refine ⟨dims_writeCell hd _ _ _, fun i h0 h1 => ?_, fun j h0 h1 => ?_⟩
      · rw [readCell_writeCell_other _ _ (Or.inr (by omega))]
        exact hc i h0 h1
      · by_cases e : j = k
        · subst e
          exact readCell_writeCell_same hd (le_refl _) (by omega) (by omega) hk1 _
        · rw [readCell_writeCell_other _ _ (Or.inr (Ne.symm e))]
          exact hr j h0 (by omega))
  obtain ⟨hd1, hc1, hr1⟩ := s1
  -- interior
  have s2 := forRange_inv (fun rowIndex m =>
      forRange 1 C (fun columnIndex m =>
        writeCell m rowIndex columnIndex (f m rowIndex columnIndex)) m)
    (fun (k : Int) (m : DPMatrix) => Dims m R C ∧
      (∀ i : Int, 0 ≤ i → i < R → readCell m i 0 = toInt32 i) ∧
      (∀ j : Int, 1 ≤ j → j < C → readCell m 0 j = toInt32 (g j)) ∧
      ∀ i j : Int, 1 ≤ i → i < k → 1 ≤ j → j < C → readCell m i j = toInt32 (f m i j))
    1 R (by omega) _ ⟨hd1, hc1, hr1, fun i j h0 h1 => by omega⟩
    (by
      rintro k s2 hk0 hk1 ⟨hd, hc, hr, hin⟩
      have inner := forRange_inv (fun columnIndex m =>
          writeCell m k columnIndex (f m k columnIndex))
        (fun (l : Int) (m : DPMatrix) => Dims m R C ∧
          (∀ i : Int, 0 ≤ i → i < R → readCell m i 0 = toInt32 i) ∧
          (∀ j : Int, 1 ≤ j → j < C → readCell m 0 j = toInt32 (g j)) ∧
          (∀ i j : Int, 1 ≤ i → i < k → 1 ≤ j → j < C → readCell m i j = toInt32 (f m i j)) ∧
          ∀ j : Int, 1 ≤ j → j < l → readCell m k j = toInt32 (f m k j)) 1 C (by omega) s2
        ⟨hd, hc, hr, hin, fun j h0 h1 => by omega⟩
        (by
          rintro l s3 hl0 hl1 ⟨hd3, hc3, hr3, hin3, hrow3⟩
          refine ⟨dims_writeCell hd3 _ _ _, fun i h0 h1 => ?_, fun j h0 h1 => ?_,
            fun i j h0 h1 h2 h3 => ?_, fun j h0 h1 => ?_⟩
          · rw [readCell_writeCell_other _ _ (Or.inr (by omega))]
            exact hc3 i h0 h1
          · rw [readCell_writeCell_other _ _ (Or.inl (by omega))]
            exact hr3 j h0 h1
          · rw [readCell_writeCell_other _ _ (Or.inl (by omega)),
              localBody_writeCell hf _ _ _ _ _ _ (Or.inl (by omega)) (Or.inl (by omega))
                (Or.inl (by omega))]
            exact hin3 i j h0 h1 h2 h3
          · by_cases e : j = l
            · subst e
              rw [readCell_writeCell_same hd3 (by omega) hk1 (by omega) hl1,
                localBody_writeCell hf _ _ _ _ _ _ (Or.inr (by omega)) (Or.inl (by omega))
                  (Or.inl (by omega))]
            · rw [readCell_writeCell_other _ _ (Or.inr (Ne.symm e)),
                localBody_writeCell hf _ _ _ _ _ _ (Or.inr (by omega)) (Or.inl (by omega))
                  (Or.inl (by omega))]
              exact hrow3 j h0 (by omega))
      obtain ⟨hd4, hc4, hr4, hin4, hrow4⟩ := inner
      refine ⟨hd4, hc4, hr4, fun i j h0 h1 h2 h3 => ?_⟩
      by_cases e : i = k
      · subst e; exact hrow4 j h2 h3
      · exact hin4 i j h0 (by omega) h2 h3)
  obtain ⟨hd2, hc2, hr2, hin2⟩ := s2
  exact ⟨hd2, hc2, hr2, hin2⟩

/-! ## The backtracking loop -/

theorem backtrackLoop_inv (step : Walk → Walk) (I : Walk → Prop)
    (hnn : ∀ s, I s → 0 ≤ s.rowIndex ∧ 0 ≤ s.columnIndex)
    (hstep : ∀ s, I s → (s.rowIndex > 0 ∨ s.columnIndex > 0) →
      I (step s) ∧ (step s).rowIndex + (step s).columnIndex < s.rowIndex + s.columnIndex) :
    ∀ (fuel : Nat) (s : Walk), I s → s.rowIndex + s.columnIndex ≤ fuel →
      ∃ t, backtrackLoop step fuel s = some t ∧ I t ∧ t.rowIndex = 0 ∧ t.columnIndex = 0 := by
  intro fuel
  induction fuel with
  | zero =>
    intro s hI hle
    have := hnn s hI
    have hc : ¬ (s.rowIndex > 0 ∨ s.columnIndex > 0) := by push_cast at hle; omega
    exact ⟨s, by simp only [backtrackLoop, hc, if_false], hI, by omega, by omega⟩
  | succ n ih =>
    intro s hI hle
    have hs := hnn s hI
    by_cases hc : s.rowIndex > 0 ∨ s.columnIndex > 0
    · obtain ⟨hI2, hlt⟩ := hstep s hI hc
      obtain ⟨t, ht, hIt, h0⟩ := ih (step s) hI2 (by push_cast at hle; omega)
      exact ⟨t, by simp only [backtrackLoop, hc, if_true, ht], hIt, h0⟩
    · exact ⟨s, by simp only [backtrackLoop, hc, if_false], hI, by omega, by omega⟩

/-- What one iteration of the untrimmed loop can do. -/
theorem untrimmed_step_cases (a : Alignments) (s : Walk)
    (h0 : 0 ≤ s.rowIndex ∧ 0 ≤ s.columnIndex) (hc : s.rowIndex > 0 ∨ s.columnIndex > 0) :
    (UntrimmedAlignments.step a s = deletionStep a s ∧ 0 < s.columnIndex) ∨
    (UntrimmedAlignments.step a s = insertionStep a s ∧ 0 < s.rowIndex) ∨
    (UntrimmedAlignments.step a s = substitutionStep a s ∧ 0 < s.rowIndex ∧ 0 < s.columnIndex) ∨
    (∃ code, UntrimmedAlignments.step a s = noPath code s) := by
  unfold UntrimmedAlignments.step
  simp only []
  split_ifs with c1 c2 <;>
    first
    | exact Or.inl ⟨rfl, by omega⟩
    | exact Or.inr (Or.inl ⟨rfl, by omega⟩)
    | exact Or.inr (Or.inr (Or.inl ⟨rfl, by omega, by omega⟩))
    | exact Or.inr (Or.inr (Or.inr ⟨_, rfl⟩))

theorem untrimmed_step_balanced (a : Alignments) (s : Walk)
    (hI : (0 ≤ s.rowIndex ∧ 0 ≤ s.columnIndex) ∧ s.Balanced)
    (hc : s.rowIndex > 0 ∨ s.columnIndex > 0) :
    ((0 ≤ (UntrimmedAlignments.step a s).rowIndex ∧
        0 ≤ (UntrimmedAlignments.step a s).columnIndex) ∧
      (UntrimmedAlignments.step a s).Balanced) ∧
    (UntrimmedAlignments.step a s).rowIndex + (UntrimmedAlignments.step a s).columnIndex
      < s.rowIndex + s.columnIndex := by
  obtain ⟨h0, hb1, hb2⟩ := hI
  rcases untrimmed_step_cases a s h0 hc with ⟨e, h⟩ | ⟨e, h⟩ | ⟨e, h⟩ | ⟨code, e⟩ <;>
    rw [e] <;>
    simp only [deletionStep, insertionStep, substitutionStep, noPath, Walk.Balanced,
      List.length_cons, hb1, hb2, and_self, true_and, and_true] <;>
    omega

theorem trimmed_step_balanced (a : Alignments) (s : Walk)
    (hI : (0 ≤ s.rowIndex ∧ 0 ≤ s.columnIndex) ∧ s.Balanced)
    (hc : s.rowIndex > 0 ∨ s.columnIndex > 0) :
    ((0 ≤ (TrimmedAlignments.step a s).rowIndex ∧
        0 ≤ (TrimmedAlignments.step a s).columnIndex) ∧
      (TrimmedAlignments.step a s).Balanced) ∧
    (TrimmedAlignments.step a s).rowIndex + (TrimmedAlignments.step a s).columnIndex
      < s.rowIndex + s.columnIndex := by
  obtain ⟨h0, hb1, hb2⟩ := hI
  unfold TrimmedAlignments.step
  simp only [markFirst]
  split_ifs <;>
    simp only [deletionStep, insertionStep, markX, noPath, Walk.Balanced,
      List.length_cons, hb1, hb2, and_self, true_and, and_true] <;>
    omega

theorem startWalk_sum (a : Alignments) (h1 : 1 ≤ a.rows) (h2 : 1 ≤ a.columns) :
    a.startWalk.rowIndex + a.startWalk.columnIndex ≤ ((a.rows + a.columns).toNat : Int) := by
  simp only [Alignments.startWalk]; omega

theorem construct_rows (reference uLongRead cLongRead : List Char) :
    (Alignments.construct reference uLongRead cLongRead).rows
      = ((cLongRead.filter (fun c => c != ' ')).length : Int) + 1 := rfl

theorem construct_columns (reference uLongRead cLongRead : List Char) :
    (Alignments.construct reference uLongRead cLongRead).columns
      = (uLongRead.length : Int) + 1 := rfl

/-- Both backtracking loops end, and they leave three tracks of the same length. -/
theorem findAlignments_balanced (step : Alignments → Walk → Walk)
    (hstep : ∀ a s, (0 ≤ s.rowIndex ∧ 0 ≤ s.columnIndex) ∧ s.Balanced →
      (s.rowIndex > 0 ∨ s.columnIndex > 0) →
      ((0 ≤ (step a s).rowIndex ∧ 0 ≤ (step a s).columnIndex) ∧ (step a s).Balanced) ∧
      (step a s).rowIndex + (step a s).columnIndex < s.rowIndex + s.columnIndex)
    (a : Alignments) (h1 : 1 ≤ a.rows) (h2 : 1 ≤ a.columns) :
    ∃ b, (backtrackLoop (step a) (a.rows + a.columns).toNat a.startWalk).map a.finish = some b ∧
      b.getRef.length = b.getUlr.length ∧ b.getUlr.length = b.getClr.length := by
  obtain ⟨t, ht, ⟨_, hb1, hb2⟩, _⟩ := backtrackLoop_inv (step a)
    (fun s => (0 ≤ s.rowIndex ∧ 0 ≤ s.columnIndex) ∧ s.Balanced)
    (fun s h => h.1) (hstep a) (a.rows + a.columns).toNat a.startWalk
    ⟨⟨by simp only [Alignments.startWalk]; omega, by simp only [Alignments.startWalk]; omega⟩,
      by simp [Alignments.startWalk, Walk.Balanced]⟩
    (startWalk_sum a h1 h2)
  refine ⟨a.finish t, by rw [ht]; rfl, ?_, ?_⟩
  · simp only [Alignments.getRef, Alignments.getUlr, Alignments.finish]; omega
  · simp only [Alignments.getClr, Alignments.getUlr, Alignments.finish]; omega

/-! ## C1 -/

/-- C1: for every reference and uncorrected read of equal length and every
corrected read, constructing an `UntrimmedAlignments` or a `TrimmedAlignments`
object ends, and afterwards `getRef()`, `getUlr()` and `getClr()` have the same length. -/
theorem length_invariant (reference uLongRead cLongRead : List Char)
    (_hlen : reference.length = uLongRead.length) :
    (∃ a, UntrimmedAlignments.construct reference uLongRead cLongRead = some a ∧
      a.getRef.length = a.getUlr.length ∧ a.getUlr.length = a.getClr.length) ∧
    (∃ a, TrimmedAlignments.construct reference uLongRead cLongRead = some a ∧
      a.getRef.length = a.getUlr.length ∧ a.getUlr.length = a.getClr.length) := by
  constructor
  · exact findAlignments_balanced UntrimmedAlignments.step untrimmed_step_balanced _
      (by simp only [construct_rows]; omega) (by simp only [construct_columns]; omega)
  · exact findAlignments_balanced TrimmedAlignments.step trimmed_step_balanced _
      (by simp only [TrimmedAlignments.prepare]; omega)
      (by simp only [TrimmedAlignments.prepare]; omega)

/-- Witness of C1 on the inputs of scenario B. -/
theorem length_invariant_witness :
    "ACGT".toList.length = "AGGT".toList.length ∧
    ((∃ a, UntrimmedAlignments.construct "ACGT".toList "AGGT".toList "acgt".toList = some a ∧
      a.getRef.length = a.getUlr.length ∧ a.getUlr.length = a.getClr.length) ∧
    (∃ a, TrimmedAlignments.construct "ACGT".toList "AGGT".toList "acgt".toList = some a ∧
      a.getRef.length = a.getUlr.length ∧ a.getUlr.length = a.getClr.length)) :=
  ⟨by decide, length_invariant _ _ _ (by decide)⟩

/-! ## The untrimmed fill -/

theorem untrimmed_fill_eq (a : Alignments) :
    UntrimmedAlignments.fill a
      = fillLoops (fun j => j) (UntrimmedAlignments.cellValue a.ref a.ulr a.clr)
          a.rows a.columns a.matrix := rfl

theorem untrimmed_cellValue_local (ref ulr clr : List Char) :
    LocalBody (UntrimmedAlignments.cellValue ref ulr clr) := by
  intro m m2 i j h1 h2 h3
  simp only [UntrimmedAlignments.cellValue, h1, h2, h3]

theorem filter_noSpace {clr : List Char} (h : ' ' ∉ clr) :
    clr.filter (fun c => c != ' ') = clr := by
  rw [List.filter_eq_self]
  intro c hc
  simp only [bne_iff_ne, ne_eq]
  rintro rfl
  exact h hc

theorem untrimmed_construct_eq (reference uLongRead cLongRead : List Char) :
    UntrimmedAlignments.construct reference uLongRead cLongRead
      = UntrimmedAlignments.findAlignments
          (UntrimmedAlignments.filledObject reference uLongRead cLongRead) := rfl

theorem untrimmed_filledObject_filled (reference uLongRead cLongRead : List Char)
    (hsp : ' ' ∉ cLongRead) :
    UntrimmedFilled (UntrimmedAlignments.filledObject reference uLongRead cLongRead) := by
  have h := fillLoops_filled (fun j => j)
    (UntrimmedAlignments.cellValue reference uLongRead cLongRead)
    (untrimmed_cellValue_local _ _ _) (cLongRead.length + 1) (uLongRead.length + 1)
    (by omega) (by omega) (List.replicate (cLongRead.length + 1)
      (List.replicate (uLongRead.length + 1) 0)) (dims_replicate _ _)
  have e : (UntrimmedAlignments.filledObject reference uLongRead cLongRead).matrix
      = fillLoops (fun j => j) (UntrimmedAlignments.cellValue reference uLongRead cLongRead)
          ((cLongRead.length + 1 : Nat) : Int) ((uLongRead.length + 1 : Nat) : Int)
          (List.replicate (cLongRead.length + 1) (List.replicate (uLongRead.length + 1) 0)) := by
    simp only [UntrimmedAlignments.filledObject, untrimmed_fill_eq,
      Alignments.construct, Alignments.createMatrix, filter_noSpace hsp]
    congr 1
  unfold UntrimmedFilled
  rw [e]
  exact h

theorem checkIfEndingLowerCase_lower {clr : List Char} {i : Int}
    (h : UntrimmedAlignments.checkIfEndingLowerCase clr i = true) :
    islower (charAt clr i) = true := by
  simp only [UntrimmedAlignments.checkIfEndingLowerCase, Bool.or_eq_true, Bool.and_eq_true] at h
  rcases h with ⟨⟨_, h⟩, _⟩ | ⟨_, h⟩ <;> exact h

/-- Every cell of the filled untrimmed matrix is the infinity marker, in a row
of a non-ending lowercase base, or lies between `0` and `i + 2 * j`. -/
theorem untrimmed_values (a : Alignments) (hF : UntrimmedFilled a)
    (hB : a.clr.length + 2 * a.ulr.length + 2 < 2147483647) :
    ∀ i : Nat, i ≤ a.clr.length → ∀ j : Nat, j ≤ a.ulr.length →
      (readCell a.matrix i j = infinity ∧ NonEndingRow a.clr i) ∨
      (0 ≤ readCell a.matrix i j ∧ readCell a.matrix i j ≤ (i : Int) + 2 * j) := by
  intro i
  induction i with
  | zero =>
    intro _ j hj
    right
    rcases Nat.eq_zero_or_pos j with rfl | hpos
    · have := hF.col0 0 (le_refl _) (by push_cast; omega)
      simp only [Nat.cast_zero] at this ⊢
      rw [this]; unfold toInt32; omega
    · have := hF.row0 j (by omega) (by push_cast; omega)
      simp only [Nat.cast_zero] at this ⊢
      rw [this]; unfold toInt32; omega
  | succ i ih =>
    intro hi j
    have ih2 := ih (by omega)
    induction j with
    | zero =>
      intro _
      right
      have := hF.col0 ((i + 1 : Nat) : Int) (by omega) (by push_cast; omega)
      simp only [Nat.cast_zero] at this ⊢
      rw [this]; unfold toInt32; push_cast; omega
    | succ j ihj =>
      intro hj
      have hleft := ihj (by omega)
      have hdiag := ih2 j (by omega)
      have hup := ih2 (j + 1) hj
      have heq := hF.inner ((i + 1 : Nat) : Int) ((j + 1 : Nat) : Int) (by push_cast; omega)
        (by push_cast; omega) (by push_cast; omega) (by push_cast; omega)
      have hc1 := cost_nonneg (charAt a.ref (j : Int)) '-'
      have hc2 := cost_le_two (charAt a.ref (j : Int)) '-'
      have hc3 := cost_nonneg '-' (charAt a.clr (i : Int))
      have hc4 := cost_nonneg (charAt a.ref (j : Int)) (charAt a.clr (i : Int))
      have hlow := @cost_lower (charAt a.ref (j : Int)) (charAt a.clr (i : Int))
      have hend := @checkIfEndingLowerCase_lower a.clr (i : Int)
      rw [heq]
      simp only [UntrimmedAlignments.cellValue, NonEndingRow, Nat.cast_add, Nat.cast_one,
        add_sub_cancel_right, infinity] at hleft hdiag hup ⊢
      generalize cost (charAt a.ref (j : Int)) '-' = cd at *
      generalize cost '-' (charAt a.clr (i : Int)) = ci at *
      generalize cost (charAt a.ref (j : Int)) (charAt a.clr (i : Int)) = cs at *
      generalize readCell a.matrix ((i : Int) + 1) (j : Int) = left at *
      generalize readCell a.matrix (i : Int) ((j : Int) + 1) = up at *
      generalize readCell a.matrix (i : Int) (j : Int) = diag at *
      by_cases hE : UntrimmedAlignments.checkIfEndingLowerCase a.clr (i : Int) = true
      · have := hlow (hend hE)
        simp only [hE, if_true, Bool.true_eq_false, false_and, and_false, or_false, false_or]
          at hleft ⊢
        unfold stdAbs toInt32
        split_ifs <;> omega
      · simp only [Bool.not_eq_true] at hE
        by_cases hL : islower (charAt a.clr (i : Int)) = true
        · have := hlow hL
          simp only [hE, hL, and_self, and_true, if_true, Bool.false_eq_true, if_false]
          unfold stdAbs toInt32
          split_ifs <;> omega
        · simp only [Bool.not_eq_true] at hL
          simp only [hE, hL, Bool.false_eq_true, if_false, and_false, false_or, or_false,
            and_true] at hleft ⊢
          unfold stdAbs toInt32
          split_ifs <;> omega

theorem untrimmed_values_int (a : Alignments) (hF : UntrimmedFilled a)
    (hB : a.clr.length + 2 * a.ulr.length + 2 < 2147483647) (i j : Int)
    (hi0 : 0 ≤ i) (hi : i ≤ a.clr.length) (hj0 : 0 ≤ j) (hj : j ≤ a.ulr.length) :
    (readCell a.matrix i j = infinity ∧ NonEndingRow a.clr i) ∨
    (0 ≤ readCell a.matrix i j ∧ readCell a.matrix i j ≤ i + 2 * j) := by
  obtain ⟨i, rfl⟩ := Int.eq_ofNat_of_zero_le hi0
  obtain ⟨j, rfl⟩ := Int.eq_ofNat_of_zero_le hj0
  exact untrimmed_values a hF hB i (by omega) j (by omega)

/-- On a filled untrimmed matrix, an iteration of the backtracking loop that
stands on a cell other than the infinity marker takes a deletion, insertion or
substitution step (never a "No paths found" branch) and moves to a cell that is
not the infinity marker either. -/
theorem untrimmed_step_ok (a : Alignments) (hF : UntrimmedFilled a)
    (hB : a.clr.length + 2 * a.ulr.length + 2 < 2147483647) (s : Walk)
    (hr0 : 0 ≤ s.rowIndex) (hr : s.rowIndex ≤ a.clr.length)
    (hc0 : 0 ≤ s.columnIndex) (hc : s.columnIndex ≤ a.ulr.length)
    (hpos : s.rowIndex > 0 ∨ s.columnIndex > 0)
    (hfin : readCell a.matrix s.rowIndex s.columnIndex ≠ infinity) :
    (UntrimmedAlignments.step a s = deletionStep a s ∧ 0 < s.columnIndex ∧
      readCell a.matrix s.rowIndex (s.columnIndex - 1) ≠ infinity) ∨
    (UntrimmedAlignments.step a s = insertionStep a s ∧ 0 < s.rowIndex ∧
      readCell a.matrix (s.rowIndex - 1) s.columnIndex ≠ infinity) ∨
    (UntrimmedAlignments.step a s = substitutionStep a s ∧ 0 < s.rowIndex ∧
      0 < s.columnIndex ∧
      readCell a.matrix (s.rowIndex - 1) (s.columnIndex - 1) ≠ infinity) := by
  by_cases hb : s.rowIndex = 0 ∨ s.columnIndex = 0
  · by_cases hz : s.rowIndex = 0
    · left
      have hv := untrimmed_values_int a hF hB s.rowIndex (s.columnIndex - 1) hr0 hr
        (by omega) (by omega)
      refine ⟨by simp only [UntrimmedAlignments.step, hz, true_or, if_true], by omega, ?_⟩
      simp only [NonEndingRow, infinity] at hv ⊢
      omega
    · right; left
      have hv := untrimmed_values_int a hF hB (s.rowIndex - 1) s.columnIndex
        (by omega) (by omega) hc0 hc
      have hz2 : s.columnIndex = 0 := by omega
      refine ⟨by simp only [UntrimmedAlignments.step, hz, hz2, or_true, if_true, if_false],
        by omega, ?_⟩
      have := hF.col0 (s.rowIndex - 1) (by omega) (by push_cast; omega)
      rw [hz2, this]
      unfold toInt32 infinity
      omega
  · have hrp : 0 < s.rowIndex := by omega
    have hcp : 0 < s.columnIndex := by omega
    have hcur := untrimmed_values_int a hF hB s.rowIndex s.columnIndex hr0 hr hc0 hc
    have hleft := untrimmed_values_int a hF hB s.rowIndex (s.columnIndex - 1) hr0 hr
      (by omega) (by omega)
    have hup := untrimmed_values_int a hF hB (s.rowIndex - 1) s.columnIndex
      (by omega) (by omega) hc0 hc
    have hdiag := untrimmed_values_int a hF hB (s.rowIndex - 1) (s.columnIndex - 1)
      (by omega) (by omega) (by omega) (by omega)
    have heq := hF.inner s.rowIndex s.columnIndex (by omega) (by push_cast; omega)
      (by omega) (by push_cast; omega)
    have hc1 := cost_nonneg (charAt a.ref (s.columnIndex - 1)) '-'
    have hc2 := cost_le_two (charAt a.ref (s.columnIndex - 1)) '-'
    have hc3 := cost_nonneg '-' (charAt a.clr (s.rowIndex - 1))
    have hc4 := cost_nonneg (charAt a.ref (s.columnIndex - 1)) (charAt a.clr (s.rowIndex - 1))
    have hlow := @cost_lower (charAt a.ref (s.columnIndex - 1)) (charAt a.clr (s.rowIndex - 1))
    have hend := @checkIfEndingLowerCase_lower a.clr (s.rowIndex - 1)
    have hpp : s.rowIndex > 0 ∧ s.columnIndex > 0 := ⟨hrp, hcp⟩
    -- every neighbour is between 0 and INT_MAX; the current cell is not the marker
    have hcurF : 0 ≤ readCell a.matrix s.rowIndex s.columnIndex ∧
        readCell a.matrix s.rowIndex s.columnIndex ≤ s.rowIndex + 2 * s.columnIndex := by
      rcases hcur with ⟨h, _⟩ | h
      · exact absurd h hfin
      · exact h
    have hleftR : 0 ≤ readCell a.matrix s.rowIndex (s.columnIndex - 1) ∧
        readCell a.matrix s.rowIndex (s.columnIndex - 1) ≤ 2147483647 := by
      rcases hleft with ⟨h, _⟩ | h
      · rw [h]; decide
      · omega
    have hupR : 0 ≤ readCell a.matrix (s.rowIndex - 1) s.columnIndex ∧
        readCell a.matrix (s.rowIndex - 1) s.columnIndex ≤ 2147483647 := by
      rcases hup with ⟨h, _⟩ | h
      · rw [h]; decide
      · omega
    have hdiagR : 0 ≤ readCell a.matrix (s.rowIndex - 1) (s.columnIndex - 1) ∧
        readCell a.matrix (s.rowIndex - 1) (s.columnIndex - 1) ≤ 2147483647 := by
      rcases hdiag with ⟨h, _⟩ | h
      · rw [h]; decide
      · omega
    have hleftF : ¬ NonEndingRow a.clr s.rowIndex →
        readCell a.matrix s.rowIndex (s.columnIndex - 1)
          ≤ s.rowIndex + 2 * (s.columnIndex - 1) := by
      intro hn
      rcases hleft with ⟨_, h⟩ | h
      · exact absurd h hn
      · exact h.2
    clear hcur hleft hup hdiag
    have hA1 := stdAbs_of_nonneg (add_nonneg hleftR.1 hc1)
    have hA2 := stdAbs_of_nonneg (add_nonneg hupR.1 hc3)
    have hA3 := stdAbs_of_nonneg (add_nonneg hdiagR.1 hc4)
    simp only [UntrimmedAlignments.step, candidates, hb, hpp, and_self, if_true, if_false,
      hA1, hA2, hA3]
    simp only [UntrimmedAlignments.cellValue, hA1, hA2, hA3] at heq
    simp only [NonEndingRow] at hleftF
    simp only [infinity] at hfin heq ⊢
    generalize cost (charAt a.ref (s.columnIndex - 1)) '-' = cd at *
    generalize cost '-' (charAt a.clr (s.rowIndex - 1)) = ci at *
    generalize cost (charAt a.ref (s.columnIndex - 1)) (charAt a.clr (s.rowIndex - 1)) = cs at *
    generalize readCell a.matrix s.rowIndex (s.columnIndex - 1) = left at *
    generalize readCell a.matrix (s.rowIndex - 1) s.columnIndex = up at *
    generalize readCell a.matrix (s.rowIndex - 1) (s.columnIndex - 1) = diag at *
    generalize readCell a.matrix s.rowIndex s.columnIndex = cur at *
    by_cases hE : UntrimmedAlignments.checkIfEndingLowerCase a.clr (s.rowIndex - 1) = true
    · have hcs := hlow (hend hE)
      have hlF := hleftF (by simp [hE])
      simp only [hE, if_true] at heq ⊢
      by_cases hm : toupper (charAt a.ulr (s.columnIndex - 1))
          = toupper (charAt a.clr (s.rowIndex - 1))
      · simp only [hm, if_true] at heq ⊢
        rw [toInt32_of_range (by simp only [min_def]; split_ifs <;> omega)
          (by simp only [min_def]; split_ifs <;> omega), min_def] at heq
        split_ifs at heq ⊢
        all_goals first
          | exact Or.inl ⟨rfl, trivial, by omega⟩
          | exact Or.inr (Or.inr ⟨rfl, trivial, trivial, by omega⟩)
          | (exfalso; omega)
      · simp only [hm, if_false] at heq ⊢
        rw [toInt32_of_range (by omega) (by omega)] at heq
        split_ifs
        · exact Or.inl ⟨rfl, trivial, by omega⟩
        · exfalso; omega
    · simp only [Bool.not_eq_true] at hE
      by_cases hL : islower (charAt a.clr (s.rowIndex - 1)) = true
      · have hcs := hlow hL
        simp only [hE, hL, if_true, Bool.false_eq_true, if_false] at heq ⊢
        by_cases hm : toupper (charAt a.ulr (s.columnIndex - 1))
            = toupper (charAt a.clr (s.rowIndex - 1))
        · simp only [hm, if_true] at heq ⊢
          rw [toInt32_of_range (by omega) (by omega)] at heq
          split_ifs
          · exact Or.inr (Or.inr ⟨rfl, trivial, trivial, by omega⟩)
          · exfalso; omega
        · simp only [hm, if_false] at heq ⊢
          by_cases hd : charAt a.ulr (s.columnIndex - 1) = '-'
          · simp only [hd, if_true] at heq ⊢
            rw [toInt32_of_range (by omega) (by omega)] at heq
            split_ifs
            · exact Or.inl ⟨rfl, trivial, by omega⟩
            · exfalso; omega
          · simp only [hd, if_false] at heq ⊢
            exfalso
            rw [toInt32_of_range (by omega) (by omega)] at heq
            omega
      · simp only [Bool.not_eq_true] at hL
        have hlF := hleftF (by simp [hL])
        simp only [hE, hL, Bool.false_eq_true, if_false] at heq ⊢
        rw [toInt32_of_range (by simp only [min_def]; split_ifs <;> omega)
          (by simp only [min_def]; split_ifs <;> omega)] at heq
        simp only [min_def] at heq
        split_ifs at heq ⊢
        all_goals first
          | exact Or.inl ⟨rfl, trivial, by omega⟩
          | exact Or.inr (Or.inl ⟨rfl, trivial, by omega⟩)
          | exact Or.inr (Or.inr ⟨rfl, trivial, trivial, by omega⟩)
          | (exfalso; omega)

/-! ## Gap stripping and the untrimmed walk -/

theorem stripGaps_gap (l : List Char) : stripGaps ('-' :: l) = stripGaps l := by
  simp [stripGaps]

theorem stripGaps_cons_congr (x : Char) {l1 l2 : List Char}
    (h : stripGaps l1 = stripGaps l2) : stripGaps (x :: l1) = stripGaps (x :: l2) := by
  simp only [stripGaps, List.filter_cons] at h ⊢
  rw [h]

theorem stripGaps_of_not_mem {l : List Char} (h : '-' ∉ l) : stripGaps l = l := by
  unfold stripGaps
  rw [List.filter_eq_self]
  intro c hc
  simp only [bne_iff_ne, ne_eq]
  rintro rfl
  exact h hc

theorem charAt_cons_drop (l : List Char) (r : Int) (h0 : 0 < r) (h1 : r ≤ l.length) :
    charAt l (r - 1) :: l.drop r.toNat = l.drop (r - 1).toNat := by
  obtain ⟨i, rfl⟩ := Int.eq_ofNat_of_zero_le (le_of_lt h0)
  obtain ⟨i, rfl⟩ : ∃ k, i = k + 1 := ⟨i - 1, by omega⟩
  have hi : i < l.length := by omega
  have e1 : (((i + 1 : Nat) : Int) - 1).toNat = i := by omega
  have e2 : (((i + 1 : Nat) : Int)).toNat = i + 1 := by omega
  have e3 : (0 : Int) ≤ ((i + 1 : Nat) : Int) - 1 := by omega
  unfold charAt
  rw [if_pos e3, e1, e2, List.getD_eq_getElem _ _ hi]
  exact (List.drop_eq_getElem_cons hi).symm

/-- The last row of the untrimmed matrix is never the row of a non-ending lowercase base. -/
theorem not_nonEndingRow_last (clr : List Char) : ¬ NonEndingRow clr clr.length := by
  rintro ⟨h1, h2, h3⟩
  have hne : clr.length ≠ 0 := by omega
  have e1 : toSizeT ((clr.length : Int) - 1) = (clr.length : Int) - 1 := by
    unfold toSizeT; rw [if_neg (by omega)]
  have e2 : lengthMinusOne clr = (clr.length : Int) - 1 := by
    unfold lengthMinusOne; rw [if_neg hne]
  simp [UntrimmedAlignments.checkIfEndingLowerCase, e1, e2, h3] at h2

theorem untrimmedInv_step (a : Alignments) (hF : UntrimmedFilled a)
    (hB : a.clr.length + 2 * a.ulr.length + 2 < 2147483647)
    (hlen : a.ref.length = a.ulr.length) (s : Walk) (hI : UntrimmedInv a s)
    (hpos : s.rowIndex > 0 ∨ s.columnIndex > 0) :
    UntrimmedInv a (UntrimmedAlignments.step a s) ∧
    (UntrimmedAlignments.step a s).rowIndex + (UntrimmedAlignments.step a s).columnIndex
      < s.rowIndex + s.columnIndex := by
  rcases untrimmed_step_ok a hF hB s hI.row0 hI.rowLe hI.col0 hI.colLe hpos hI.finite
    with ⟨e, hp, hf⟩ | ⟨e, hp, hf⟩ | ⟨e, hp, hp2, hf⟩
  · rw [e]
    refine ⟨⟨hI.row0, hI.rowLe, ?_, ?_, hf, hI.noError, ?_, ?_, ?_⟩, ?_⟩
    · simp only [deletionStep]; omega
    · simp only [deletionStep]; have := hI.colLe; omega
    · simp only [deletionStep, stripGaps_gap]; exact hI.clrOk
    · simp only [deletionStep]
      rw [← charAt_cons_drop a.ulr s.columnIndex hp hI.colLe]
      exact stripGaps_cons_congr _ hI.ulrOk
    · simp only [deletionStep]
      rw [← charAt_cons_drop a.ref s.columnIndex hp (by rw [hlen]; exact hI.colLe)]
      exact stripGaps_cons_congr _ hI.refOk
    · simp only [deletionStep]; omega
  · rw [e]
    refine ⟨⟨?_, ?_, hI.col0, hI.colLe, hf, hI.noError, ?_, ?_, ?_⟩, ?_⟩
    · simp only [insertionStep]; omega
    · simp only [insertionStep]; have := hI.rowLe; omega
    · simp only [insertionStep]
      rw [← charAt_cons_drop a.clr s.rowIndex hp hI.rowLe]
      exact stripGaps_cons_congr _ hI.clrOk
    · simp only [insertionStep, stripGaps_gap]; exact hI.ulrOk
    · simp only [insertionStep, stripGaps_gap]; exact hI.refOk
    · simp only [insertionStep]; omega
  · rw [e]
    refine ⟨⟨?_, ?_, ?_, ?_, hf, hI.noError, ?_, ?_, ?_⟩, ?_⟩
    · simp only [substitutionStep]; omega
    · simp only [substitutionStep]; have := hI.rowLe; omega
    · simp only [substitutionStep]; omega
    · simp only [substitutionStep]; have := hI.colLe; omega
    · simp only [substitutionStep]
      rw [← charAt_cons_drop a.clr s.rowIndex hp hI.rowLe]
      exact stripGaps_cons_congr _ hI.clrOk
    · simp only [substitutionStep]
      rw [← charAt_cons_drop a.ulr s.columnIndex hp2 hI.colLe]
      exact stripGaps_cons_congr _ hI.ulrOk
    · simp only [substitutionStep]
      rw [← charAt_cons_drop a.ref s.columnIndex hp2 (by rw [hlen]; exact hI.colLe)]
      exact stripGaps_cons_congr _ hI.refOk
    · simp only [substitutionStep]; omega

theorem untrimmedInv_start (a : Alignments) (hF : UntrimmedFilled a)
    (hB : a.clr.length + 2 * a.ulr.length + 2 < 2147483647)
    (hlen : a.ref.length = a.ulr.length)
    (hrows : a.rows = (a.clr.length : Int) + 1) (hcols : a.columns = (a.ulr.length : Int) + 1) :
    UntrimmedInv a a.startWalk := by
  have e1 : a.startWalk.rowIndex = a.clr.length := by simp [Alignments.startWalk, hrows]
  have e2 : a.startWalk.columnIndex = a.ulr.length := by simp [Alignments.startWalk, hcols]
  refine ⟨by omega, by omega, by omega, by omega, ?_, rfl, ?_, ?_, ?_⟩
  · rw [e1, e2]
    rcases untrimmed_values a hF hB a.clr.length (le_refl _) a.ulr.length (le_refl _)
      with ⟨_, h⟩ | h
    · exact absurd h (not_nonEndingRow_last a.clr)
    · unfold infinity; omega
  · rw [e1]; simp [Alignments.startWalk]
  · rw [e2]; simp [Alignments.startWalk]
  · rw [e2]; simp [Alignments.startWalk, ← hlen]

/-- The untrimmed constructor on inputs without space and within the `int`
range: the backtracking ends at `(0, 0)`, prints no error, and each track,
with its gaps deleted, is the corresponding input with its `-` deleted. -/
theorem untrimmed_core (reference uLongRead cLongRead : List Char)
    (hlen : reference.length = uLongRead.length) (hsp : ' ' ∉ cLongRead)
    (hB : cLongRead.length + 2 * uLongRead.length + 2 < 2147483647) :
    ∃ a, UntrimmedAlignments.construct reference uLongRead cLongRead = some a ∧
      a.errors = [] ∧
      stripGaps a.getClr = stripGaps cLongRead ∧
      stripGaps a.getUlr = stripGaps uLongRead ∧
      stripGaps a.getRef = stripGaps reference := by
  have hF := untrimmed_filledObject_filled reference uLongRead cLongRead hsp
  have hrows : (UntrimmedAlignments.filledObject reference uLongRead cLongRead).rows
      = (cLongRead.length : Int) + 1 := by
    simp only [UntrimmedAlignments.filledObject, construct_rows, filter_noSpace hsp]
  obtain ⟨t, ht, hI, hr, hc⟩ := backtrackLoop_inv
    (UntrimmedAlignments.step (UntrimmedAlignments.filledObject reference uLongRead cLongRead))
    (UntrimmedInv (UntrimmedAlignments.filledObject reference uLongRead cLongRead))
    (fun s h => ⟨h.row0, h.col0⟩)
    (fun s h hp => untrimmedInv_step _ hF hB hlen s h hp)
    ((UntrimmedAlignments.filledObject reference uLongRead cLongRead).rows
      + (UntrimmedAlignments.filledObject reference uLongRead cLongRead).columns).toNat
    (UntrimmedAlignments.filledObject reference uLongRead cLongRead).startWalk
    (untrimmedInv_start _ hF hB hlen hrows rfl)
    (startWalk_sum _ (by rw [hrows]; omega) (by
      show (1 : Int) ≤ (uLongRead.length : Int) + 1
      omega))
  refine ⟨(UntrimmedAlignments.filledObject reference uLongRead cLongRead).finish t, ?_,
    ?_, ?_, ?_, ?_⟩
  · rw [untrimmed_construct_eq]
    unfold UntrimmedAlignments.findAlignments
    rw [ht]; rfl
  · show ([] : List Nat) ++ t.errors = []
    rw [hI.noError]; rfl
  · have := hI.clrOk
    rw [hr] at this
    exact this
  · have := hI.ulrOk
    rw [hc] at this
    exact this
  · have := hI.refOk
    rw [hc] at this
    exact this

/-! ## C2 and C4 -/

/-- C2: untrimmed variant, reference and uncorrected read of equal length,
corrected read without space, `|clr| + 2*|ulr| + 2 < 2^31 - 1`.  The constructor
ends, and deleting every `-` from `getClr()`, `getUlr()` and `getRef()` gives the
corrected read, the uncorrected read and the reference with their own `-`
deleted; hence exactly the inputs when these hold no `-`. -/
theorem untrimmed_round_trip (reference uLongRead cLongRead : List Char)
    (hlen : reference.length = uLongRead.length) (hsp : ' ' ∉ cLongRead)
    (hB : cLongRead.length + 2 * uLongRead.length + 2 < 2 ^ 31 - 1) :
    ∃ a, UntrimmedAlignments.construct reference uLongRead cLongRead = some a ∧
      stripGaps a.getClr = stripGaps cLongRead ∧
      stripGaps a.getUlr = stripGaps uLongRead ∧
      stripGaps a.getRef = stripGaps reference ∧
      ('-' ∉ cLongRead → stripGaps a.getClr = cLongRead) ∧
      ('-' ∉ uLongRead → stripGaps a.getUlr = uLongRead) ∧
      ('-' ∉ reference → stripGaps a.getRef = reference) := by
  obtain ⟨a, ha, _, h1, h2, h3⟩ :=
    untrimmed_core reference uLongRead cLongRead hlen hsp (by norm_num at hB ⊢; exact hB)
  exact ⟨a, ha, h1, h2, h3, fun h => by rw [h1, stripGaps_of_not_mem h],
    fun h => by rw [h2, stripGaps_of_not_mem h], fun h => by rw [h3, stripGaps_of_not_mem h]⟩

/-- Witness of C2: a corrected read with a trusted run, an insertion and a gap. -/
theorem untrimmed_round_trip_witness :
    "ACGTAC".toList.length = "AG-TAC".toList.length ∧ ' ' ∉ "ACgtTTAc".toList ∧
    "ACgtTTAc".toList.length + 2 * "AG-TAC".toList.length + 2 < 2 ^ 31 - 1 ∧
    ∃ a, UntrimmedAlignments.construct "ACGTAC".toList "AG-TAC".toList "ACgtTTAc".toList
        = some a ∧
      stripGaps a.getClr = stripGaps "ACgtTTAc".toList ∧
      stripGaps a.getUlr = stripGaps "AG-TAC".toList ∧
      stripGaps a.getRef = stripGaps "ACGTAC".toList ∧
      ('-' ∉ "ACgtTTAc".toList → stripGaps a.getClr = "ACgtTTAc".toList) ∧
      ('-' ∉ "AG-TAC".toList → stripGaps a.getUlr = "AG-TAC".toList) ∧
      ('-' ∉ "ACGTAC".toList → stripGaps a.getRef = "ACGTAC".toList) :=
  ⟨by decide, by decide, by decide,
    untrimmed_round_trip _ _ _ (by decide) (by decide) (by decide)⟩

/-- C4: untrimmed variant, reference and uncorrected read of equal length,
corrected read without space, `|clr| + 2*|ulr| + 2 < 2^31 - 1`.  The
backtracking of `findAlignments` ends without taking any of the "No paths
found" branches (error codes 1 to 6): no error code is recorded. -/
theorem untrimmed_no_error (reference uLongRead cLongRead : List Char)
    (hlen : reference.length = uLongRead.length) (hsp : ' ' ∉ cLongRead)
    (hB : cLongRead.length + 2 * uLongRead.length + 2 < 2 ^ 31 - 1) :
    ∃ a, UntrimmedAlignments.construct reference uLongRead cLongRead = some a ∧
      a.errors = [] := by
  obtain ⟨a, ha, he, _⟩ :=
    untrimmed_core reference uLongRead cLongRead hlen hsp (by norm_num at hB ⊢; exact hB)
  exact ⟨a, ha, he⟩

/-- Witness of C4: a trusted run that mismatches the uncorrected read. -/
theorem untrimmed_no_error_witness :
    "ACGT".toList.length = "AGGT".toList.length ∧ ' ' ∉ "acGt".toList ∧
    "acGt".toList.length + 2 * "AGGT".toList.length + 2 < 2 ^ 31 - 1 ∧
    ∃ a, UntrimmedAlignments.construct "ACGT".toList "AGGT".toList "acGt".toList = some a ∧
      a.errors = [] :=
  ⟨by decide, by decide, by decide,
    untrimmed_no_error _ _ _ (by decide) (by decide) (by decide)⟩

/-! ## Diagonal alignments: C8 and C9 -/

theorem upperBases_facts : ∀ c ∈ upperBases, islower c = false ∧ c ≠ ' ' ∧ toupper c = c ∧
    cost c c = 0 ∧ cost c '-' = 2 ∧ cost '-' c = 2 := by decide

theorem charAt_mem (l : List Char) (i : Int) (h0 : 0 ≤ i) (h1 : i < l.length) :
    charAt l i ∈ l := by
  obtain ⟨k, rfl⟩ := Int.eq_ofNat_of_zero_le h0
  have hk : k < l.length := by omega
  unfold charAt
  rw [if_pos h0, Int.toNat_ofNat, List.getD_eq_getElem _ _ hk]
  exact List.getElem_mem hk

theorem checkIfEndingLowerCase_of_not_lower {clr : List Char} {i : Int}
    (h : islower (charAt clr i) = false) :
    UntrimmedAlignments.checkIfEndingLowerCase clr i = false := by
  cases hE : UntrimmedAlignments.checkIfEndingLowerCase clr i
  · rfl
  · rw [checkIfEndingLowerCase_lower hE] at h
    exact absurd h (by decide)

theorem not_space_of_upperBases {s : List Char} (hs : ∀ c ∈ s, c ∈ upperBases) : ' ' ∉ s :=
  fun h => by
    have := hs _ h
    revert this
    decide

/-- With the same uppercase string on all three inputs the diagonal of the
untrimmed matrix is zero. -/
theorem upper_diagonal (s : List Char) (hs : ∀ c ∈ s, c ∈ upperBases)
    (M : DPMatrix)
    (hF : Filled (fun j => j) (UntrimmedAlignments.cellValue s s s)
      (s.length + 1) (s.length + 1) M) :
    ∀ i : Nat, i ≤ s.length → readCell M i i = 0 := by
  intro i
  induction i with
  | zero =>
    intro _
    have := hF.col0 0 (le_refl _) (by push_cast; omega)
    simpa [toInt32] using this
  | succ i ih =>
    intro hi
    have hd := ih (by omega)
    have heq := hF.inner ((i + 1 : Nat) : Int) ((i + 1 : Nat) : Int) (by push_cast; omega)
      (by push_cast; omega) (by push_cast; omega) (by push_cast; omega)
    obtain ⟨f1, _, _, f4, _, _⟩ := upperBases_facts _
      (hs _ (charAt_mem s (i : Int) (by omega) (by omega)))
    have hE := checkIfEndingLowerCase_of_not_lower f1
    have h1 := stdAbs_nonneg (readCell M ((i : Int) + 1) (i : Int) + cost (charAt s (i : Int)) '-')
    have h2 := stdAbs_nonneg (readCell M (i : Int) ((i : Int) + 1) + cost '-' (charAt s (i : Int)))
    rw [heq]
    simp only [UntrimmedAlignments.cellValue, Nat.cast_add, Nat.cast_one, add_sub_cancel_right,
      hE, f1, Bool.false_eq_true, if_false, hd, f4, add_zero]
    have h3 : stdAbs 0 = 0 := rfl
    rw [h3]
    generalize stdAbs (readCell M ((i : Int) + 1) (i : Int) + cost (charAt s (i : Int)) '-')
      = x at *
    generalize stdAbs (readCell M (i : Int) ((i : Int) + 1) + cost '-' (charAt s (i : Int)))
      = y at *
    have e : min x (min y 0) = 0 := by omega
    rw [e]; rfl

theorem toInt32_min3_nonneg (x y z : Int) (hx : 0 ≤ x) (hy : 0 ≤ y) (hz : 0 ≤ z)
    (h : x ≤ 2 ∨ y ≤ 2 ∨ z ≤ 2) : 0 ≤ toInt32 (min x (min y z)) := by
  simp only [min_def]
  unfold toInt32
  split_ifs <;> omega

/-- Next to the diagonal the cells are not negative. -/
theorem upper_off_diagonal (s : List Char) (hs : ∀ c ∈ s, c ∈ upperBases)
    (M : DPMatrix)
    (hF : Filled (fun j => j) (UntrimmedAlignments.cellValue s s s)
      (s.length + 1) (s.length + 1) M) :
    ∀ i : Nat, i < s.length →
      0 ≤ readCell M ((i : Int) + 1) i ∧ 0 ≤ readCell M i ((i : Int) + 1) := by
  intro i hi
  rcases Nat.eq_zero_or_pos i with rfl | hpos
  · have h1 := hF.col0 1 (by omega) (by push_cast; omega)
    have h2 := hF.row0 1 (by omega) (by push_cast; omega)
    simp only [Nat.cast_zero, zero_add]
    rw [h1, h2]
    decide
  · obtain ⟨k, rfl⟩ : ∃ k, i = k + 1 := ⟨i - 1, by omega⟩
    have hd := upper_diagonal s hs M hF (k + 1) (by omega)
    simp only [Nat.cast_add, Nat.cast_one] at hd
    obtain ⟨f1, _, _, _, _, _⟩ := upperBases_facts _
      (hs _ (charAt_mem s (k : Int) (by omega) (by omega)))
    obtain ⟨g1, _, _, _, g5, g6⟩ := upperBases_facts _
      (hs _ (charAt_mem s ((k : Int) + 1) (by omega) (by omega)))
    have hE1 := checkIfEndingLowerCase_of_not_lower f1
    have hE2 := checkIfEndingLowerCase_of_not_lower g1
    constructor
    · -- below the diagonal: the insertion candidate is 2
      have heq := hF.inner (((k + 1 : Nat) : Int) + 1) ((k + 1 : Nat) : Int)
        (by push_cast; omega) (by push_cast; omega) (by push_cast; omega) (by push_cast; omega)
      simp only [Nat.cast_add, Nat.cast_one] at heq ⊢
      rw [heq]
      simp only [UntrimmedAlignments.cellValue, add_sub_cancel_right, hE2, g1,
        Bool.false_eq_true, if_false, g6, hd]
      exact toInt32_min3_nonneg _ _ _ (stdAbs_nonneg _) (stdAbs_nonneg _) (stdAbs_nonneg _)
        (Or.inr (Or.inl (by decide)))
    · -- right of the diagonal: the deletion candidate is 2
      have heq := hF.inner ((k + 1 : Nat) : Int) (((k + 1 : Nat) : Int) + 1)
        (by push_cast; omega) (by push_cast; omega) (by push_cast; omega) (by push_cast; omega)
      simp only [Nat.cast_add, Nat.cast_one] at heq ⊢
      rw [heq]
      simp only [UntrimmedAlignments.cellValue, add_sub_cancel_right, hE1, f1,
        Bool.false_eq_true, if_false, g5, hd]
      exact toInt32_min3_nonneg _ _ _ (stdAbs_nonneg _) (stdAbs_nonneg _) (stdAbs_nonneg _)
        (Or.inl (by decide))

/-- On the diagonal of the matrix of three equal uppercase strings the
backtracking takes the substitution step. -/
theorem upper_step (s0 : List Char) (hs : ∀ c ∈ s0, c ∈ upperBases) (a : Alignments)
    (hr : a.ref = s0) (hu : a.ulr = s0) (hcl : a.clr = s0)
    (hF : Filled (fun j => j) (UntrimmedAlignments.cellValue s0 s0 s0)
      (s0.length + 1) (s0.length + 1) a.matrix)
    (w : Walk) (h0 : 0 < w.rowIndex) (h1 : w.rowIndex ≤ s0.length)
    (hc : w.columnIndex = w.rowIndex) :
    UntrimmedAlignments.step a w = substitutionStep a w := by
  obtain ⟨r, hr2⟩ := Int.eq_ofNat_of_zero_le (le_of_lt h0)
  obtain ⟨k, rfl⟩ : ∃ k, r = k + 1 := ⟨r - 1, by omega⟩
  have hd1 := upper_diagonal s0 hs a.matrix hF (k + 1) (by omega)
  have hd0 := upper_diagonal s0 hs a.matrix hF k (by omega)
  obtain ⟨ho1, ho2⟩ := upper_off_diagonal s0 hs a.matrix hF k (by omega)
  obtain ⟨f1, _, _, f4, f5, f6⟩ := upperBases_facts _
    (hs _ (charAt_mem s0 (k : Int) (by omega) (by omega)))
  have hE := checkIfEndingLowerCase_of_not_lower f1
  have hb : ¬ (((k + 1 : Nat) : Int) = 0 ∨ ((k + 1 : Nat) : Int) = 0) := by omega
  have hpp : ((k + 1 : Nat) : Int) > 0 ∧ ((k + 1 : Nat) : Int) > 0 := by omega
  have e1 : ((k + 1 : Nat) : Int) - 1 = (k : Int) := by push_cast; omega
  simp only [Nat.cast_add, Nat.cast_one] at hd1
  have n1 : ¬ stdAbs (readCell a.matrix ((k : Int) + 1) (k : Int) + 2) = 0 := by
    unfold stdAbs; split_ifs <;> omega
  have n2 : ¬ stdAbs (readCell a.matrix (k : Int) ((k : Int) + 1) + 2) = 0 := by
    unfold stdAbs; split_ifs <;> omega
  have n3 : stdAbs (0 + 0) = 0 := rfl
  simp only [UntrimmedAlignments.step, hc, hr2, hb, hpp, candidates, and_self, if_true,
    if_false, e1, hr, hu, hcl, hE, f1, Bool.false_eq_true, f4, f5, f6, hd0]
  simp only [Nat.cast_add, Nat.cast_one, hd1, n1, n2, n3, if_true, if_false]

theorem diagInv_step (s0 : List Char) (hs : ∀ c ∈ s0, c ∈ upperBases) (a : Alignments)
    (hr : a.ref = s0) (hu : a.ulr = s0) (hcl : a.clr = s0)
    (hF : Filled (fun j => j) (UntrimmedAlignments.cellValue s0 s0 s0)
      (s0.length + 1) (s0.length + 1) a.matrix)
    (w : Walk) (hI : DiagInv s0 w) (hpos : w.rowIndex > 0 ∨ w.columnIndex > 0) :
    DiagInv s0 (UntrimmedAlignments.step a w) ∧
    (UntrimmedAlignments.step a w).rowIndex + (UntrimmedAlignments.step a w).columnIndex
      < w.rowIndex + w.columnIndex := by
  have hc := hI.col
  have h0 : 0 < w.rowIndex := by omega
  rw [upper_step s0 hs a hr hu hcl hF w h0 hI.rowLe hc]
  have hdrop := charAt_cons_drop s0 w.rowIndex h0 hI.rowLe
  refine ⟨⟨?_, ?_, ?_, hI.noError, ?_, ?_, ?_⟩, ?_⟩
  · simp only [substitutionStep]; omega
  · simp only [substitutionStep]; have := hI.rowLe; omega
  · simp only [substitutionStep]; omega
  · simp only [substitutionStep, hcl, hI.clrOk]; exact hdrop
  · simp only [substitutionStep, hu, hI.ulrOk, hc]; exact hdrop
  · simp only [substitutionStep, hr, hI.refOk, hc]; exact hdrop
  · simp only [substitutionStep]; omega

/-! ## C8 -/

/-- C8: untrimmed variant.  For every non-empty string `s` over the uppercase
letters `A`, `C`, `G`, `T`, `N`, the constructor with reference, uncorrected
read and corrected read all equal to `s` ends with the bottom-right matrix cell
equal to `0`, and `getRef()`, `getUlr()` and `getClr()` all return `s`. -/
theorem untrimmed_identity (s : List Char) (_hne : s ≠ [])
    (hs : ∀ c ∈ s, c ∈ upperBases) :
    ∃ a, UntrimmedAlignments.construct s s s = some a ∧
      readCell a.matrix (a.rows - 1) (a.columns - 1) = 0 ∧
      a.getRef = s ∧ a.getUlr = s ∧ a.getClr = s := by
  have hsp := not_space_of_upperBases hs
  have hF : Filled (fun j => j) (UntrimmedAlignments.cellValue s s s)
      (s.length + 1) (s.length + 1) (UntrimmedAlignments.filledObject s s s).matrix :=
    untrimmed_filledObject_filled s s s hsp
  have hrows : (UntrimmedAlignments.filledObject s s s).rows = (s.length : Int) + 1 := by
    simp only [UntrimmedAlignments.filledObject, construct_rows, filter_noSpace hsp]
  have hcols : (UntrimmedAlignments.filledObject s s s).columns = (s.length : Int) + 1 := rfl
  obtain ⟨t, ht, hI, hr, _⟩ := backtrackLoop_inv
    (UntrimmedAlignments.step (UntrimmedAlignments.filledObject s s s)) (DiagInv s)
    (fun w h => ⟨h.row0, by rw [h.col]; exact h.row0⟩)
    (fun w h hp => diagInv_step s hs _ rfl rfl rfl hF w h hp)
    ((UntrimmedAlignments.filledObject s s s).rows
      + (UntrimmedAlignments.filledObject s s s).columns).toNat
    (UntrimmedAlignments.filledObject s s s).startWalk
    ⟨by simp only [Alignments.startWalk, hrows]; omega,
      by simp only [Alignments.startWalk, hrows]; omega,
      by simp only [Alignments.startWalk, hrows, hcols],
      rfl,
      by simp [Alignments.startWalk, hrows],
      by simp [Alignments.startWalk, hrows],
      by simp [Alignments.startWalk, hrows]⟩
    (startWalk_sum _ (by rw [hrows]; omega) (by rw [hcols]; omega))
  refine ⟨(UntrimmedAlignments.filledObject s s s).finish t, ?_, ?_, ?_, ?_, ?_⟩
  · rw [untrimmed_construct_eq]
    unfold UntrimmedAlignments.findAlignments
    rw [ht]; rfl
  · have hd := upper_diagonal s hs _ hF s.length (le_refl _)
    show readCell (UntrimmedAlignments.filledObject s s s).matrix
      ((UntrimmedAlignments.filledObject s s s).rows - 1)
      ((UntrimmedAlignments.filledObject s s s).columns - 1) = 0
    rw [hrows, hcols, add_sub_cancel_right]
    exact hd
  · have := hI.refOk
    rw [hr] at this
    simpa [Alignments.getRef, Alignments.finish] using this
  · have := hI.ulrOk
    rw [hr] at this
    simpa [Alignments.getUlr, Alignments.finish] using this
  · have := hI.clrOk
    rw [hr] at this
    simpa [Alignments.getClr, Alignments.finish] using this

/-- Witness of C8: scenario A, `s = "ACGT"`. -/
theorem untrimmed_identity_witness :
    "ACGT".toList ≠ [] ∧ (∀ c ∈ "ACGT".toList, c ∈ upperBases) ∧
    ∃ a, UntrimmedAlignments.construct "ACGT".toList "ACGT".toList "ACGT".toList = some a ∧
      readCell a.matrix (a.rows - 1) (a.columns - 1) = 0 ∧
      a.getRef = "ACGT".toList ∧ a.getUlr = "ACGT".toList ∧ a.getClr = "ACGT".toList :=
  ⟨by decide, by decide, untrimmed_identity _ (by decide) (by decide)⟩

/-! ## C9 -/

/-- Counterexample to C9: the all-lowercase corrected read `a` against
reference and uncorrected read `C` leaves `3`, not `0`, in the bottom-right cell. -/
theorem lowercase_cost_counterexample :
    (∀ c ∈ "a".toList, islower c = true) ∧ "C".toList.length = "C".toList.length ∧
    readCell (UntrimmedAlignments.fill (Alignments.construct "C".toList "C".toList "a".toList))
      ((Alignments.construct "C".toList "C".toList "a".toList).rows - 1)
      ((Alignments.construct "C".toList "C".toList "a".toList).columns - 1) = 3 := by
  decide

theorem charAt_map_toupper {l1 l2 : List Char} (h : l1.map toupper = l2.map toupper)
    (i : Int) (h0 : 0 ≤ i) (h1 : i < l2.length) :
    toupper (charAt l1 i) = toupper (charAt l2 i) := by
  obtain ⟨k, rfl⟩ := Int.eq_ofNat_of_zero_le h0
  have hl : l1.length = l2.length := by simpa using congrArg List.length h
  have hk2 : k < l2.length := by omega
  have hk1 : k < l1.length := by omega
  have e := congrArg (fun l => l[k]?) h
  simp only [List.getElem?_map, List.getElem?_eq_getElem hk1, List.getElem?_eq_getElem hk2,
    Option.map_some', Option.some.injEq] at e
  unfold charAt
  rw [if_pos h0, Int.toNat_ofNat, List.getD_eq_getElem _ _ hk1, List.getD_eq_getElem _ _ hk2]
  exact e

theorem not_space_of_lower {s : List Char} (hs : ∀ c ∈ s, islower c = true) : ' ' ∉ s :=
  fun h => by
    have := hs _ h
    revert this
    decide

/-- With an all-lowercase corrected read that equals the uncorrected read
ignoring case, the diagonal of the untrimmed matrix is zero. -/
theorem lower_diagonal (reference uLongRead cLongRead : List Char)
    (hlow : ∀ c ∈ cLongRead, islower c = true)
    (hm : uLongRead.map toupper = cLongRead.map toupper) (M : DPMatrix)
    (hF : Filled (fun j => j) (UntrimmedAlignments.cellValue reference uLongRead cLongRead)
      (cLongRead.length + 1) (uLongRead.length + 1) M) :
    ∀ i : Nat, i ≤ cLongRead.length → readCell M i i = 0 := by
  have hl : uLongRead.length = cLongRead.length := by simpa using congrArg List.length hm
  intro i
  induction i with
  | zero =>
    intro _
    have := hF.col0 0 (le_refl _) (by push_cast; omega)
    simpa [toInt32] using this
  | succ i ih =>
    intro hi
    have hd := ih (by omega)
    have heq := hF.inner ((i + 1 : Nat) : Int) ((i + 1 : Nat) : Int) (by push_cast; omega)
      (by push_cast; omega) (by push_cast; omega) (by push_cast; omega)
    have hL := hlow _ (charAt_mem cLongRead (i : Int) (by omega) (by omega))
    have hc := cost_lower (charAt reference (i : Int)) hL
    have hmt := charAt_map_toupper hm (i : Int) (by omega) (by omega)
    have h1 := stdAbs_nonneg (readCell M ((i : Int) + 1) (i : Int)
      + cost (charAt reference (i : Int)) '-')
    have h3 : stdAbs (0 + 0) = 0 := rfl
    rw [heq]
    simp only [UntrimmedAlignments.cellValue, Nat.cast_add, Nat.cast_one, add_sub_cancel_right,
      hL, hmt, if_true, hd, hc, h3]
    generalize stdAbs (readCell M ((i : Int) + 1) (i : Int)
      + cost (charAt reference (i : Int)) '-') = x at *
    have e : min 0 x = 0 := by omega
    rw [e]
    split_ifs <;> rfl

/-- C9 (amended): untrimmed variant.  For every corrected read that consists
only of lowercase letters, every uncorrected read equal to it ignoring letter
case and every reference of the same length, the bottom-right cell of the
matrix filled by `initialize` is `0`. -/
theorem lowercase_matching_cost_zero (reference uLongRead cLongRead : List Char)
    (_hlen : reference.length = uLongRead.length)
    (hlow : ∀ c ∈ cLongRead, islower c = true)
    (hm : uLongRead.map toupper = cLongRead.map toupper) :
    readCell (UntrimmedAlignments.fill (Alignments.construct reference uLongRead cLongRead))
      ((Alignments.construct reference uLongRead cLongRead).rows - 1)
      ((Alignments.construct reference uLongRead cLongRead).columns - 1) = 0 := by
  have hsp := not_space_of_lower hlow
  have hl : uLongRead.length = cLongRead.length := by simpa using congrArg List.length hm
  have hF : Filled (fun j => j) (UntrimmedAlignments.cellValue reference uLongRead cLongRead)
      (cLongRead.length + 1) (uLongRead.length + 1)
      (UntrimmedAlignments.filledObject reference uLongRead cLongRead).matrix :=
    untrimmed_filledObject_filled reference uLongRead cLongRead hsp
  have hd := lower_diagonal reference uLongRead cLongRead hlow hm _ hF cLongRead.length
    (le_refl _)
  rw [construct_rows, construct_columns, filter_noSpace hsp, add_sub_cancel_right,
    add_sub_cancel_right, hl]
  exact hd

/-- Witness of C9 (amended): the trusted read `acgt` against `ACGT`, with a
reference that differs. -/
theorem lowercase_matching_cost_zero_witness :
    "AGGT".toList.length = "ACGT".toList.length ∧
    (∀ c ∈ "acgt".toList, islower c = true) ∧
    "ACGT".toList.map toupper = "acgt".toList.map toupper ∧
    readCell
      (UntrimmedAlignments.fill (Alignments.construct "AGGT".toList "ACGT".toList "acgt".toList))
      ((Alignments.construct "AGGT".toList "ACGT".toList "acgt".toList).rows - 1)
      ((Alignments.construct "AGGT".toList "ACGT".toList "acgt".toList).columns - 1) = 0 :=
  ⟨by decide, by decide, by decide,
    lowercase_matching_cost_zero _ _ _ (by decide) (by decide) (by decide)⟩

/-! ## C10 -/

/-- Counterexample to C10: in scenario B the bottom-right cell is not `0` and
`getClr()` is not `acgt`. -/
theorem scenarioB_counterexample :
    ¬ ∃ a, UntrimmedAlignments.construct "ACGT".toList "AGGT".toList "acgt".toList = some a ∧
      readCell a.matrix (a.rows - 1) (a.columns - 1) = 0 ∧ a.getClr = "acgt".toList := by
  decide

/-- C10 (amended): untrimmed variant, scenario B.  With reference `ACGT`,
uncorrected read `AGGT` and corrected read `acgt` the bottom-right matrix cell is
`12`, `getClr()` returns `acgt----`, `getUlr()` returns `----AGGT`, `getRef()`
returns `----ACGT`, and no error branch is taken. -/
theorem scenarioB :
    ∃ a, UntrimmedAlignments.construct "ACGT".toList "AGGT".toList "acgt".toList = some a ∧
      readCell a.matrix (a.rows - 1) (a.columns - 1) = 12 ∧
      a.getClr = "acgt----".toList ∧ a.getUlr = "----AGGT".toList ∧
      a.getRef = "----ACGT".toList ∧ a.errors = [] := by
  decide

/-! ## The cost function: C6 and C7 -/

/-- C6: for all `refBase` and `cBase` in `{A,C,G,T,N,-}` and the lowercase
letters, `cost refBase cBase` is `0` when `cBase` is lowercase, otherwise `0`
when the two are equal ignoring letter case, otherwise `2`; no other value is returned. -/
theorem cost_spec : ∀ refBase ∈ designAlphabet, ∀ cBase ∈ designAlphabet,
    cost refBase cBase
      = (if islower cBase then 0 else if toupper refBase = toupper cBase then 0 else 2) ∧
    (cost refBase cBase = 0 ∨ cost refBase cBase = 2) := by
  decide

/-- Witness of C6: a lowercase reference base against a different uppercase base costs 2. -/
theorem cost_spec_witness :
    'g' ∈ designAlphabet ∧ 'T' ∈ designAlphabet ∧
    (cost 'g' 'T' = (if islower 'T' then 0 else if toupper 'g' = toupper 'T' then 0 else 2) ∧
      (cost 'g' 'T' = 0 ∨ cost 'g' 'T' = 2)) :=
  ⟨by decide, by decide, cost_spec 'g' (by decide) 'T' (by decide)⟩

/-- Counterexample to C7: `cost` is not commutative on the alphabet,
`cost 'A' 'c' = 0` and `cost 'c' 'A' = 2`. -/
theorem cost_not_commutative :
    'A' ∈ designAlphabet ∧ 'c' ∈ designAlphabet ∧ cost 'A' 'c' = 0 ∧ cost 'c' 'A' = 2 ∧
    cost 'A' 'c' ≠ cost 'c' 'A' := by
  decide

/-- C7 (amended): for all `a` and `b` in `{A,C,G,T,N,-}` and the lowercase
letters, `cost a b = cost b a` holds exactly when `a` and `b` are both lowercase,
or both not lowercase, or equal ignoring letter case. -/
theorem cost_comm_iff : ∀ a ∈ designAlphabet, ∀ b ∈ designAlphabet,
    (cost a b = cost b a ↔ (islower a = islower b ∨ toupper a = toupper b)) := by
  decide

/-- Witness of C7 (amended): a lowercase base and the same base in uppercase. -/
theorem cost_comm_iff_witness :
    't' ∈ designAlphabet ∧ 'T' ∈ designAlphabet ∧
    (cost 't' 'T' = cost 'T' 't' ↔ (islower 't' = islower 'T' ∨ toupper 't' = toupper 'T')) :=
  ⟨by decide, by decide, cost_comm_iff 't' (by decide) 'T' (by decide)⟩

/-! ## The trimmed variant on a lowercase reference base: C3 and C5 -/

theorem trimmed_construct_eq (reference uLongRead cLongRead : List Char) :
    TrimmedAlignments.construct reference uLongRead cLongRead
      = TrimmedAlignments.findAlignments
          (TrimmedAlignments.filledObject reference uLongRead cLongRead) := rfl

/-- C3, evaluated at a failing input: with reference `Ag`, uncorrected read `Ag`
and corrected read `AC` the trimmed constructor prints the error message and
returns `getRef() = ""`, `getUlr() = ""`, `getClr() = ""`, so that stripping
`-` and `X` does not give back the inputs. -/
theorem trimmed_round_trip_fails :
    ∃ a, TrimmedAlignments.construct "Ag".toList "Ag".toList "AC".toList = some a ∧
      a.getRef = [] ∧ a.getUlr = [] ∧ a.getClr = [] ∧ a.errors = [0] ∧
      a.getRef.filter (fun c => c != '-' && c != 'X') ≠ "Ag".toList := by
  decide

/-- C5, evaluated at a failing input: with reference `a`, uncorrected read `a`
and corrected read `C`, the fill stores `0` in cell `(1, 1)`, its substitution
candidate `matrix[0][0] + cost('C', 'a')`; the three candidates recomputed by the
backtracking at that cell are `1`, `2` and `matrix[0][0] + cost('a', 'C') = 2`, and
the iteration takes the "No paths found" branch. -/
theorem trimmed_backtrack_mismatch :
    readCell (TrimmedAlignments.filledObject "a".toList "a".toList "C".toList).matrix 1 1 = 0 ∧
    readCell (TrimmedAlignments.filledObject "a".toList "a".toList "C".toList).matrix 0 0
      + cost 'C' 'a' = 0 ∧
    readCell (TrimmedAlignments.filledObject "a".toList "a".toList "C".toList).matrix 1 0 = 1 ∧
    readCell (TrimmedAlignments.filledObject "a".toList "a".toList "C".toList).matrix 0 1
      + cost '-' 'C' = 2 ∧
    readCell (TrimmedAlignments.filledObject "a".toList "a".toList "C".toList).matrix 0 0
      + cost 'a' 'C' = 2 ∧
    TrimmedAlignments.step (TrimmedAlignments.filledObject "a".toList "a".toList "C".toList)
        (TrimmedAlignments.filledObject "a".toList "a".toList "C".toList).startWalk
      = noPath 0
        (TrimmedAlignments.filledObject "a".toList "a".toList "C".toList).startWalk ∧
    (TrimmedAlignments.construct "a".toList "a".toList "C".toList).map
      (fun a => a.errors) = some [0] := by
  decide

/-! ## The untrimmed fill for any corrected read -/

/-- The matrix filled by the untrimmed constructor satisfies the fill equations,
whatever the corrected read: it has as many rows as the corrected read has
characters other than spaces, plus one. -/
theorem untrimmed_filled_rows (reference uLongRead cLongRead : List Char) :
    Filled (fun j => j) (UntrimmedAlignments.cellValue reference uLongRead cLongRead)
      ((cLongRead.filter (fun c => c != ' ')).length + 1) (uLongRead.length + 1)
      (UntrimmedAlignments.filledObject reference uLongRead cLongRead).matrix := by
  have h := fillLoops_filled (fun j => j)
    (UntrimmedAlignments.cellValue reference uLongRead cLongRead)
    (untrimmed_cellValue_local _ _ _) ((cLongRead.filter (fun c => c != ' ')).length + 1)
    (uLongRead.length + 1) (by omega) (by omega)
    (List.replicate ((cLongRead.filter (fun c => c != ' ')).length + 1)
      (List.replicate (uLongRead.length + 1) 0)) (dims_replicate _ _)
  have e : (UntrimmedAlignments.filledObject reference uLongRead cLongRead).matrix
      = fillLoops (fun j => j) (UntrimmedAlignments.cellValue reference uLongRead cLongRead)
          (((cLongRead.filter (fun c => c != ' ')).length + 1 : Nat) : Int)
          ((uLongRead.length + 1 : Nat) : Int)
          (List.replicate ((cLongRead.filter (fun c => c != ' ')).length + 1)
            (List.replicate (uLongRead.length + 1) 0)) := by
    simp only [UntrimmedAlignments.filledObject, untrimmed_fill_eq,
      Alignments.construct, Alignments.createMatrix]
    congr 1
  rw [e]
  exact h

/-- The bounds of `untrimmed_values` for a matrix of any number of rows that
satisfies the fill equations. -/
theorem untrimmed_values_rows (ref ulr clr : List Char) (M : DPMatrix) (R C : Nat)
    (hF : Filled (fun j => j) (UntrimmedAlignments.cellValue ref ulr clr) R C M)
    (hB : R + 2 * C < 2147483648) :
    ∀ i : Nat, i < R → ∀ j : Nat, j < C →
      (readCell M i j = infinity ∧ NonEndingRow clr i) ∨
      (0 ≤ readCell M i j ∧ readCell M i j ≤ (i : Int) + 2 * j) := by
  intro i
  induction i with
  | zero =>
    intro _ j hj
    right
    rcases Nat.eq_zero_or_pos j with rfl | hpos
    · have := hF.col0 0 (le_refl _) (by omega)
      simp only [Nat.cast_zero] at this ⊢
      rw [this]; unfold toInt32; omega
    · have := hF.row0 j (by omega) (by omega)
      simp only [Nat.cast_zero] at this ⊢
      rw [this]; unfold toInt32; omega
  | succ i ih =>
    intro hi j
    have ih2 := ih (by omega)
    induction j with
    | zero =>
      intro _
      right
      have := hF.col0 ((i + 1 : Nat) : Int) (by omega) (by push_cast; omega)
      simp only [Nat.cast_zero] at this ⊢
      rw [this]; unfold toInt32; push_cast; omega
    | succ j ihj =>
      intro hj
      have hleft := ihj (by omega)
      have hdiag := ih2 j (by omega)
      have hup := ih2 (j + 1) hj
      have heq := hF.inner ((i + 1 : Nat) : Int) ((j + 1 : Nat) : Int) (by push_cast; omega)
        (by push_cast; omega) (by push_cast; omega) (by push_cast; omega)
      have hc1 := cost_nonneg (charAt ref (j : Int)) '-'
      have hc2 := cost_le_two (charAt ref (j : Int)) '-'
      have hc3 := cost_nonneg '-' (charAt clr (i : Int))
      have hc4 := cost_nonneg (charAt ref (j : Int)) (charAt clr (i : Int))
      have hlow := @cost_lower (charAt ref (j : Int)) (charAt clr (i : Int))
      have hend := @checkIfEndingLowerCase_lower clr (i : Int)
      rw [heq]
      simp only [UntrimmedAlignments.cellValue, NonEndingRow, Nat.cast_add, Nat.cast_one,
        add_sub_cancel_right, infinity] at hleft hdiag hup ⊢
      generalize cost (charAt ref (j : Int)) '-' = cd at *
      generalize cost '-' (charAt clr (i : Int)) = ci at *
      generalize cost (charAt ref (j : Int)) (charAt clr (i : Int)) = cs at *
      generalize readCell M ((i : Int) + 1) (j : Int) = left at *
      generalize readCell M (i : Int) ((j : Int) + 1) = up at *
      generalize readCell M (i : Int) (j : Int) = diag at *
      by_cases hE : UntrimmedAlignments.checkIfEndingLowerCase clr (i : Int) = true
      · have := hlow (hend hE)
        simp only [hE, if_true, Bool.true_eq_false, false_and, and_false, or_false, false_or]
          at hleft ⊢
        unfold stdAbs toInt32
        split_ifs <;> omega
      · simp only [Bool.not_eq_true] at hE
        by_cases hL : islower (charAt clr (i : Int)) = true
        · have := hlow hL
          simp only [hE, hL, and_self, and_true, if_true, Bool.false_eq_true, if_false]
          unfold stdAbs toInt32
          split_ifs <;> omega
        · simp only [Bool.not_eq_true] at hL
          simp only [hE, hL, Bool.false_eq_true, if_false, and_false, false_or, or_false,
            and_true] at hleft ⊢
          unfold stdAbs toInt32
          split_ifs <;> omega

/-- The cells of the matrix filled by the untrimmed constructor, for inputs within
the `int` range: the infinity marker in a row of a non-ending lowercase base, or a
value between `0` and `i + 2 * j`. -/
theorem untrimmed_object_values (reference uLongRead cLongRead : List Char)
    (hB : cLongRead.length + 2 * uLongRead.length + 2 < 2147483647) (i j : Int)
    (hi0 : 0 ≤ i) (hi : i < (UntrimmedAlignments.filledObject reference uLongRead cLongRead).rows)
    (hj0 : 0 ≤ j)
    (hj : j < (UntrimmedAlignments.filledObject reference uLongRead cLongRead).columns) :
    (readCell (UntrimmedAlignments.filledObject reference uLongRead cLongRead).matrix i j
        = infinity ∧ NonEndingRow cLongRead i) ∨
    (0 ≤ readCell (UntrimmedAlignments.filledObject reference uLongRead cLongRead).matrix i j ∧
      readCell (UntrimmedAlignments.filledObject reference uLongRead cLongRead).matrix i j
        ≤ i + 2 * j) := by
  have hfl := List.length_filter_le (fun c => c != ' ') cLongRead
  have hrows : (UntrimmedAlignments.filledObject reference uLongRead cLongRead).rows
      = ((cLongRead.filter (fun c => c != ' ')).length : Int) + 1 := rfl
  have hcols : (UntrimmedAlignments.filledObject reference uLongRead cLongRead).columns
      = (uLongRead.length : Int) + 1 := rfl
  rw [hrows] at hi
  rw [hcols] at hj
  obtain ⟨i, rfl⟩ := Int.eq_ofNat_of_zero_le hi0
  obtain ⟨j, rfl⟩ := Int.eq_ofNat_of_zero_le hj0
  exact untrimmed_values_rows reference uLongRead cLongRead _ _ _
    (untrimmed_filled_rows reference uLongRead cLongRead) (by omega) i (by omega) j (by omega)

/-- The value computed for an interior cell of the untrimmed matrix lies in the
`int` range, for inputs within that range. -/
theorem untrimmed_cellValue_range (ref ulr clr : List Char) (M : DPMatrix) (R C : Nat)
    (hF : Filled (fun j => j) (UntrimmedAlignments.cellValue ref ulr clr) R C M)
    (hB : R + 2 * C < 2147483648) (i j : Nat) (hi : i + 1 < R) (hj : j + 1 < C) :
    0 ≤ UntrimmedAlignments.cellValue ref ulr clr M ((i : Int) + 1) ((j : Int) + 1) ∧
    UntrimmedAlignments.cellValue ref ulr clr M ((i : Int) + 1) ((j : Int) + 1)
      ≤ 2147483647 := by
  have hv := untrimmed_values_rows ref ulr clr M R C hF hB
  have hleft := hv (i + 1) hi j (by omega)
  have hdiag := hv i (by omega) j (by omega)
  have hup := hv i (by omega) (j + 1) hj
  have hc1 := cost_nonneg (charAt ref (j : Int)) '-'
  have hc2 := cost_le_two (charAt ref (j : Int)) '-'
  have hc3 := cost_nonneg '-' (charAt clr (i : Int))
  have hc4 := cost_nonneg (charAt ref (j : Int)) (charAt clr (i : Int))
  have hlow := @cost_lower (charAt ref (j : Int)) (charAt clr (i : Int))
  have hend := @checkIfEndingLowerCase_lower clr (i : Int)
  simp only [UntrimmedAlignments.cellValue, NonEndingRow, Nat.cast_add, Nat.cast_one,
    add_sub_cancel_right, infinity] at hleft hdiag hup ⊢
  generalize cost (charAt ref (j : Int)) '-' = cd at *
  generalize cost '-' (charAt clr (i : Int)) = ci at *
  generalize cost (charAt ref (j : Int)) (charAt clr (i : Int)) = cs at *
  generalize readCell M ((i : Int) + 1) (j : Int) = left at *
  generalize readCell M (i : Int) ((j : Int) + 1) = up at *
  generalize readCell M (i : Int) (j : Int) = diag at *
  by_cases hE : UntrimmedAlignments.checkIfEndingLowerCase clr (i : Int) = true
  · have := hlow (hend hE)
    simp only [hE, if_true, Bool.true_eq_false, false_and, and_false, or_false, false_or]
      at hleft ⊢
    simp only [min_def]
    unfold stdAbs
    split_ifs <;> omega
  · simp only [Bool.not_eq_true] at hE
    by_cases hL : islower (charAt clr (i : Int)) = true
    · have := hlow hL
      simp only [hE, hL, and_self, and_true, if_true, Bool.false_eq_true, if_false]
      unfold stdAbs
      split_ifs <;> omega
    · simp only [Bool.not_eq_true] at hL
      simp only [hE, hL, Bool.false_eq_true, if_false, and_false, false_or, or_false,
        and_true] at hleft ⊢
      simp only [min_def]
      unfold stdAbs
      split_ifs <;> omega

/-! ## C11 -/

/-- Counterexample to C11: with reference and uncorrected read `AC` and corrected
read `g`, cell `(1, 2)` of the untrimmed matrix holds `5`, above `1 + 2`. -/
theorem untrimmed_cell_bound_counterexample :
    "AC".toList.length = "AC".toList.length ∧
    readCell (UntrimmedAlignments.filledObject "AC".toList "AC".toList "g".toList).matrix 1 2
      = 5 ∧
    ¬ (readCell (UntrimmedAlignments.filledObject "AC".toList "AC".toList "g".toList).matrix 1 2
      ≤ 1 + 2) := by
  decide

/-- C11 (amended): untrimmed variant.  For every reference and uncorrected read
of equal length and every corrected read with `|clr| + 2*|ulr| + 2 < 2^31 - 1`,
every cell `(i, j)` of the matrix filled by `initialize` satisfies
`0 <= matrix[i][j] <= INT_MAX`, and `matrix[i][j] <= i + 2*j` unless it holds the
infinity marker `INT_MAX`. -/
theorem untrimmed_cell_bound (reference uLongRead cLongRead : List Char)
    (_hlen : reference.length = uLongRead.length)
    (hB : cLongRead.length + 2 * uLongRead.length + 2 < 2 ^ 31 - 1) (i j : Int)
    (hi0 : 0 ≤ i) (hi : i < (UntrimmedAlignments.filledObject reference uLongRead cLongRead).rows)
    (hj0 : 0 ≤ j)
    (hj : j < (UntrimmedAlignments.filledObject reference uLongRead cLongRead).columns) :
    0 ≤ readCell (UntrimmedAlignments.filledObject reference uLongRead cLongRead).matrix i j ∧
    readCell (UntrimmedAlignments.filledObject reference uLongRead cLongRead).matrix i j
      ≤ infinity ∧
    (readCell (UntrimmedAlignments.filledObject reference uLongRead cLongRead).matrix i j
        ≠ infinity →
      readCell (UntrimmedAlignments.filledObject reference uLongRead cLongRead).matrix i j
        ≤ i + 2 * j) := by
  have hrows : (UntrimmedAlignments.filledObject reference uLongRead cLongRead).rows
      = ((cLongRead.filter (fun c => c != ' ')).length : Int) + 1 := rfl
  have hcols : (UntrimmedAlignments.filledObject reference uLongRead cLongRead).columns
      = (uLongRead.length : Int) + 1 := rfl
  have hfl := List.length_filter_le (fun c => c != ' ') cLongRead
  have hB2 : cLongRead.length + 2 * uLongRead.length + 2 < 2147483647 := by
    norm_num at hB ⊢; exact hB
  rcases untrimmed_object_values reference uLongRead cLongRead hB2 i j hi0 hi hj0 hj
    with ⟨h, _⟩ | ⟨h1, h2⟩
  · rw [h]
    exact ⟨by decide, le_refl _, fun hne => absurd rfl hne⟩
  · rw [hrows] at hi
    rw [hcols] at hj
    refine ⟨h1, ?_, fun _ => h2⟩
    unfold infinity
    omega

/-- Witness of C11 (amended): the bottom-right cell of scenario B. -/
theorem untrimmed_cell_bound_witness :
    "ACGT".toList.length = "AGGT".toList.length ∧
    "acgt".toList.length + 2 * "AGGT".toList.length + 2 < 2 ^ 31 - 1 ∧
    (0 : Int) ≤ 4 ∧
    (4 : Int) < (UntrimmedAlignments.filledObject "ACGT".toList "AGGT".toList
      "acgt".toList).rows ∧
    (4 : Int) < (UntrimmedAlignments.filledObject "ACGT".toList "AGGT".toList
      "acgt".toList).columns ∧
    (0 ≤ readCell (UntrimmedAlignments.filledObject "ACGT".toList "AGGT".toList
        "acgt".toList).matrix 4 4 ∧
      readCell (UntrimmedAlignments.filledObject "ACGT".toList "AGGT".toList
        "acgt".toList).matrix 4 4 ≤ infinity ∧
      (readCell (UntrimmedAlignments.filledObject "ACGT".toList "AGGT".toList
          "acgt".toList).matrix 4 4 ≠ infinity →
        readCell (UntrimmedAlignments.filledObject "ACGT".toList "AGGT".toList
          "acgt".toList).matrix 4 4 ≤ 4 + 2 * 4)) :=
  ⟨by decide, by decide, by decide, by decide, by decide,
    untrimmed_cell_bound _ _ _ (by decide) (by decide) 4 4 (by decide) (by decide)
      (by decide) (by decide)⟩

/-! ## C20 -/

/-- C20: untrimmed fill, reference and uncorrected read of equal length,
`|clr| + 2*|ulr| + 2 < 2^31 - 1`.  Every cell `(i, j)` written by `initialize` is
`INT_MAX`, and then lies in a row of a non-ending lowercase base, or is between `0`
and `i + 2*j`; the base-case values `i` and `j` are stored unchanged; at every
interior cell the three sums handed to `std::abs` are not negative, `std::abs`
returns them unchanged, and the value computed for the cell is stored into the
`int` matrix unchanged. -/
theorem untrimmed_no_overflow (reference uLongRead cLongRead : List Char)
    (_hlen : reference.length = uLongRead.length)
    (hB : cLongRead.length + 2 * uLongRead.length + 2 < 2 ^ 31 - 1) (i j : Int)
    (hi0 : 0 ≤ i) (hi : i < (UntrimmedAlignments.filledObject reference uLongRead cLongRead).rows)
    (hj0 : 0 ≤ j)
    (hj : j < (UntrimmedAlignments.filledObject reference uLongRead cLongRead).columns) :
    ((readCell (UntrimmedAlignments.filledObject reference uLongRead cLongRead).matrix i j
        = infinity ∧ NonEndingRow cLongRead i) ∨
      (0 ≤ readCell (UntrimmedAlignments.filledObject reference uLongRead cLongRead).matrix i j ∧
        readCell (UntrimmedAlignments.filledObject reference uLongRead cLongRead).matrix i j
          ≤ i + 2 * j)) ∧
    toInt32 i = i ∧ toInt32 j = j ∧
    (1 ≤ i → 1 ≤ j →
      0 ≤ readCell (UntrimmedAlignments.filledObject reference uLongRead cLongRead).matrix
          i (j - 1) + cost (charAt reference (j - 1)) '-' ∧
      0 ≤ readCell (UntrimmedAlignments.filledObject reference uLongRead cLongRead).matrix
          (i - 1) j + cost '-' (charAt cLongRead (i - 1)) ∧
      0 ≤ readCell (UntrimmedAlignments.filledObject reference uLongRead cLongRead).matrix
          (i - 1) (j - 1) + cost (charAt reference (j - 1)) (charAt cLongRead (i - 1)) ∧
      stdAbs (readCell (UntrimmedAlignments.filledObject reference uLongRead cLongRead).matrix
          i (j - 1) + cost (charAt reference (j - 1)) '-')
        = readCell (UntrimmedAlignments.filledObject reference uLongRead cLongRead).matrix
          i (j - 1) + cost (charAt reference (j - 1)) '-' ∧
      stdAbs (readCell (UntrimmedAlignments.filledObject reference uLongRead cLongRead).matrix
          (i - 1) j + cost '-' (charAt cLongRead (i - 1)))
        = readCell (UntrimmedAlignments.filledObject reference uLongRead cLongRead).matrix
          (i - 1) j + cost '-' (charAt cLongRead (i - 1)) ∧
      stdAbs (readCell (UntrimmedAlignments.filledObject reference uLongRead cLongRead).matrix
          (i - 1) (j - 1) + cost (charAt reference (j - 1)) (charAt cLongRead (i - 1)))
        = readCell (UntrimmedAlignments.filledObject reference uLongRead cLongRead).matrix
          (i - 1) (j - 1) + cost (charAt reference (j - 1)) (charAt cLongRead (i - 1)) ∧
      toInt32 (UntrimmedAlignments.cellValue reference uLongRead cLongRead
          (UntrimmedAlignments.filledObject reference uLongRead cLongRead).matrix i j)
        = UntrimmedAlignments.cellValue reference uLongRead cLongRead
          (UntrimmedAlignments.filledObject reference uLongRead cLongRead).matrix i j) := by
  have hrows : (UntrimmedAlignments.filledObject reference uLongRead cLongRead).rows
      = ((cLongRead.filter (fun c => c != ' ')).length : Int) + 1 := rfl
  have hcols : (UntrimmedAlignments.filledObject reference uLongRead cLongRead).columns
      = (uLongRead.length : Int) + 1 := rfl
  have hfl := List.length_filter_le (fun c => c != ' ') cLongRead
  have hB2 : cLongRead.length + 2 * uLongRead.length + 2 < 2147483647 := by
    norm_num at hB ⊢; exact hB
  have hv := untrimmed_object_values reference uLongRead cLongRead hB2
  have hcur := hv i j hi0 hi hj0 hj
  have hi2 := hi
  have hj2 := hj
  rw [hrows] at hi2
  rw [hcols] at hj2
  refine ⟨hcur, by unfold toInt32; omega, by unfold toInt32; omega, fun h1 h2 => ?_⟩
  have hF := untrimmed_filled_rows reference uLongRead cLongRead
  have nn : ∀ i2 j2 : Int, 0 ≤ i2 → i2 ≤ i → 0 ≤ j2 → j2 ≤ j →
      0 ≤ readCell (UntrimmedAlignments.filledObject reference uLongRead cLongRead).matrix
        i2 j2 := by
    intro i2 j2 a1 a2 a3 a4
    rcases hv i2 j2 a1 (by omega) a3 (by omega) with ⟨h, _⟩ | ⟨h, _⟩
    · rw [h]; decide
    · exact h
  have s1 := add_nonneg (nn i (j - 1) hi0 (le_refl _) (by omega) (by omega))
    (cost_nonneg (charAt reference (j - 1)) '-')
  have s2 := add_nonneg (nn (i - 1) j (by omega) (by omega) hj0 (le_refl _))
    (cost_nonneg '-' (charAt cLongRead (i - 1)))
  have s3 := add_nonneg (nn (i - 1) (j - 1) (by omega) (by omega) (by omega) (by omega))
    (cost_nonneg (charAt reference (j - 1)) (charAt cLongRead (i - 1)))
  refine ⟨s1, s2, s3, stdAbs_of_nonneg s1, stdAbs_of_nonneg s2, stdAbs_of_nonneg s3, ?_⟩
  obtain ⟨i, rfl⟩ : ∃ k : Nat, i = (k : Int) + 1 := ⟨(i - 1).toNat, by omega⟩
  obtain ⟨j, rfl⟩ : ∃ k : Nat, j = (k : Int) + 1 := ⟨(j - 1).toNat, by omega⟩
  obtain ⟨r1, r2⟩ := untrimmed_cellValue_range reference uLongRead cLongRead _ _ _ hF
    (by omega) i j (by omega) (by omega)
  exact toInt32_of_range (by omega) r2

/-- Witness of C20: cell `(2, 3)` of the matrix of a read with a trusted run. -/
theorem untrimmed_no_overflow_witness :
    "ACGTAC".toList.length = "AG-TAC".toList.length ∧
    "ACgtTTAc".toList.length + 2 * "AG-TAC".toList.length + 2 < 2 ^ 31 - 1 ∧
    (0 : Int) ≤ 2 ∧
    (2 : Int) < (UntrimmedAlignments.filledObject "ACGTAC".toList "AG-TAC".toList
      "ACgtTTAc".toList).rows ∧
    (0 : Int) ≤ 3 ∧
    (3 : Int) < (UntrimmedAlignments.filledObject "ACGTAC".toList "AG-TAC".toList
      "ACgtTTAc".toList).columns ∧
    toInt32 (UntrimmedAlignments.cellValue "ACGTAC".toList "AG-TAC".toList "ACgtTTAc".toList
        (UntrimmedAlignments.filledObject "ACGTAC".toList "AG-TAC".toList
          "ACgtTTAc".toList).matrix 2 3)
      = UntrimmedAlignments.cellValue "ACGTAC".toList "AG-TAC".toList "ACgtTTAc".toList
        (UntrimmedAlignments.filledObject "ACGTAC".toList "AG-TAC".toList
          "ACgtTTAc".toList).matrix 2 3 :=
  ⟨by decide, by decide, by decide, by decide, by decide, by decide,
    ((untrimmed_no_overflow _ _ _ (by decide) (by decide) 2 3 (by decide) (by decide)
      (by decide) (by decide)).2.2.2 (by decide) (by decide)).2.2.2.2.2.2⟩

/-! ## The trimmed fill -/

theorem trimmed_fill_eq (a : Alignments) :
    TrimmedAlignments.fill a
      = fillLoops (fun _ => 0)
          (TrimmedAlignments.cellValue a.ref a.clr a.lastBaseIndices)
          a.rows a.columns a.matrix := rfl

theorem trimmed_cellValue_local (ref clr : List Char) (lastBaseIndices : List Int) :
    LocalBody (TrimmedAlignments.cellValue ref clr lastBaseIndices) := by
  intro m m2 i j h1 h2 h3
  simp only [TrimmedAlignments.cellValue, h1, h2, h3]

/-- The matrix filled by the trimmed constructor satisfies the fill equations. -/
theorem trimmed_filled (reference uLongRead cLongRead : List Char)
    (hlen : reference.length = uLongRead.length) :
    Filled (fun _ => 0)
      (TrimmedAlignments.cellValue reference (cLongRead.filter (fun c => c != ' '))
        (TrimmedAlignments.filledObject reference uLongRead cLongRead).lastBaseIndices)
      ((cLongRead.filter (fun c => c != ' ')).length + 1) (reference.length + 1)
      (TrimmedAlignments.filledObject reference uLongRead cLongRead).matrix := by
  have h := fillLoops_filled (fun _ => 0)
    (TrimmedAlignments.cellValue reference (cLongRead.filter (fun c => c != ' '))
      (TrimmedAlignments.filledObject reference uLongRead cLongRead).lastBaseIndices)
    (trimmed_cellValue_local _ _ _) ((cLongRead.filter (fun c => c != ' ')).length + 1)
    (reference.length + 1) (by omega) (by omega)
    (List.replicate ((cLongRead.filter (fun c => c != ' ')).length + 1)
      (List.replicate (reference.length + 1) 0)) (dims_replicate _ _)
  have e : (TrimmedAlignments.filledObject reference uLongRead cLongRead).matrix
      = fillLoops (fun _ => 0)
          (TrimmedAlignments.cellValue reference (cLongRead.filter (fun c => c != ' '))
            (TrimmedAlignments.filledObject reference uLongRead cLongRead).lastBaseIndices)
          (((cLongRead.filter (fun c => c != ' ')).length + 1 : Nat) : Int)
          ((reference.length + 1 : Nat) : Int)
          (List.replicate ((cLongRead.filter (fun c => c != ' ')).length + 1)
            (List.replicate (reference.length + 1) 0)) := by
    simp only [TrimmedAlignments.filledObject, trimmed_fill_eq, TrimmedAlignments.prepare,
      Alignments.construct, Alignments.createMatrix, hlen]
    congr 1
  rw [e]
  exact h

/-- Every cell of a matrix that satisfies the trimmed fill equations lies between
`0` and `i + j`, when the lengths stay within the `int` range. -/
theorem trimmed_values_rows (ref clr : List Char) (lastBaseIndices : List Int)
    (M : DPMatrix) (R C : Nat)
    (hF : Filled (fun _ => 0) (TrimmedAlignments.cellValue ref clr lastBaseIndices) R C M)
    (hB : R + C ≤ 2147483649) :
    ∀ i : Nat, i < R → ∀ j : Nat, j < C →
      0 ≤ readCell M i j ∧ readCell M i j ≤ (i : Int) + j := by
  intro i
  induction i with
  | zero =>
    intro _ j hj
    rcases Nat.eq_zero_or_pos j with rfl | hpos
    · have := hF.col0 0 (le_refl _) (by omega)
      simp only [Nat.cast_zero] at this ⊢
      rw [this]; unfold toInt32; omega
    · have := hF.row0 j (by omega) (by omega)
      simp only [Nat.cast_zero] at this ⊢
      rw [this]; unfold toInt32; omega
  | succ i ih =>
    intro hi j
    have ih2 := ih (by omega)
    induction j with
    | zero =>
      intro _
      have := hF.col0 ((i + 1 : Nat) : Int) (by omega) (by push_cast; omega)
      simp only [Nat.cast_zero] at this ⊢
      rw [this]; unfold toInt32; push_cast; omega
    | succ j ihj =>
      intro hj
      have hleft := ihj (by omega)
      have hdiag := ih2 j (by omega)
      have hup := ih2 (j + 1) hj
      have heq := hF.inner ((i + 1 : Nat) : Int) ((j + 1 : Nat) : Int) (by push_cast; omega)
        (by push_cast; omega) (by push_cast; omega) (by push_cast; omega)
      have hc1 := cost_nonneg (charAt ref (j : Int)) '-'
      have hc3 := cost_nonneg '-' (charAt clr (i : Int))
      have hc4 := cost_nonneg (charAt clr (i : Int)) (charAt ref (j : Int))
      have hc5 := cost_le_two (charAt clr (i : Int)) (charAt ref (j : Int))
      rw [heq]
      simp only [TrimmedAlignments.cellValue, Nat.cast_add, Nat.cast_one,
        add_sub_cancel_right] at hleft hdiag hup ⊢
      generalize cost (charAt ref (j : Int)) '-' = cd at *
      generalize cost '-' (charAt clr (i : Int)) = ci at *
      generalize cost (charAt clr (i : Int)) (charAt ref (j : Int)) = cs at *
      generalize readCell M ((i : Int) + 1) (j : Int) = left at *
      generalize readCell M (i : Int) ((j : Int) + 1) = up at *
      generalize readCell M (i : Int) (j : Int) = diag at *
      simp only [min_def]
      unfold toInt32
      split_ifs <;> omega

/-! ## C12 -/

theorem filter_replicate_A (n : Nat) :
    (List.replicate n 'A').filter (fun c => c != ' ') = List.replicate n 'A' := by
  rw [List.filter_eq_self]
  intro c hc
  rw [List.eq_of_mem_replicate hc]
  decide

/-- Counterexample to C12: with an empty reference and uncorrected read and a
corrected read of `2^31` bases `A`, the store of the row index `2^31` into the
`int` cell `(2^31, 0)` of the trimmed matrix leaves `-2^31` there. -/
theorem trimmed_cell_bound_counterexample :
    ([] : List Char).length = ([] : List Char).length ∧
    readCell (TrimmedAlignments.filledObject [] [] (List.replicate 2147483648 'A')).matrix
      2147483648 0 = -2147483648 ∧
    ¬ (0 ≤ readCell
      (TrimmedAlignments.filledObject [] [] (List.replicate 2147483648 'A')).matrix
      2147483648 0) := by
  have hF := trimmed_filled [] [] (List.replicate 2147483648 'A') rfl
  have h := hF.col0 2147483648 (by decide) (by
    rw [filter_replicate_A, List.length_replicate]
    decide)
  have e : toInt32 2147483648 = -2147483648 := by decide
  rw [e] at h
  exact ⟨rfl, h, by rw [h]; decide⟩

/-- C12 (amended): trimmed variant.  For every reference and uncorrected read of
equal length and every corrected read whose separator-stripped length plus the
reference length is below `2^31`, every cell `(i, j)` of the matrix filled by
`initialize` satisfies `0 <= matrix[i][j] <= i + j`. -/
theorem trimmed_cell_bound (reference uLongRead cLongRead : List Char)
    (hlen : reference.length = uLongRead.length)
    (hB : (cLongRead.filter (fun c => c != ' ')).length + reference.length < 2 ^ 31)
    (i j : Int)
    (hi0 : 0 ≤ i) (hi : i < (TrimmedAlignments.filledObject reference uLongRead cLongRead).rows)
    (hj0 : 0 ≤ j)
    (hj : j < (TrimmedAlignments.filledObject reference uLongRead cLongRead).columns) :
    0 ≤ readCell (TrimmedAlignments.filledObject reference uLongRead cLongRead).matrix i j ∧
    readCell (TrimmedAlignments.filledObject reference uLongRead cLongRead).matrix i j
      ≤ i + j := by
  have hrows : (TrimmedAlignments.filledObject reference uLongRead cLongRead).rows
      = ((cLongRead.filter (fun c => c != ' ')).length : Int) + 1 := rfl
  have hcols : (TrimmedAlignments.filledObject reference uLongRead cLongRead).columns
      = (reference.length : Int) + 1 := rfl
  rw [hrows] at hi
  rw [hcols] at hj
  have hB2 : (cLongRead.filter (fun c => c != ' ')).length + reference.length < 2147483648 := by
    norm_num at hB ⊢; exact hB
  obtain ⟨i, rfl⟩ := Int.eq_ofNat_of_zero_le hi0
  obtain ⟨j, rfl⟩ := Int.eq_ofNat_of_zero_le hj0
  exact trimmed_values_rows reference _ _ _ _ _ (trimmed_filled reference uLongRead cLongRead hlen)
    (by omega) i (by omega) j (by omega)

/-- Witness of C12 (amended): cell `(4, 2)` of the matrix of scenario C. -/
theorem trimmed_cell_bound_witness :
    "ACGACG".toList.length = "ACGACG".toList.length ∧
    ("ACG ACG".toList.filter (fun c => c != ' ')).length + "ACGACG".toList.length < 2 ^ 31 ∧
    (0 : Int) ≤ 4 ∧
    (4 : Int) < (TrimmedAlignments.filledObject "ACGACG".toList "ACGACG".toList
      "ACG ACG".toList).rows ∧
    (0 : Int) ≤ 2 ∧
    (2 : Int) < (TrimmedAlignments.filledObject "ACGACG".toList "ACGACG".toList
      "ACG ACG".toList).columns ∧
    (0 ≤ readCell (TrimmedAlignments.filledObject "ACGACG".toList "ACGACG".toList
        "ACG ACG".toList).matrix 4 2 ∧
      readCell (TrimmedAlignments.filledObject "ACGACG".toList "ACGACG".toList
        "ACG ACG".toList).matrix 4 2 ≤ 4 + 2) :=
  ⟨by decide, by decide, by decide, by decide, by decide, by decide,
    trimmed_cell_bound _ _ _ (by decide) (by decide) 4 2 (by decide) (by decide)
      (by decide) (by decide)⟩

/-! ## Fragments and their last bases -/

theorem recordLastBases_eq (ts : List (List Char)) :
    ∀ (l : Int) (acc : List Int),
      TrimmedAlignments.recordLastBases ts l acc = acc ++ partialEnds ts l := by
  induction ts with
  | nil => intro l acc; simp [TrimmedAlignments.recordLastBases, partialEnds]
  | cons t ts ih =>
    intro l acc
    simp only [TrimmedAlignments.recordLastBases, partialEnds, ih, List.append_assoc,
      List.singleton_append]

theorem partialEnds_length (ts : List (List Char)) :
    ∀ l : Int, (partialEnds ts l).length = ts.length := by
  induction ts with
  | nil => intro l; rfl
  | cons t ts ih => intro l; simp only [partialEnds, List.length_cons, ih]

theorem partialEnds_getD (ts : List (List Char)) :
    ∀ (l : Int) (k : Nat), k < ts.length →
      (partialEnds ts l).getD k 0 = l + (((ts.take (k + 1)).map List.length).sum : Nat) := by
  induction ts with
  | nil => intro l k hk; simp at hk
  | cons t ts ih =>
    intro l k hk
    cases k with
    | zero => simp [partialEnds]
    | succ k =>
      have := ih (l + t.length) k (by simpa using hk)
      simp only [partialEnds, List.getD_cons_succ, this, List.take_succ_cons, List.map_cons,
        List.sum_cons]
      push_cast
      omega

theorem partialEnds_gt (ts : List (List Char)) (hne : ∀ f ∈ ts, f ≠ []) :
    ∀ (l : Int), ∀ x ∈ partialEnds ts l, l < x := by
  induction ts with
  | nil => intro l x hx; simp [partialEnds] at hx
  | cons t ts ih =>
    intro l x hx
    have ht : 0 < t.length := List.length_pos.mpr (hne t (List.mem_cons_self _ _))
    simp only [partialEnds, List.mem_cons] at hx
    rcases hx with rfl | hx
    · omega
    · have := ih (fun f hf => hne f (List.mem_cons_of_mem _ hf)) _ x hx
      omega

theorem partialEnds_pairwise (ts : List (List Char)) (hne : ∀ f ∈ ts, f ≠ []) :
    ∀ (l : Int), List.Pairwise (fun x y => x < y) (partialEnds ts l) := by
  induction ts with
  | nil => intro l; simp [partialEnds]
  | cons t ts ih =>
    intro l
    have hne2 : ∀ f ∈ ts, f ≠ [] := fun f hf => hne f (List.mem_cons_of_mem _ hf)
    simp only [partialEnds, List.pairwise_cons]
    exact ⟨fun x hx => partialEnds_gt ts hne2 _ x hx, ih hne2 _⟩

theorem partialEnds_getLast (ts : List (List Char)) (h : ts ≠ []) :
    ∀ (l : Int), (partialEnds ts l).getLast? = some (l + (ts.flatten.length : Nat)) := by
  induction ts with
  | nil => exact absurd rfl h
  | cons t ts ih =>
    intro l
    cases ts with
    | nil => simp [partialEnds]
    | cons u us =>
      have := ih (by simp) (l + t.length)
      simp only [partialEnds] at this ⊢
      rw [List.getLast?_cons_cons, this]
      simp only [List.flatten_cons, List.length_append, Nat.cast_add]
      congr 1
      omega

theorem splitGo_flatten (s : List Char) :
    ∀ cur : List Char,
      (splitGo s cur).flatten = cur.reverse ++ s.filter (fun c => !isspace c) := by
  induction s with
  | nil =>
    intro cur
    by_cases h : cur = []
    · simp [splitGo, h]
    · simp [splitGo, h]
  | cons c cs ih =>
    intro cur
    by_cases hc : isspace c = true
    · by_cases h : cur = []
      · simp [splitGo, hc, h, ih]
      · simp [splitGo, hc, h, ih]
    · simp [splitGo, hc, ih]

theorem splitGo_nonempty (s : List Char) :
    ∀ cur : List Char, ∀ f ∈ splitGo s cur, f ≠ [] := by
  induction s with
  | nil =>
    intro cur f hf
    by_cases h : cur = []
    · simp [splitGo, h] at hf
    · simp only [splitGo, h, if_false, List.mem_singleton] at hf
      rw [hf]
      simpa using h
  | cons c cs ih =>
    intro cur f hf
    by_cases hc : isspace c = true
    · by_cases h : cur = []
      · simp only [splitGo, hc, h, if_true] at hf
        exact ih _ f hf
      · simp only [splitGo, hc, h, if_true, if_false, List.mem_cons] at hf
        rcases hf with rfl | hf
        · simpa using h
        · exact ih _ f hf
    · simp only [splitGo, hc, if_false] at hf
      exact ih _ f hf

theorem filter_space_eq {s : List Char} (hws : ∀ c ∈ s, isspace c = true → c = ' ') :
    s.filter (fun c => !isspace c) = s.filter (fun c => c != ' ') := by
  apply List.filter_congr
  intro c hc
  by_cases h : isspace c = true
  · have := hws c hc h
    subst this
    decide
  · have hne : c ≠ ' ' := by
      rintro rfl
      exact h (by decide)
    simp [h, hne]

/-! ## C13 -/

/-- C13: trimmed variant.  When the corrected read, whose only whitespace is the
space, splits into `k >= 1` fragments `f_0 .. f_(k-1)`: the fragments are not
empty and their concatenation is the separator-stripped corrected read;
`lastBaseIndices` built by `initialize` has `k` entries; entry `t` is
`|f_0| + ... + |f_t| - 1`; the list is strictly increasing; its last entry is the
length of the separator-stripped corrected read minus `1`. -/
theorem lastBaseIndices_spec (reference uLongRead cLongRead : List Char)
    (hws : ∀ c ∈ cLongRead, isspace c = true → c = ' ')
    (hk : split cLongRead ≠ []) :
    (∀ f ∈ split cLongRead, f ≠ []) ∧
    (split cLongRead).flatten
      = (TrimmedAlignments.prepare (Alignments.construct reference uLongRead cLongRead)).clr ∧
    (TrimmedAlignments.prepare
        (Alignments.construct reference uLongRead cLongRead)).lastBaseIndices.length
      = (split cLongRead).length ∧
    (∀ t, t < (split cLongRead).length →
      (TrimmedAlignments.prepare
          (Alignments.construct reference uLongRead cLongRead)).lastBaseIndices.getD t 0
        = ((((split cLongRead).take (t + 1)).map List.length).sum : Nat) - 1) ∧
    List.Pairwise (fun x y => x < y)
      (TrimmedAlignments.prepare
        (Alignments.construct reference uLongRead cLongRead)).lastBaseIndices ∧
    (TrimmedAlignments.prepare
        (Alignments.construct reference uLongRead cLongRead)).lastBaseIndices.getLast?
      = some (((TrimmedAlignments.prepare
          (Alignments.construct reference uLongRead cLongRead)).clr.length : Int) - 1) := by
  have hl : (TrimmedAlignments.prepare
      (Alignments.construct reference uLongRead cLongRead)).lastBaseIndices
      = partialEnds (split cLongRead) (-1) := by
    show TrimmedAlignments.recordLastBases (split cLongRead) (-1) [] = _
    rw [recordLastBases_eq]; rfl
  have hc : (TrimmedAlignments.prepare
      (Alignments.construct reference uLongRead cLongRead)).clr
      = cLongRead.filter (fun c => c != ' ') := rfl
  have hne : ∀ f ∈ split cLongRead, f ≠ [] := splitGo_nonempty cLongRead []
  have hfl : (split cLongRead).flatten = cLongRead.filter (fun c => c != ' ') := by
    unfold split
    rw [splitGo_flatten, filter_space_eq hws]
    rfl
  rw [hl, hc]
  refine ⟨hne, hfl, partialEnds_length _ _, fun t ht => ?_, partialEnds_pairwise _ hne _, ?_⟩
  · rw [partialEnds_getD _ _ _ ht]; omega
  · rw [partialEnds_getLast _ hk, hfl]
    congr 1

/-- Witness of C13: scenario C, the corrected read `ACG ACG` gives `[2, 5]`. -/
theorem lastBaseIndices_spec_witness :
    (∀ c ∈ "ACG ACG".toList, isspace c = true → c = ' ') ∧
    split "ACG ACG".toList ≠ [] ∧
    split "ACG ACG".toList = ["ACG".toList, "ACG".toList] ∧
    (TrimmedAlignments.prepare (Alignments.construct "ACGACG".toList "ACGACG".toList
      "ACG ACG".toList)).lastBaseIndices = [2, 5] ∧
    List.Pairwise (fun x y => x < y)
      (TrimmedAlignments.prepare (Alignments.construct "ACGACG".toList "ACGACG".toList
        "ACG ACG".toList)).lastBaseIndices ∧
    (TrimmedAlignments.prepare (Alignments.construct "ACGACG".toList "ACGACG".toList
        "ACG ACG".toList)).lastBaseIndices.getLast?
      = some (((TrimmedAlignments.prepare (Alignments.construct "ACGACG".toList
          "ACGACG".toList "ACG ACG".toList)).clr.length : Int) - 1) :=
  ⟨by decide, by decide, by decide, by decide,
    (lastBaseIndices_spec "ACGACG".toList "ACGACG".toList "ACG ACG".toList
      (by decide) (by decide)).2.2.2.2.1,
    (lastBaseIndices_spec "ACGACG".toList "ACGACG".toList "ACG ACG".toList
      (by decide) (by decide)).2.2.2.2.2⟩

/-! ## The filled matrix does not depend on what the allocation held -/

/-- C14: trimmed variant, scenario C.  With reference and uncorrected read
`ACGACG` and corrected read `ACG ACG`, `getClr()` is `X`, `ACG`, `X`, `ACG`, `X`:
no `-`, exactly two non-empty spans `ACG` between `X` markers, each with an `X`
right before and right after it; `getRef()` and `getUlr()` are `-ACG-ACG-`, so
every `X` stands opposite `-` in both. -/
theorem scenarioC :
    ∃ a, TrimmedAlignments.construct "ACGACG".toList "ACGACG".toList "ACG ACG".toList
        = some a ∧
      a.getClr = 'X' :: ("ACG".toList ++ 'X' :: ("ACG".toList ++ ['X'])) ∧
      '-' ∉ a.getClr ∧
      (a.getClr.splitOn 'X').filter (fun l => l != []) = ["ACG".toList, "ACG".toList] ∧
      a.getRef = "-ACG-ACG-".toList ∧ a.getUlr = "-ACG-ACG-".toList ∧
      (∀ p ∈ List.zip a.getClr (List.zip a.getRef a.getUlr),
        p.1 = 'X' → p.2.1 = '-' ∧ p.2.2 = '-') ∧
      a.errors = [] := by
  decide

/-! ## C15 -/

/-- C15, evaluated at a failing input: with reference and uncorrected read `C` and
the single-fragment corrected read `a`, the insertion at cell `(1, 1)` emits the
marker of the end of the fragment and the marker of the first base, and the
following step on row `0` emits the marker of the start again: `getClr()` is
`-XXaX`, three `X` for one fragment. -/
theorem trimmed_marker_count_fails :
    split "a".toList = ["a".toList] ∧
    ∃ a, TrimmedAlignments.construct "C".toList "C".toList "a".toList = some a ∧
      a.lastBaseIndices = [0] ∧ a.getClr = "-XXaX".toList ∧ a.errors = [] ∧
      a.getClr.count 'X' = 3 ∧ ¬ (a.getClr.count 'X' ≤ 2 * (split "a".toList).length) := by
  decide

/-! ## C16 -/

theorem untrimmed_step_row0 (a : Alignments) (s : Walk) (h : s.rowIndex = 0) :
    UntrimmedAlignments.step a s = deletionStep a s := by
  simp only [UntrimmedAlignments.step, h, true_or, if_true]

theorem untrimmed_step_col0 (a : Alignments) (s : Walk) (h : s.columnIndex = 0)
    (hr : 0 < s.rowIndex) : UntrimmedAlignments.step a s = insertionStep a s := by
  have hz : ¬ s.rowIndex = 0 := by omega
  simp only [UntrimmedAlignments.step, h, hz, or_true, if_true, if_false]

theorem trimmed_step_row0 (a : Alignments) (s : Walk) (h : s.rowIndex = 0)
    (hfd : s.firstDeletion = false) : TrimmedAlignments.step a s = deletionStep a s := by
  cases s
  simp only at h hfd
  subst h hfd
  simp [TrimmedAlignments.step, deletionStep]

theorem trimmed_step_col0 (a : Alignments) (s : Walk) (h : s.columnIndex = 0)
    (hr : 0 < s.rowIndex) : TrimmedAlignments.step a s = insertionStep a s := by
  have hz : ¬ s.rowIndex = 0 := by omega
  simp only [TrimmedAlignments.step, h, hz, or_true, if_true, if_false]

/-- A walk that starts on row `0` at the last column deletes every base of the
uncorrected read: the corrected track is all gaps, the other two are the inputs. -/
theorem row0_walk (a : Alignments) (step : Walk → Walk)
    (hstep : ∀ s, s.rowIndex = 0 → s.firstDeletion = false → step s = deletionStep a s)
    (hlen : a.ref.length = a.ulr.length) (hrows : a.rows = 1)
    (hcols : a.columns = (a.ulr.length : Int) + 1) :
    ∃ t, backtrackLoop step (a.rows + a.columns).toNat a.startWalk = some t ∧
      t.clrMaf = List.replicate a.ulr.length '-' ∧ t.ulrMaf = a.ulr ∧ t.refMaf = a.ref ∧
      t.errors = [] := by
  obtain ⟨t, ht, ⟨h1, h2, h3, h4, h5, h6, h7, h8⟩, _, hc⟩ := backtrackLoop_inv step
    (fun w => w.rowIndex = 0 ∧ 0 ≤ w.columnIndex ∧ w.columnIndex ≤ a.ulr.length ∧
      w.firstDeletion = false ∧ w.errors = [] ∧
      w.clrMaf = List.replicate (a.ulr.length - w.columnIndex.toNat) '-' ∧
      w.ulrMaf = a.ulr.drop w.columnIndex.toNat ∧ w.refMaf = a.ref.drop w.columnIndex.toNat)
    (fun w h => ⟨by rw [h.1], h.2.1⟩)
    (fun w h hp => by
      obtain ⟨h1, h2, h3, h4, h5, h6, h7, h8⟩ := h
      have hcp : 0 < w.columnIndex := by omega
      rw [hstep w h1 h4]
      refine ⟨⟨h1, ?_, ?_, h4, h5, ?_, ?_, ?_⟩, ?_⟩
      · simp only [deletionStep]; omega
      · simp only [deletionStep]; omega
      · simp only [deletionStep, h6]
        have e : a.ulr.length - (w.columnIndex - 1).toNat
            = (a.ulr.length - w.columnIndex.toNat) + 1 := by omega
        rw [e, List.replicate_succ]
      · simp only [deletionStep, h7]
        exact charAt_cons_drop a.ulr w.columnIndex hcp h3
      · simp only [deletionStep, h8]
        exact charAt_cons_drop a.ref w.columnIndex hcp (by rw [hlen]; exact h3)
      · simp only [deletionStep]; omega)
    (a.rows + a.columns).toNat a.startWalk
    ⟨by simp [Alignments.startWalk, hrows], by simp [Alignments.startWalk, hcols],
      by simp [Alignments.startWalk, hcols], rfl, rfl,
      by simp [Alignments.startWalk, hcols], by simp [Alignments.startWalk, hcols],
      by simp [Alignments.startWalk, hcols, ← hlen]⟩
    (startWalk_sum a (by omega) (by omega))
  refine ⟨t, ht, ?_, ?_, ?_, h5⟩
  · rw [h6, hc]; rfl
  · rw [h7, hc]; rfl
  · rw [h8, hc]; rfl

/-- A walk down column `0` inserts every base of the corrected read: the corrected
track is the read, the other two are all gaps. -/
theorem col0_walk (a : Alignments) (step : Walk → Walk)
    (hstep : ∀ s, s.columnIndex = 0 → 0 < s.rowIndex → step s = insertionStep a s)
    (hrows : a.rows = (a.clr.length : Int) + 1) (hcols : a.columns = 1) :
    ∃ t, backtrackLoop step (a.rows + a.columns).toNat a.startWalk = some t ∧
      t.clrMaf = a.clr ∧ t.ulrMaf = List.replicate a.clr.length '-' ∧
      t.refMaf = List.replicate a.clr.length '-' ∧ t.errors = [] := by
  obtain ⟨t, ht, ⟨h1, h2, h3, h5, h6, h7, h8⟩, hr, _⟩ := backtrackLoop_inv step
    (fun w => w.columnIndex = 0 ∧ 0 ≤ w.rowIndex ∧ w.rowIndex ≤ a.clr.length ∧
      w.errors = [] ∧
      w.clrMaf = a.clr.drop w.rowIndex.toNat ∧
      w.ulrMaf = List.replicate (a.clr.length - w.rowIndex.toNat) '-' ∧
      w.refMaf = List.replicate (a.clr.length - w.rowIndex.toNat) '-')
    (fun w h => ⟨h.2.1, by rw [h.1]⟩)
    (fun w h hp => by
      obtain ⟨h1, h2, h3, h5, h6, h7, h8⟩ := h
      have hrp : 0 < w.rowIndex := by omega
      rw [hstep w h1 hrp]
      have e : a.clr.length - (w.rowIndex - 1).toNat
          = (a.clr.length - w.rowIndex.toNat) + 1 := by omega
      refine ⟨⟨h1, ?_, ?_, h5, ?_, ?_, ?_⟩, ?_⟩
      · simp only [insertionStep]; omega
      · simp only [insertionStep]; omega
      · simp only [insertionStep, h6]
        exact charAt_cons_drop a.clr w.rowIndex hrp h3
      · simp only [insertionStep, h7]
        rw [e, List.replicate_succ]
      · simp only [insertionStep, h8]
        rw [e, List.replicate_succ]
      · simp only [insertionStep]; omega)
    (a.rows + a.columns).toNat a.startWalk
    ⟨by simp [Alignments.startWalk, hcols], by simp [Alignments.startWalk, hrows],
      by simp [Alignments.startWalk, hrows], rfl,
      by simp [Alignments.startWalk, hrows], by simp [Alignments.startWalk, hrows],
      by simp [Alignments.startWalk, hrows]⟩
    (startWalk_sum a (by omega) (by omega))
  refine ⟨t, ht, ?_, ?_, ?_, h5⟩
  · rw [h6, hr]; rfl
  · rw [h7, hr]; rfl
  · rw [h8, hr]; rfl

/-! ## C17 -/

/-- Counterexample to C17: in the untrimmed variant, with an empty reference and
uncorrected read and the corrected read `a b`, `getClr()` is `a ` followed by
nothing, not the corrected read, and the other two tracks have 2 gaps, not 3. -/
theorem empty_inputs_counterexample :
    ∃ a, UntrimmedAlignments.construct [] [] "a b".toList = some a ∧
      a.getClr = "a ".toList ∧ a.getClr ≠ "a b".toList ∧
      a.getRef = "--".toList ∧ a.getUlr = "--".toList := by
  decide

/-- C17 (amended): empty inputs give the degenerate alignment in both variants.
With an empty corrected read and reference and uncorrected read of equal length
`n`, `getClr()` is `n` gaps and `getRef()`, `getUlr()` are the inputs.  With an
empty reference and uncorrected read, `getClr()` is the corrected read (which
holds no space in the untrimmed variant, and is separator-stripped in the
trimmed variant) and `getRef()`, `getUlr()` are as many gaps.  With three empty
inputs the three outputs are empty.  No error branch is taken. -/
theorem empty_inputs (reference uLongRead cLongRead : List Char)
    (hlen : reference.length = uLongRead.length) (hsp : ' ' ∉ cLongRead) :
    (∃ a, UntrimmedAlignments.construct reference uLongRead [] = some a ∧
      a.getClr = List.replicate uLongRead.length '-' ∧ a.getRef = reference ∧
      a.getUlr = uLongRead ∧ a.errors = []) ∧
    (∃ a, TrimmedAlignments.construct reference uLongRead [] = some a ∧
      a.getClr = List.replicate uLongRead.length '-' ∧ a.getRef = reference ∧
      a.getUlr = uLongRead ∧ a.errors = []) ∧
    (∃ a, UntrimmedAlignments.construct [] [] cLongRead = some a ∧
      a.getClr = cLongRead ∧ a.getRef = List.replicate cLongRead.length '-' ∧
      a.getUlr = List.replicate cLongRead.length '-' ∧ a.errors = []) ∧
    (∀ spaced : List Char, ∃ a, TrimmedAlignments.construct [] [] spaced = some a ∧
      a.getClr = spaced.filter (fun c => c != ' ') ∧
      a.getRef = List.replicate (spaced.filter (fun c => c != ' ')).length '-' ∧
      a.getUlr = List.replicate (spaced.filter (fun c => c != ' ')).length '-' ∧
      a.errors = []) ∧
    (∃ a, UntrimmedAlignments.construct [] [] [] = some a ∧
      a.getClr = [] ∧ a.getRef = [] ∧ a.getUlr = [] ∧ a.errors = []) ∧
    (∃ a, TrimmedAlignments.construct [] [] [] = some a ∧
      a.getClr = [] ∧ a.getRef = [] ∧ a.getUlr = [] ∧ a.errors = []) := by
  refine ⟨?_, ?_, ?_, ?_, by decide, by decide⟩
  · obtain ⟨t, ht, h1, h2, h3, h4⟩ := row0_walk
      (UntrimmedAlignments.filledObject reference uLongRead [])
      (UntrimmedAlignments.step (UntrimmedAlignments.filledObject reference uLongRead []))
      (fun s h _ => untrimmed_step_row0 _ s h) hlen rfl rfl
    refine ⟨(UntrimmedAlignments.filledObject reference uLongRead []).finish t, ?_,
      h1, h3, h2, ?_⟩
    · rw [untrimmed_construct_eq]
      unfold UntrimmedAlignments.findAlignments
      rw [ht]; rfl
    · show ([] : List Nat) ++ t.errors = []
      rw [h4]; rfl
  · obtain ⟨t, ht, h1, h2, h3, h4⟩ := row0_walk
      (TrimmedAlignments.filledObject reference uLongRead [])
      (TrimmedAlignments.step (TrimmedAlignments.filledObject reference uLongRead []))
      (fun s h hfd => trimmed_step_row0 _ s h hfd) hlen rfl
      (by
        show ((reference.length : Int) + 1) = (uLongRead.length : Int) + 1
        rw [hlen])
    refine ⟨(TrimmedAlignments.filledObject reference uLongRead []).finish t, ?_,
      h1, h3, h2, ?_⟩
    · rw [trimmed_construct_eq]
      unfold TrimmedAlignments.findAlignments
      rw [ht]; rfl
    · show ([] : List Nat) ++ t.errors = []
      rw [h4]; rfl
  · obtain ⟨t, ht, h1, h2, h3, h4⟩ := col0_walk
      (UntrimmedAlignments.filledObject [] [] cLongRead)
      (UntrimmedAlignments.step (UntrimmedAlignments.filledObject [] [] cLongRead))
      (fun s h hr => untrimmed_step_col0 _ s h hr)
      (by
        show ((cLongRead.filter (fun c => c != ' ')).length : Int) + 1
          = (cLongRead.length : Int) + 1
        rw [filter_noSpace hsp]) rfl
    refine ⟨(UntrimmedAlignments.filledObject [] [] cLongRead).finish t, ?_,
      h1, h3, h2, ?_⟩
    · rw [untrimmed_construct_eq]
      unfold UntrimmedAlignments.findAlignments
      rw [ht]; rfl
    · show ([] : List Nat) ++ t.errors = []
      rw [h4]; rfl
  · intro spaced
    obtain ⟨t, ht, h1, h2, h3, h4⟩ := col0_walk
      (TrimmedAlignments.filledObject [] [] spaced)
      (TrimmedAlignments.step (TrimmedAlignments.filledObject [] [] spaced))
      (fun s h hr => trimmed_step_col0 _ s h hr) rfl rfl
    refine ⟨(TrimmedAlignments.filledObject [] [] spaced).finish t, ?_,
      h1, h3, h2, ?_⟩
    · rw [trimmed_construct_eq]
      unfold TrimmedAlignments.findAlignments
      rw [ht]; rfl
    · show ([] : List Nat) ++ t.errors = []
      rw [h4]; rfl

/-- Witness of C17 (amended). -/
theorem empty_inputs_witness :
    "ACGT".toList.length = "AGGT".toList.length ∧ ' ' ∉ "acGt".toList ∧
    (∃ a, UntrimmedAlignments.construct "ACGT".toList "AGGT".toList [] = some a ∧
      a.getClr = List.replicate "AGGT".toList.length '-' ∧ a.getRef = "ACGT".toList ∧
      a.getUlr = "AGGT".toList ∧ a.errors = []) ∧
    (∃ a, UntrimmedAlignments.construct [] [] "acGt".toList = some a ∧
      a.getClr = "acGt".toList ∧ a.getRef = List.replicate "acGt".toList.length '-' ∧
      a.getUlr = List.replicate "acGt".toList.length '-' ∧ a.errors = []) :=
  ⟨by decide, by decide,
    (empty_inputs "ACGT".toList "AGGT".toList "acGt".toList (by decide) (by decide)).1,
    (empty_inputs "ACGT".toList "AGGT".toList "acGt".toList (by decide) (by decide)).2.2.1⟩

/-! ## C19 -/

theorem trimmed_step_decreases (a : Alignments) (s : Walk)
    (h0 : 0 ≤ s.rowIndex ∧ 0 ≤ s.columnIndex) (hc : s.rowIndex > 0 ∨ s.columnIndex > 0) :
    0 ≤ (TrimmedAlignments.step a s).rowIndex ∧ 0 ≤ (TrimmedAlignments.step a s).columnIndex ∧
    (TrimmedAlignments.step a s).rowIndex + (TrimmedAlignments.step a s).columnIndex + 1
      ≤ s.rowIndex + s.columnIndex := by
  unfold TrimmedAlignments.step
  simp only [markFirst]
  split_ifs <;>
    simp only [deletionStep, insertionStep, markX, noPath] <;>
    omega

theorem untrimmed_step_decreases (a : Alignments) (s : Walk)
    (h0 : 0 ≤ s.rowIndex ∧ 0 ≤ s.columnIndex) (hc : s.rowIndex > 0 ∨ s.columnIndex > 0) :
    0 ≤ (UntrimmedAlignments.step a s).rowIndex ∧
    0 ≤ (UntrimmedAlignments.step a s).columnIndex ∧
    (UntrimmedAlignments.step a s).rowIndex + (UntrimmedAlignments.step a s).columnIndex + 1
      ≤ s.rowIndex + s.columnIndex := by
  rcases untrimmed_step_cases a s h0 hc with ⟨e, h⟩ | ⟨e, h⟩ | ⟨e, h⟩ | ⟨code, e⟩ <;>
    rw [e] <;>
    simp only [deletionStep, insertionStep, substitutionStep, noPath] <;>
    omega

/-- An untrimmed iteration adds at most one column to each track. -/
theorem untrimmed_step_length (a : Alignments) (s : Walk)
    (h0 : 0 ≤ s.rowIndex ∧ 0 ≤ s.columnIndex) (hc : s.rowIndex > 0 ∨ s.columnIndex > 0) :
    ((UntrimmedAlignments.step a s).clrMaf.length : Int)
        + (UntrimmedAlignments.step a s).rowIndex + (UntrimmedAlignments.step a s).columnIndex
      ≤ s.clrMaf.length + s.rowIndex + s.columnIndex := by
  rcases untrimmed_step_cases a s h0 hc with ⟨e, h⟩ | ⟨e, h⟩ | ⟨e, h⟩ | ⟨code, e⟩ <;>
    rw [e] <;>
    simp only [deletionStep, insertionStep, substitutionStep, noPath, List.length_cons] <;>
    push_cast <;>
    omega

/-- C19: for both variants and every input with reference and uncorrected read of
equal length.  Every iteration of the backtracking loop keeps `rowIndex` and
`columnIndex` non-negative and decreases their sum by at least `1` (the error
branches set both to `0`); the loop ends within `(rows - 1) + (columns - 1)`
iterations; in the untrimmed variant each output string has length at most
`|clr| + |ulr|`. -/
theorem backtracking_terminates (reference uLongRead cLongRead : List Char)
    (_hlen : reference.length = uLongRead.length) :
    (∀ (a : Alignments) (s : Walk), 0 ≤ s.rowIndex → 0 ≤ s.columnIndex →
      (s.rowIndex > 0 ∨ s.columnIndex > 0) →
      (0 ≤ (UntrimmedAlignments.step a s).rowIndex ∧
        0 ≤ (UntrimmedAlignments.step a s).columnIndex ∧
        (UntrimmedAlignments.step a s).rowIndex + (UntrimmedAlignments.step a s).columnIndex + 1
          ≤ s.rowIndex + s.columnIndex) ∧
      (0 ≤ (TrimmedAlignments.step a s).rowIndex ∧
        0 ≤ (TrimmedAlignments.step a s).columnIndex ∧
        (TrimmedAlignments.step a s).rowIndex + (TrimmedAlignments.step a s).columnIndex + 1
          ≤ s.rowIndex + s.columnIndex)) ∧
    (∃ t, backtrackLoop
        (UntrimmedAlignments.step (UntrimmedAlignments.filledObject reference uLongRead cLongRead))
        (((UntrimmedAlignments.filledObject reference uLongRead cLongRead).rows - 1)
          + ((UntrimmedAlignments.filledObject reference uLongRead cLongRead).columns - 1)).toNat
        (UntrimmedAlignments.filledObject reference uLongRead cLongRead).startWalk = some t ∧
      t.rowIndex = 0 ∧ t.columnIndex = 0) ∧
    (∃ t, backtrackLoop
        (TrimmedAlignments.step (TrimmedAlignments.filledObject reference uLongRead cLongRead))
        (((TrimmedAlignments.filledObject reference uLongRead cLongRead).rows - 1)
          + ((TrimmedAlignments.filledObject reference uLongRead cLongRead).columns - 1)).toNat
        (TrimmedAlignments.filledObject reference uLongRead cLongRead).startWalk = some t ∧
      t.rowIndex = 0 ∧ t.columnIndex = 0) ∧
    (∃ a, UntrimmedAlignments.construct reference uLongRead cLongRead = some a ∧
      a.getClr.length ≤ cLongRead.length + uLongRead.length ∧
      a.getUlr.length ≤ cLongRead.length + uLongRead.length ∧
      a.getRef.length ≤ cLongRead.length + uLongRead.length) ∧
    (∃ a, TrimmedAlignments.construct reference uLongRead cLongRead = some a) := by
  have hrowsU : (UntrimmedAlignments.filledObject reference uLongRead cLongRead).rows
      = ((cLongRead.filter (fun c => c != ' ')).length : Int) + 1 := rfl
  have hcolsU : (UntrimmedAlignments.filledObject reference uLongRead cLongRead).columns
      = (uLongRead.length : Int) + 1 := rfl
  have hrowsT : (TrimmedAlignments.filledObject reference uLongRead cLongRead).rows
      = ((cLongRead.filter (fun c => c != ' ')).length : Int) + 1 := rfl
  have hcolsT : (TrimmedAlignments.filledObject reference uLongRead cLongRead).columns
      = (reference.length : Int) + 1 := rfl
  have hfl := List.length_filter_le (fun c => c != ' ') cLongRead
  refine ⟨fun a s h1 h2 hp => ⟨untrimmed_step_decreases a s ⟨h1, h2⟩ hp,
    trimmed_step_decreases a s ⟨h1, h2⟩ hp⟩, ?_, ?_, ?_, ?_⟩
  · obtain ⟨t, ht, _, h0⟩ := backtrackLoop_inv
      (UntrimmedAlignments.step (UntrimmedAlignments.filledObject reference uLongRead cLongRead))
      (fun s => 0 ≤ s.rowIndex ∧ 0 ≤ s.columnIndex) (fun s h => h)
      (fun s h hp => by
        have := untrimmed_step_decreases
          (UntrimmedAlignments.filledObject reference uLongRead cLongRead) s h hp
        exact ⟨⟨this.1, this.2.1⟩, by omega⟩)
      (((UntrimmedAlignments.filledObject reference uLongRead cLongRead).rows - 1)
        + ((UntrimmedAlignments.filledObject reference uLongRead cLongRead).columns - 1)).toNat
      (UntrimmedAlignments.filledObject reference uLongRead cLongRead).startWalk
      (by simp only [Alignments.startWalk, hrowsU, hcolsU]; omega)
      (by simp only [Alignments.startWalk, hrowsU, hcolsU]; omega)
    exact ⟨t, ht, h0⟩
  · obtain ⟨t, ht, _, h0⟩ := backtrackLoop_inv
      (TrimmedAlignments.step (TrimmedAlignments.filledObject reference uLongRead cLongRead))
      (fun s => 0 ≤ s.rowIndex ∧ 0 ≤ s.columnIndex) (fun s h => h)
      (fun s h hp => by
        have := trimmed_step_decreases
          (TrimmedAlignments.filledObject reference uLongRead cLongRead) s h hp
        exact ⟨⟨this.1, this.2.1⟩, by omega⟩)
      (((TrimmedAlignments.filledObject reference uLongRead cLongRead).rows - 1)
        + ((TrimmedAlignments.filledObject reference uLongRead cLongRead).columns - 1)).toNat
      (TrimmedAlignments.filledObject reference uLongRead cLongRead).startWalk
      (by simp only [Alignments.startWalk, hrowsT, hcolsT]; omega)
      (by simp only [Alignments.startWalk, hrowsT, hcolsT]; omega)
    exact ⟨t, ht, h0⟩
  · obtain ⟨t, ht, ⟨⟨_, _⟩, ⟨hb1, hb2⟩, hlen2⟩, hr0, hc0⟩ := backtrackLoop_inv
      (UntrimmedAlignments.step (UntrimmedAlignments.filledObject reference uLongRead cLongRead))
      (fun s => (0 ≤ s.rowIndex ∧ 0 ≤ s.columnIndex) ∧ s.Balanced ∧
        (s.clrMaf.length : Int) + s.rowIndex + s.columnIndex
          ≤ (cLongRead.length : Int) + uLongRead.length)
      (fun s h => h.1)
      (fun s h hp => by
        have h1 := untrimmed_step_balanced
          (UntrimmedAlignments.filledObject reference uLongRead cLongRead) s ⟨h.1, h.2.1⟩ hp
        have h2 := untrimmed_step_length
          (UntrimmedAlignments.filledObject reference uLongRead cLongRead) s h.1 hp
        exact ⟨⟨h1.1.1, h1.1.2, by omega⟩, h1.2⟩)
      ((UntrimmedAlignments.filledObject reference uLongRead cLongRead).rows
        + (UntrimmedAlignments.filledObject reference uLongRead cLongRead).columns).toNat
      (UntrimmedAlignments.filledObject reference uLongRead cLongRead).startWalk
      ⟨⟨by simp only [Alignments.startWalk, hrowsU]; omega,
          by simp only [Alignments.startWalk, hcolsU]; omega⟩,
        by simp [Alignments.startWalk, Walk.Balanced],
        by simp only [Alignments.startWalk, hrowsU, hcolsU, List.length_nil]; push_cast; omega⟩
      (startWalk_sum _ (by rw [hrowsU]; omega) (by rw [hcolsU]; omega))
    refine ⟨(UntrimmedAlignments.filledObject reference uLongRead cLongRead).finish t, ?_,
      ?_, ?_, ?_⟩
    · rw [untrimmed_construct_eq]
      unfold UntrimmedAlignments.findAlignments
      rw [ht]; rfl
    · show t.clrMaf.length ≤ _
      omega
    · show t.ulrMaf.length ≤ _
      omega
    · show t.refMaf.length ≤ _
      omega
  · obtain ⟨a, ha, _⟩ := findAlignments_balanced TrimmedAlignments.step
      trimmed_step_balanced (TrimmedAlignments.filledObject reference uLongRead cLongRead)
      (by rw [hrowsT]; omega) (by rw [hcolsT]; omega)
    exact ⟨a, ha⟩

/-- Witness of C19 on the inputs of scenario C. -/
theorem backtracking_terminates_witness :
    "ACGACG".toList.length = "ACGACG".toList.length ∧
    (∃ a, UntrimmedAlignments.construct "ACGACG".toList "ACGACG".toList "ACG ACG".toList
        = some a ∧
      a.getClr.length ≤ "ACG ACG".toList.length + "ACGACG".toList.length ∧
      a.getUlr.length ≤ "ACG ACG".toList.length + "ACGACG".toList.length ∧
      a.getRef.length ≤ "ACG ACG".toList.length + "ACGACG".toList.length) ∧
    (∃ a, TrimmedAlignments.construct "ACGACG".toList "ACGACG".toList "ACG ACG".toList
      = some a) :=
  ⟨by decide,
    (backtracking_terminates "ACGACG".toList "ACGACG".toList "ACG ACG".toList (by decide)).2.2.2⟩

/-! ## The trimmed walk on a reference without lowercase letters -/

/-- Within the `int` range an interior cell holds the value computed by the fill body. -/
theorem trimmed_cell_eq (ref clr : List Char) (lastBaseIndices : List Int)
    (M : DPMatrix) (R C : Nat)
    (hF : Filled (fun _ => 0) (TrimmedAlignments.cellValue ref clr lastBaseIndices) R C M)
    (hB : R + C ≤ 2147483649) (i j : Int) (hi1 : 1 ≤ i) (hi : i < R) (hj1 : 1 ≤ j)
    (hj : j < C) :
    readCell M i j = TrimmedAlignments.cellValue ref clr lastBaseIndices M i j := by
  obtain ⟨k, rfl⟩ : ∃ k : Nat, i = (k : Int) + 1 := ⟨(i - 1).toNat, by omega⟩
  obtain ⟨l, rfl⟩ : ∃ l : Nat, j = (l : Int) + 1 := ⟨(j - 1).toNat, by omega⟩
  have hV := trimmed_values_rows ref clr lastBaseIndices M R C hF hB
  have hleft := hV (k + 1) (by omega) l (by omega)
  have hup := hV k (by omega) (l + 1) (by omega)
  have hdiag := hV k (by omega) l (by omega)
  rw [hF.inner _ _ hi1 hi hj1 hj]
  have hc1 := cost_nonneg (charAt ref (l : Int)) '-'
  have hc3 := cost_nonneg '-' (charAt clr (k : Int))
  have hc4 := cost_nonneg (charAt clr (k : Int)) (charAt ref (l : Int))
  have hc5 := cost_le_two (charAt clr (k : Int)) (charAt ref (l : Int))
  apply toInt32_of_range <;>
    simp only [TrimmedAlignments.cellValue, Nat.cast_add, Nat.cast_one,
      add_sub_cancel_right] at hleft hdiag hup ⊢ <;>
    simp only [min_def] <;>
    split_ifs <;> omega

/-- In a trimmed matrix within the `int` range a cell exceeds its left neighbour
by at most `2`: the deletion candidate bounds it. -/
theorem trimmed_up_le (ref clr : List Char) (lastBaseIndices : List Int)
    (M : DPMatrix) (R C : Nat)
    (hF : Filled (fun _ => 0) (TrimmedAlignments.cellValue ref clr lastBaseIndices) R C M)
    (hB : R + C ≤ 2147483649) (i j : Int) (hi1 : 1 ≤ i) (hi : i < R) (hj1 : 1 ≤ j)
    (hj : j < C) :
    readCell M (i - 1) j ≤ readCell M (i - 1) (j - 1) + 2 := by
  have hV := trimmed_values_rows ref clr lastBaseIndices M R C hF hB
  have hdiag := hV (i - 1).toNat (by omega) (j - 1).toNat (by omega)
  have e1 : (((i - 1).toNat : Nat) : Int) = i - 1 := by omega
  have e2 : (((j - 1).toNat : Nat) : Int) = j - 1 := by omega
  rw [e1, e2] at hdiag
  rcases eq_or_lt_of_le hi1 with h1 | h1
  · subst h1
    have h0 := hF.row0 j hj1 hj
    have e : toInt32 0 = 0 := by decide
    simp only [sub_self] at hdiag ⊢
    rw [h0, e]
    omega
  · rw [trimmed_cell_eq ref clr lastBaseIndices M R C hF hB (i - 1) j (by omega) (by omega)
      hj1 hj]
    have hc2 := cost_le_two (charAt ref (j - 1)) '-'
    have hc1 := cost_nonneg (charAt ref (j - 1)) '-'
    simp only [TrimmedAlignments.cellValue]
    generalize cost (charAt ref (j - 1)) '-' = cd at *
    simp only [min_def]
    split_ifs <;> omega

/-- When the reference base is not lowercase, swapping the arguments of `cost`
changes the value only for a lowercase corrected base, whose insertion is free. -/
theorem cost_swap (r c : Char) (hr : islower r = false) :
    cost c r = cost r c ∨ (cost '-' c = 0 ∧ cost c r = 2) := by
  by_cases hc : islower c = true
  · by_cases ht : toupper c = r
    · left
      simp only [cost, hr, hc, ht, if_true]
      simp
    · right
      simp only [cost, hr, hc, ht, if_true, if_false]
      simp
  · left
    have hc2 : islower c = false := by simpa using hc
    have t1 : toupper c = c := by simp only [toupper, hc2]; simp
    have t2 : toupper r = r := by simp only [toupper, hr]; simp
    simp only [cost, hr, hc2, t1, t2]
    by_cases e : c = r
    · subst e; rfl
    · have e2 : ¬ r = c := fun h => e h.symm
      simp [e, e2]

/-- At an interior cell of a trimmed matrix within the `int` range, over a
reference without lowercase letters, one of the three candidates recomputed by
the backtracking equals the stored value. -/
theorem trimmed_interior_match (ref clr : List Char) (lastBaseIndices : List Int)
    (M : DPMatrix) (R : Nat)
    (hF : Filled (fun _ => 0) (TrimmedAlignments.cellValue ref clr lastBaseIndices) R
      (ref.length + 1) M)
    (hB : R + (ref.length + 1) ≤ 2147483649) (href : ∀ c ∈ ref, islower c = false)
    (i j : Int) (hi1 : 1 ≤ i) (hi : i < R) (hj1 : 1 ≤ j) (hj : j < (ref.length + 1 : Nat)) :
    (if decide (i - 1 ∈ lastBaseIndices) = true then readCell M i (j - 1)
      else readCell M i (j - 1) + cost (charAt ref (j - 1)) '-') = readCell M i j ∨
    readCell M (i - 1) j + cost '-' (charAt clr (i - 1)) = readCell M i j ∨
    readCell M (i - 1) (j - 1) + cost (charAt ref (j - 1)) (charAt clr (i - 1))
      = readCell M i j := by
  have hup := trimmed_up_le ref clr lastBaseIndices M R _ hF hB i j hi1 hi hj1 hj
  have hr : islower (charAt ref (j - 1)) = false :=
    href _ (charAt_mem ref (j - 1) (by omega) (by push_cast at hj; omega))
  rw [trimmed_cell_eq ref clr lastBaseIndices M R _ hF hB i j hi1 hi hj1 hj]
  simp only [TrimmedAlignments.cellValue]
  generalize (if decide (i - 1 ∈ lastBaseIndices) = true then readCell M i (j - 1)
      else readCell M i (j - 1) + cost (charAt ref (j - 1)) '-') = del
  rcases cost_swap (charAt ref (j - 1)) (charAt clr (i - 1)) hr with e | ⟨e1, e2⟩
  · rw [e]
    simp only [min_def]
    split_ifs <;> first | exact Or.inl rfl | exact Or.inr (Or.inl rfl) | exact Or.inr (Or.inr rfl)
  · rw [e1, e2]
    simp only [min_def]
    split_ifs <;>
      first
      | exact Or.inl rfl
      | exact Or.inr (Or.inl rfl)
      | (exfalso; omega)

/-- A trimmed iteration whose cell is on the border, or one of whose candidates
equals the stored value, records no error. -/
theorem trimmed_step_errors (a : Alignments) (s : Walk)
    (h0 : 0 ≤ s.rowIndex ∧ 0 ≤ s.columnIndex)
    (hm : s.rowIndex = 0 ∨ s.columnIndex = 0 ∨
      ((if decide (s.rowIndex - 1 ∈ a.lastBaseIndices) = true
          then readCell a.matrix s.rowIndex (s.columnIndex - 1)
          else readCell a.matrix s.rowIndex (s.columnIndex - 1)
            + cost (charAt a.ref (s.columnIndex - 1)) '-')
          = readCell a.matrix s.rowIndex s.columnIndex ∨
        readCell a.matrix (s.rowIndex - 1) s.columnIndex
            + cost '-' (charAt a.clr (s.rowIndex - 1))
          = readCell a.matrix s.rowIndex s.columnIndex ∨
        readCell a.matrix (s.rowIndex - 1) (s.columnIndex - 1)
            + cost (charAt a.ref (s.columnIndex - 1)) (charAt a.clr (s.rowIndex - 1))
          = readCell a.matrix s.rowIndex s.columnIndex)) :
    (TrimmedAlignments.step a s).errors = s.errors := by
  by_cases hb : s.rowIndex = 0 ∨ s.columnIndex = 0
  · unfold TrimmedAlignments.step
    simp only [hb, if_true]
    split_ifs <;> simp only [deletionStep, insertionStep, markX]
  · have hpos : s.rowIndex > 0 ∧ s.columnIndex > 0 := by omega
    have hm2 := hm.resolve_left (fun h => hb (Or.inl h)) |>.resolve_left
      (fun h => hb (Or.inr h))
    unfold TrimmedAlignments.step
    simp only [candidates, hpos, and_self, if_true, hb, if_false, markFirst]
    by_cases hl : decide (s.rowIndex - 1 ∈ a.lastBaseIndices) = true
    · simp only [hl, if_true] at hm2 ⊢
      split_ifs <;> first | rfl | (exfalso; tauto)
    · simp only [hl, if_false] at hm2 ⊢
      split_ifs <;> first | rfl | (exfalso; tauto)

/-- A trimmed iteration never raises an index. -/
theorem trimmed_step_le (a : Alignments) (s : Walk) :
    (TrimmedAlignments.step a s).rowIndex ≤ max s.rowIndex 0 ∧
    (TrimmedAlignments.step a s).columnIndex ≤ max s.columnIndex 0 := by
  unfold TrimmedAlignments.step
  simp only [markFirst]
  split_ifs <;>
    simp only [deletionStep, insertionStep, markX, noPath] <;>
    omega

/-! ## A single fragment -/

theorem splitGo_noSpace (s : List Char) (hs : ∀ c ∈ s, isspace c = false) :
    ∀ cur : List Char, (cur ≠ [] ∨ s ≠ []) → splitGo s cur = [cur.reverse ++ s] := by
  induction s with
  | nil =>
    intro cur h
    have hc : cur ≠ [] := h.resolve_right (fun h => h rfl)
    simp [splitGo, hc]
  | cons c cs ih =>
    intro cur _
    have hc : isspace c = false := hs c (List.mem_cons_self _ _)
    have := ih (fun x hx => hs x (List.mem_cons_of_mem _ hx)) (c :: cur) (Or.inl (by simp))
    simp [splitGo, hc, this]

/-- A non-empty corrected read without whitespace is one fragment: the only
recorded last base is its last index. -/
theorem trimmed_single_fragment (reference uLongRead f : List Char)
    (hs : ∀ c ∈ f, isspace c = false) (hne : f ≠ []) :
    (TrimmedAlignments.filledObject reference uLongRead f).lastBaseIndices
      = [(f.length : Int) - 1] := by
  have h : split f = [f] := by
    unfold split
    rw [splitGo_noSpace f hs [] (Or.inr hne)]
    rfl
  show TrimmedAlignments.recordLastBases (split f) (-1) [] = _
  rw [h]
  simp only [TrimmedAlignments.recordLastBases, List.nil_append]
  exact congrArg (fun x => [x]) (by omega)

theorem charAt_replicate (n : Nat) (c : Char) (i : Int) (h0 : 0 ≤ i) (h1 : i < n) :
    charAt (List.replicate n c) i = c :=
  List.eq_of_mem_replicate (charAt_mem _ i h0 (by rw [List.length_replicate]; exact h1))

/-! ## The backtracking loop, step by step -/

theorem backtrackLoop_done (step : Walk → Walk) (fuel : Nat) (s : Walk)
    (h : ¬ (s.rowIndex > 0 ∨ s.columnIndex > 0)) : backtrackLoop step fuel s = some s := by
  cases fuel <;> simp only [backtrackLoop, h, if_false]

theorem backtrackLoop_succ (step : Walk → Walk) (fuel : Nat) (s : Walk)
    (h : s.rowIndex > 0 ∨ s.columnIndex > 0) :
    backtrackLoop step (fuel + 1) s = backtrackLoop step fuel (step s) := by
  simp only [backtrackLoop, h, if_true]

/-- A trimmed iteration at an interior cell none of whose candidates equals the
stored value takes the "No paths found" branch. -/
theorem trimmed_step_noPath (a : Alignments) (s : Walk)
    (hr : 0 < s.rowIndex) (hc : 0 < s.columnIndex)
    (hd : (if decide (s.rowIndex - 1 ∈ a.lastBaseIndices) = true
          then readCell a.matrix s.rowIndex (s.columnIndex - 1)
          else readCell a.matrix s.rowIndex (s.columnIndex - 1)
            + cost (charAt a.ref (s.columnIndex - 1)) '-')
        ≠ readCell a.matrix s.rowIndex s.columnIndex)
    (hi : readCell a.matrix (s.rowIndex - 1) s.columnIndex
          + cost '-' (charAt a.clr (s.rowIndex - 1))
        ≠ readCell a.matrix s.rowIndex s.columnIndex)
    (hs : readCell a.matrix (s.rowIndex - 1) (s.columnIndex - 1)
          + cost (charAt a.ref (s.columnIndex - 1)) (charAt a.clr (s.rowIndex - 1))
        ≠ readCell a.matrix s.rowIndex s.columnIndex) :
    TrimmedAlignments.step a s = noPath 0 s := by
  have hb : ¬ (s.rowIndex = 0 ∨ s.columnIndex = 0) := by omega
  have hpos : s.rowIndex > 0 ∧ s.columnIndex > 0 := ⟨hr, hc⟩
  unfold TrimmedAlignments.step
  simp only [candidates, hpos, and_self, if_true, hb, if_false, hd, hi, hs]

/-- A trimmed iteration at an interior cell whose deletion candidate differs from
the stored value and whose insertion candidate equals it moves one row up. -/
theorem trimmed_step_insert (a : Alignments) (s : Walk)
    (hr : 0 < s.rowIndex) (hc : 0 < s.columnIndex)
    (hd : (if decide (s.rowIndex - 1 ∈ a.lastBaseIndices) = true
          then readCell a.matrix s.rowIndex (s.columnIndex - 1)
          else readCell a.matrix s.rowIndex (s.columnIndex - 1)
            + cost (charAt a.ref (s.columnIndex - 1)) '-')
        ≠ readCell a.matrix s.rowIndex s.columnIndex)
    (hi : readCell a.matrix (s.rowIndex - 1) s.columnIndex
          + cost '-' (charAt a.clr (s.rowIndex - 1))
        = readCell a.matrix s.rowIndex s.columnIndex) :
    (TrimmedAlignments.step a s).rowIndex = s.rowIndex - 1 ∧
    (TrimmedAlignments.step a s).columnIndex = s.columnIndex ∧
    (TrimmedAlignments.step a s).errors = s.errors := by
  have hb : ¬ (s.rowIndex = 0 ∨ s.columnIndex = 0) := by omega
  have hpos : s.rowIndex > 0 ∧ s.columnIndex > 0 := ⟨hr, hc⟩
  unfold TrimmedAlignments.step
  simp only [candidates, hpos, and_self, if_true, hb, if_false, hd, hi, markFirst]
  split_ifs <;> simp only [markX, and_self]

/-! ## A corrected read of `2^31 - 1` bases against a reference of two bases -/

/-- The cells of the trimmed matrix for reference `CC` and a corrected read of
`2^31 - 1` bases `A` that the backtracking visits, and their neighbours: the
candidates of cell `(2^31 - 2, 2)` all exceed `INT_MAX`, and the `int` store of
their minimum `2^31` leaves `-2^31`. -/
theorem wrap_matrix_values (n : Nat) (hn : n = 2147483647) (M : DPMatrix)
    (hF : Filled (fun _ => 0)
      (TrimmedAlignments.cellValue ['C', 'C'] (List.replicate n 'A') [(n : Int) - 1])
      (n + 1) 3 M) :
    readCell M n 1 = 2147483647 ∧ readCell M n 2 = -2147483646 ∧
    readCell M ((n : Int) - 1) 1 = 2147483647 ∧ readCell M ((n : Int) - 1) 2 = -2147483648 ∧
    readCell M ((n : Int) - 2) 1 = 2147483646 ∧ readCell M ((n : Int) - 2) 2 = 2147483647 := by
  have c1 : cost 'C' '-' = 2 := by decide
  have c2 : cost '-' 'A' = 2 := by decide
  have c3 : cost 'A' 'C' = 2 := by decide
  have hcol0 : ∀ i : Int, 0 ≤ i → i ≤ n → readCell M i 0 = i := fun i h0 h1 => by
    rw [hF.col0 i h0 (by push_cast; omega)]
    exact toInt32_of_range (by omega) (by omega)
  have z : toInt32 0 = 0 := by decide
  have hr1 : readCell M 0 1 = 0 := by rw [hF.row0 1 (by omega) (by decide), z]
  have hr2 : readCell M 0 2 = 0 := by rw [hF.row0 2 (by omega) (by decide), z]
  have hlast : ∀ i : Int, (i ∈ [(n : Int) - 1]) ↔ i + 1 = n := by
    intro i
    simp only [List.mem_singleton]
    omega
  have e1 : ∀ i : Int, 0 ≤ i → i + 1 ≤ n → readCell M (i + 1) 1
      = toInt32 (min (if i + 1 = (n : Int) then i + 1 else i + 1 + 2)
          (min (readCell M i 1 + 2) (i + 2))) := by
    intro i h0 h1
    rw [hF.inner (i + 1) 1 (by omega) (by push_cast; omega) (by omega) (by decide)]
    have hA := charAt_replicate n 'A' i h0 (by omega)
    have hC : charAt ['C', 'C'] 0 = 'C' := rfl
    simp only [TrimmedAlignments.cellValue, hlast, add_sub_cancel_right, sub_self, hA, hC, c1,
      c2, c3, hcol0 (i + 1) (by omega) h1, hcol0 i h0 (by omega), decide_eq_true_eq]
  have e2 : ∀ i : Int, 0 ≤ i → i + 1 ≤ n → readCell M (i + 1) 2
      = toInt32 (min (if i + 1 = (n : Int) then readCell M (i + 1) 1
            else readCell M (i + 1) 1 + 2)
          (min (readCell M i 2 + 2) (readCell M i 1 + 2))) := by
    intro i h0 h1
    rw [hF.inner (i + 1) 2 (by omega) (by push_cast; omega) (by omega) (by decide)]
    have hA := charAt_replicate n 'A' i h0 (by omega)
    have hC : charAt ['C', 'C'] 1 = 'C' := rfl
    have e : (2 : Int) - 1 = 1 := by norm_num
    simp only [TrimmedAlignments.cellValue, hlast, add_sub_cancel_right, e, hA, hC, c1,
      c2, c3, decide_eq_true_eq]
  have h1 : ∀ k : Nat, (k : Int) + 1 ≤ (n : Int) - 1 →
      readCell M ((k : Int) + 1) 1 = (k : Int) + 2 := by
    intro k
    induction k with
    | zero =>
      intro hk
      have := e1 0 (le_refl _) (by omega)
      simp only [Nat.cast_zero, zero_add] at this ⊢
      rw [this, hr1]
      unfold toInt32
      simp only [min_def]
      split_ifs <;> omega
    | succ k ih =>
      intro hk
      have ih2 := ih (by push_cast at hk; omega)
      have := e1 ((k : Int) + 1) (by omega) (by push_cast at hk; omega)
      push_cast
      rw [this, ih2]
      unfold toInt32
      simp only [min_def]
      push_cast at hk
      split_ifs <;> omega
  have h12 : readCell M 1 2 = 2 := by
    have := e2 0 (le_refl _) (by omega)
    have h11 := h1 0 (by omega)
    simp only [Nat.cast_zero, zero_add] at this h11
    rw [this, h11, hr1, hr2]
    unfold toInt32
    simp only [min_def]
    split_ifs <;> omega
  have h2 : ∀ k : Nat, (k : Int) + 2 ≤ (n : Int) - 2 →
      readCell M ((k : Int) + 2) 2 = (k : Int) + 4 := by
    intro k
    induction k with
    | zero =>
      intro hk
      have := e2 1 (by omega) (by omega)
      have h11 := h1 0 (by omega)
      have h21 := h1 1 (by omega)
      have e : (1 : Int) + 1 = 2 := by norm_num
      simp only [Nat.cast_zero, zero_add, Nat.cast_one, e] at this h11 h21 ⊢
      rw [this, h11, h21, h12]
      unfold toInt32
      simp only [min_def]
      split_ifs <;> omega
    | succ k ih =>
      intro hk
      push_cast at hk
      have ih2 := ih (by omega)
      have := e2 ((k : Int) + 2) (by omega) (by omega)
      have ha := h1 (k + 1) (by push_cast; omega)
      have hb := h1 (k + 2) (by push_cast; omega)
      have ea : (k : Int) + 1 + 1 = k + 2 := by ring
      have eb : (k : Int) + 2 + 1 = k + 1 + 2 := by ring
      push_cast at ha hb ⊢
      rw [ea] at ha
      rw [eb] at this hb
      rw [this, hb, ih2, ha]
      unfold toInt32
      simp only [min_def]
      split_ifs <;> omega
  obtain ⟨k, hk⟩ : ∃ k : Nat, n = k + 5 := ⟨n - 5, by omega⟩
  have vq1 : readCell M ((n : Int) - 2) 1 = 2147483646 := by
    have := h1 (k + 2) (by push_cast; omega)
    have e : (((k + 2 : Nat) : Int)) + 1 = (n : Int) - 2 := by push_cast; omega
    rw [e] at this
    rw [this]; push_cast; omega
  have vp1 : readCell M ((n : Int) - 1) 1 = 2147483647 := by
    have := h1 (k + 3) (by push_cast; omega)
    have e : (((k + 3 : Nat) : Int)) + 1 = (n : Int) - 1 := by push_cast; omega
    rw [e] at this
    rw [this]; push_cast; omega
  have vq2 : readCell M ((n : Int) - 2) 2 = 2147483647 := by
    have := h2 (k + 1) (by push_cast; omega)
    have e : (((k + 1 : Nat) : Int)) + 2 = (n : Int) - 2 := by push_cast; omega
    rw [e] at this
    rw [this]; push_cast; omega
  have vp2 : readCell M ((n : Int) - 1) 2 = -2147483648 := by
    have := e2 ((n : Int) - 2) (by omega) (by omega)
    have e : (n : Int) - 2 + 1 = (n : Int) - 1 := by ring
    rw [e] at this
    rw [this, vp1, vq2, vq1]
    unfold toInt32
    simp only [min_def]
    split_ifs <;> omega
  have vn1 : readCell M n 1 = 2147483647 := by
    have := e1 ((n : Int) - 1) (by omega) (by omega)
    have e : (n : Int) - 1 + 1 = n := by ring
    rw [e] at this
    rw [this, vp1]
    unfold toInt32
    simp only [min_def]
    split_ifs <;> omega
  have vn2 : readCell M n 2 = -2147483646 := by
    have := e2 ((n : Int) - 1) (by omega) (by omega)
    have e : (n : Int) - 1 + 1 = n := by ring
    rw [e] at this
    rw [this, vn1, vp2, vp1]
    unfold toInt32
    simp only [min_def]
    split_ifs <;> omega
  exact ⟨vn1, vn2, vp1, vp2, vq1, vq2⟩

/-- The backtracking on that matrix: an insertion leaves the last row for cell
`(2^31 - 2, 2)`, where no candidate equals the stored `-2^31`. -/
theorem wrap_walk (n : Nat) (hn : n = 2147483647) (a : Alignments)
    (href : a.ref = ['C', 'C']) (hclr : a.clr = List.replicate n 'A')
    (hlbi : a.lastBaseIndices = [(n : Int) - 1]) (hrows : a.rows = (n : Int) + 1)
    (hcols : a.columns = 3)
    (hF : Filled (fun _ => 0)
      (TrimmedAlignments.cellValue ['C', 'C'] (List.replicate n 'A') [(n : Int) - 1])
      (n + 1) 3 a.matrix) :
    ∃ t, backtrackLoop (TrimmedAlignments.step a) (a.rows + a.columns).toNat a.startWalk
        = some t ∧ t.errors = [0] := by
  obtain ⟨vn1, vn2, vp1, vp2, vq1, vq2⟩ := wrap_matrix_values n hn a.matrix hF
  have s0r : a.startWalk.rowIndex = n := by simp only [Alignments.startWalk, hrows]; ring
  have s0c : a.startWalk.columnIndex = 2 := by simp only [Alignments.startWalk, hcols]; norm_num
  have s0e : a.startWalk.errors = [] := rfl
  have e21 : (2 : Int) - 1 = 1 := by norm_num
  have en : (n : Int) - 1 - 1 = (n : Int) - 2 := by ring
  have hA1 : charAt (List.replicate n 'A') ((n : Int) - 1) = 'A' :=
    charAt_replicate n 'A' _ (by omega) (by omega)
  have hA2 : charAt (List.replicate n 'A') ((n : Int) - 2) = 'A' :=
    charAt_replicate n 'A' _ (by omega) (by omega)
  have hC : charAt ['C', 'C'] 1 = 'C' := rfl
  have c1 : cost 'C' '-' = 2 := by decide
  have c2 : cost '-' 'A' = 2 := by decide
  have c3 : cost 'C' 'A' = 2 := by decide
  have m1 : decide ((n : Int) - 1 ∈ [(n : Int) - 1]) = true := by simp
  have m2 : decide ((n : Int) - 2 ∈ [(n : Int) - 1]) = false := by simp
  obtain ⟨t1r, t1c, t1e⟩ := trimmed_step_insert a a.startWalk (by rw [s0r]; omega)
    (by rw [s0c]; omega)
    (by rw [s0r, s0c, hlbi, e21, m1, if_pos rfl, vn1, vn2]; decide)
    (by rw [s0r, s0c, hclr, hA1, c2, vp2, vn2]; decide)
  rw [s0r] at t1r
  rw [s0c] at t1c
  rw [s0e] at t1e
  have st2 := trimmed_step_noPath a (TrimmedAlignments.step a a.startWalk)
    (by rw [t1r]; omega) (by rw [t1c]; omega)
    (by
      rw [t1r, t1c, hlbi, en, e21, m2, if_neg Bool.false_ne_true, href, hC, c1, vp1, vp2]
      decide)
    (by rw [t1r, t1c, hclr, en, hA2, c2, vq2, vp2]; decide)
    (by rw [t1r, t1c, hclr, href, en, e21, hA2, hC, c3, vq1, vp2]; decide)
  obtain ⟨k, hk⟩ : ∃ k, (a.rows + a.columns).toNat = k + 2 :=
    ⟨(a.rows + a.columns).toNat - 2, by rw [hrows, hcols]; omega⟩
  rw [hk, backtrackLoop_succ _ _ _ (Or.inl (by rw [s0r]; omega)),
    backtrackLoop_succ _ _ _ (Or.inl (by rw [t1r]; omega)), st2,
    backtrackLoop_done _ _ _ (by simp [noPath])]
  exact ⟨_, rfl, by simp [noPath, t1e]⟩

/-! ## C21 -/

/-- Counterexample to C21: with reference and uncorrected read `CC` and a
corrected read of `2^31 - 1` bases `A`, the three 64-bit candidates of cell
`(2^31 - 2, 2)` are `2^31 + 1`, `2^31 + 1` and `2^31`, and the `int` cell keeps
`-2^31`; the backtracking reaches that cell by an insertion from the last row and
takes the "No paths found" branch. -/
theorem trimmed_upper_reference_counterexample :
    "CC".toList.length = "CC".toList.length ∧ (∀ c ∈ "CC".toList, islower c = false) ∧
    ∃ a, TrimmedAlignments.construct "CC".toList "CC".toList (List.replicate 2147483647 'A')
        = some a ∧ a.errors = [0] := by
  refine ⟨rfl, by decide, ?_⟩
  have hne : List.replicate 2147483647 'A' ≠ [] := by
    intro h
    have := congrArg List.length h
    rw [List.length_replicate] at this
    exact absurd this (by decide)
  have hsp : ∀ c ∈ List.replicate 2147483647 'A', isspace c = false := by
    intro c hc
    rw [List.eq_of_mem_replicate hc]
    decide
  have hlbi := trimmed_single_fragment ['C', 'C'] ['C', 'C'] _ hsp hne
  rw [List.length_replicate] at hlbi
  have hF := trimmed_filled ['C', 'C'] ['C', 'C'] (List.replicate 2147483647 'A') rfl
  rw [hlbi, filter_replicate_A, List.length_replicate] at hF
  have hclr : (TrimmedAlignments.filledObject ['C', 'C'] ['C', 'C']
      (List.replicate 2147483647 'A')).clr = List.replicate 2147483647 'A' :=
    filter_replicate_A _
  have hrows : (TrimmedAlignments.filledObject ['C', 'C'] ['C', 'C']
      (List.replicate 2147483647 'A')).rows = ((2147483647 : Nat) : Int) + 1 := by
    show (((List.replicate 2147483647 'A').filter (fun c => c != ' ')).length : Int) + 1 = _
    rw [filter_replicate_A, List.length_replicate]
  obtain ⟨t, ht, he⟩ := wrap_walk 2147483647 rfl
    (TrimmedAlignments.filledObject ['C', 'C'] ['C', 'C'] (List.replicate 2147483647 'A'))
    rfl hclr hlbi hrows rfl hF
  refine ⟨(TrimmedAlignments.filledObject ['C', 'C'] ['C', 'C']
    (List.replicate 2147483647 'A')).finish t, ?_, ?_⟩
  · show TrimmedAlignments.findAlignments (TrimmedAlignments.filledObject ['C', 'C'] ['C', 'C']
      (List.replicate 2147483647 'A')) = _
    unfold TrimmedAlignments.findAlignments
    rw [ht]; rfl
  · show [] ++ t.errors = [0]
    rw [he]; rfl

/-- C21 (amended): trimmed variant.  If the reference contains no lowercase
letter, the uncorrected read has the same length, and the separator-stripped
length of the corrected read (of any letter case) plus the reference length is
below `2^31`, then the backtracking ends without reaching the "No paths found"
branch; at every interior cell one of the three candidates it recomputes equals
the stored value; and wherever `cost(clr base, ref base)` of the fill differs from
`cost(ref base, clr base)` of the backtracking, the insertion candidate is no
larger than the substitution candidate of the fill. -/
theorem trimmed_upper_reference_no_error (reference uLongRead cLongRead : List Char)
    (hlen : reference.length = uLongRead.length)
    (href : ∀ c ∈ reference, islower c = false)
    (hB : (cLongRead.filter (fun c => c != ' ')).length + reference.length < 2 ^ 31) :
    (∃ a, TrimmedAlignments.construct reference uLongRead cLongRead = some a ∧
      a.errors = []) ∧
    (∀ i j : Int, 1 ≤ i →
      i < (TrimmedAlignments.filledObject reference uLongRead cLongRead).rows → 1 ≤ j →
      j < (TrimmedAlignments.filledObject reference uLongRead cLongRead).columns →
      ((if decide (i - 1 ∈
            (TrimmedAlignments.filledObject reference uLongRead cLongRead).lastBaseIndices) = true
          then readCell (TrimmedAlignments.filledObject reference uLongRead cLongRead).matrix
            i (j - 1)
          else readCell (TrimmedAlignments.filledObject reference uLongRead cLongRead).matrix
              i (j - 1)
            + cost (charAt reference (j - 1)) '-')
          = readCell (TrimmedAlignments.filledObject reference uLongRead cLongRead).matrix i j ∨
        readCell (TrimmedAlignments.filledObject reference uLongRead cLongRead).matrix (i - 1) j
            + cost '-' (charAt (cLongRead.filter (fun c => c != ' ')) (i - 1))
          = readCell (TrimmedAlignments.filledObject reference uLongRead cLongRead).matrix i j ∨
        readCell (TrimmedAlignments.filledObject reference uLongRead cLongRead).matrix
              (i - 1) (j - 1)
            + cost (charAt reference (j - 1))
                (charAt (cLongRead.filter (fun c => c != ' ')) (i - 1))
          = readCell (TrimmedAlignments.filledObject reference uLongRead cLongRead).matrix i j) ∧
      (cost (charAt (cLongRead.filter (fun c => c != ' ')) (i - 1)) (charAt reference (j - 1))
          ≠ cost (charAt reference (j - 1))
              (charAt (cLongRead.filter (fun c => c != ' ')) (i - 1)) →
        readCell (TrimmedAlignments.filledObject reference uLongRead cLongRead).matrix (i - 1) j
            + cost '-' (charAt (cLongRead.filter (fun c => c != ' ')) (i - 1))
          ≤ readCell (TrimmedAlignments.filledObject reference uLongRead cLongRead).matrix
              (i - 1) (j - 1)
            + cost (charAt (cLongRead.filter (fun c => c != ' ')) (i - 1))
                (charAt reference (j - 1)))) := by
  have hrows : (TrimmedAlignments.filledObject reference uLongRead cLongRead).rows
      = ((cLongRead.filter (fun c => c != ' ')).length : Int) + 1 := rfl
  have hcols : (TrimmedAlignments.filledObject reference uLongRead cLongRead).columns
      = (reference.length : Int) + 1 := rfl
  have href2 : (TrimmedAlignments.filledObject reference uLongRead cLongRead).ref
      = reference := rfl
  have hclr2 : (TrimmedAlignments.filledObject reference uLongRead cLongRead).clr
      = cLongRead.filter (fun c => c != ' ') := rfl
  have herr : (TrimmedAlignments.filledObject reference uLongRead cLongRead).errors = [] := rfl
  have hF := trimmed_filled reference uLongRead cLongRead hlen
  have hB2 : ((cLongRead.filter (fun c => c != ' ')).length + 1) + (reference.length + 1)
      ≤ 2147483649 := by norm_num at hB ⊢; omega
  have hmatch : ∀ i j : Int, 1 ≤ i →
      i < ((cLongRead.filter (fun c => c != ' ')).length : Int) + 1 → 1 ≤ j →
      j < (reference.length : Int) + 1 → _ :=
    fun i j hi1 hi hj1 hj => trimmed_interior_match reference
      (cLongRead.filter (fun c => c != ' '))
      (TrimmedAlignments.filledObject reference uLongRead cLongRead).lastBaseIndices
      (TrimmedAlignments.filledObject reference uLongRead cLongRead).matrix _ hF hB2 href
      i j hi1 (by push_cast; omega) hj1 (by push_cast; omega)
  refine ⟨?_, ?_⟩
  · obtain ⟨t, ht, ⟨_, _, _, _, he⟩, _⟩ := backtrackLoop_inv
      (TrimmedAlignments.step (TrimmedAlignments.filledObject reference uLongRead cLongRead))
      (fun s => 0 ≤ s.rowIndex ∧ s.rowIndex ≤ (cLongRead.filter (fun c => c != ' ')).length ∧
        0 ≤ s.columnIndex ∧ s.columnIndex ≤ reference.length ∧ s.errors = [])
      (fun s h => ⟨h.1, h.2.2.1⟩)
      (fun s h hp => by
        obtain ⟨h1, h2, h3, h4, h5⟩ := h
        have hd := trimmed_step_decreases
          (TrimmedAlignments.filledObject reference uLongRead cLongRead) s ⟨h1, h3⟩ hp
        have hle := trimmed_step_le
          (TrimmedAlignments.filledObject reference uLongRead cLongRead) s
        have hm : (TrimmedAlignments.step
            (TrimmedAlignments.filledObject reference uLongRead cLongRead) s).errors
            = s.errors := by
          apply trimmed_step_errors _ s ⟨h1, h3⟩
          by_cases hr0 : s.rowIndex = 0
          · exact Or.inl hr0
          · by_cases hc0 : s.columnIndex = 0
            · exact Or.inr (Or.inl hc0)
            · right; right
              rw [href2, hclr2]
              exact hmatch s.rowIndex s.columnIndex (by omega) (by omega) (by omega) (by omega)
        rw [max_eq_left h1, max_eq_left h3] at hle
        exact ⟨⟨hd.1, by omega, hd.2.1, by omega, by rw [hm, h5]⟩, by omega⟩)
      ((TrimmedAlignments.filledObject reference uLongRead cLongRead).rows
        + (TrimmedAlignments.filledObject reference uLongRead cLongRead).columns).toNat
      (TrimmedAlignments.filledObject reference uLongRead cLongRead).startWalk
      ⟨by simp only [Alignments.startWalk, hrows]; omega,
        by simp only [Alignments.startWalk, hrows]; omega,
        by simp only [Alignments.startWalk, hcols]; omega,
        by simp only [Alignments.startWalk, hcols]; omega, rfl⟩
      (startWalk_sum _ (by rw [hrows]; omega) (by rw [hcols]; omega))
    refine ⟨(TrimmedAlignments.filledObject reference uLongRead cLongRead).finish t, ?_, ?_⟩
    · rw [trimmed_construct_eq]
      unfold TrimmedAlignments.findAlignments
      rw [ht]; rfl
    · simp only [Alignments.finish, herr, he, List.append_nil]
  · intro i j hi1 hi hj1 hj
    rw [hrows] at hi
    rw [hcols] at hj
    refine ⟨hmatch i j hi1 hi hj1 hj, fun hne => ?_⟩
    have hup := trimmed_up_le reference (cLongRead.filter (fun c => c != ' '))
      (TrimmedAlignments.filledObject reference uLongRead cLongRead).lastBaseIndices
      (TrimmedAlignments.filledObject reference uLongRead cLongRead).matrix _ _ hF hB2
      i j hi1 (by push_cast; omega) hj1 (by push_cast; omega)
    have hr : islower (charAt reference (j - 1)) = false :=
      href _ (charAt_mem reference (j - 1) (by omega) (by omega))
    rcases cost_swap (charAt reference (j - 1))
      (charAt (cLongRead.filter (fun c => c != ' ')) (i - 1)) hr with e | ⟨e1, e2⟩
    · exact absurd e hne
    · rw [e1, e2]; omega

/-- Witness of C21 (amended): an uppercase reference against a corrected read
with a lowercase base that differs from it. -/
theorem trimmed_upper_reference_no_error_witness :
    "ACGT".toList.length = "AGGT".toList.length ∧
    (∀ c ∈ "ACGT".toList, islower c = false) ∧
    ("aGg T".toList.filter (fun c => c != ' ')).length + "ACGT".toList.length < 2 ^ 31 ∧
    ∃ a, TrimmedAlignments.construct "ACGT".toList "AGGT".toList "aGg T".toList = some a ∧
      a.errors = [] :=
  ⟨by decide, by decide, by decide,
    (trimmed_upper_reference_no_error "ACGT".toList "AGGT".toList "aGg T".toList
      (by decide) (by decide) (by decide)).1⟩

/-! ## Free clipping in the trimmed matrix -/

theorem cost_self (c : Char) : cost c c = 0 := by
  by_cases h : islower c = true
  · simp only [cost, h, if_true]
  · have h2 : islower c = false := by simpa using h
    have t : toupper c = c := by simp only [toupper, h2]; simp
    simp only [cost, h2, t, if_true]
    simp

theorem charAt_append_mid (p f q : List Char) (k : Nat) (hk : k < f.length) :
    charAt (p ++ f ++ q) ((p.length : Int) + k) = charAt f k := by
  have e1 : ((p.length : Int) + k).toNat = p.length + k := by omega
  have e2 : ((k : Nat) : Int).toNat = k := by omega
  have h1 : (0 : Int) ≤ (p.length : Int) + k := by omega
  have h2 : (0 : Int) ≤ (k : Int) := by omega
  simp only [charAt, h1, h2, if_true, e1, e2]
  rw [List.append_assoc, List.getD_append_right _ _ _ _ (by omega),
    Nat.add_sub_cancel_left, List.getD_append _ _ _ _ hk]

theorem toInt32_range (x : Int) : -2147483648 ≤ toInt32 x ∧ toInt32 x ≤ 2147483647 := by
  unfold toInt32
  omega

/-- Every cell of a filled matrix holds an `int`. -/
theorem filled_cell_range {g : Int → Int} {f : DPMatrix → Int → Int → Int} {R C : Nat}
    {M : DPMatrix} (hF : Filled g f R C M) (i j : Int) (hi0 : 0 ≤ i) (hi : i < R)
    (hj0 : 0 ≤ j) (hj : j < C) :
    -2147483648 ≤ readCell M i j ∧ readCell M i j ≤ 2147483647 := by
  rcases eq_or_lt_of_le hj0 with h | h
  · subst h
    rw [hF.col0 i hi0 hi]
    exact toInt32_range _
  · rcases eq_or_lt_of_le hi0 with h2 | h2
    · subst h2
      rw [hF.row0 j (by omega) hj]
      exact toInt32_range _
    · rw [hF.inner i j (by omega) hi (by omega) hj]
      exact toInt32_range _

/-- Every cell `(i, j)` of a trimmed matrix of at most `2^30` rows lies between
`0` and `2 * i`, whatever the number of columns: the insertion candidate bounds it. -/
theorem trimmed_values_twice (ref clr : List Char) (lastBaseIndices : List Int)
    (M : DPMatrix) (R C : Nat)
    (hF : Filled (fun _ => 0) (TrimmedAlignments.cellValue ref clr lastBaseIndices) R C M)
    (hB : R ≤ 1073741824) :
    ∀ i : Nat, i < R → ∀ j : Nat, j < C →
      0 ≤ readCell M i j ∧ readCell M i j ≤ 2 * (i : Int) := by
  intro i
  induction i with
  | zero =>
    intro _ j hj
    rcases Nat.eq_zero_or_pos j with rfl | hpos
    · have := hF.col0 0 (le_refl _) (by omega)
      simp only [Nat.cast_zero] at this ⊢
      rw [this]; unfold toInt32; omega
    · have := hF.row0 j (by omega) (by omega)
      simp only [Nat.cast_zero] at this ⊢
      rw [this]; unfold toInt32; omega
  | succ i ih =>
    intro hi j
    have ih2 := ih (by omega)
    induction j with
    | zero =>
      intro _
      have := hF.col0 ((i + 1 : Nat) : Int) (by omega) (by push_cast; omega)
      simp only [Nat.cast_zero] at this ⊢
      rw [this]; unfold toInt32; push_cast; omega
    | succ j ihj =>
      intro hj
      have hleft := ihj (by omega)
      have hdiag := ih2 j (by omega)
      have hup := ih2 (j + 1) hj
      have heq := hF.inner ((i + 1 : Nat) : Int) ((j + 1 : Nat) : Int) (by push_cast; omega)
        (by push_cast; omega) (by push_cast; omega) (by push_cast; omega)
      have hc1 := cost_nonneg (charAt ref (j : Int)) '-'
      have hc3 := cost_nonneg '-' (charAt clr (i : Int))
      have hc4 := cost_nonneg (charAt clr (i : Int)) (charAt ref (j : Int))
      have hc5 := cost_le_two '-' (charAt clr (i : Int))
      rw [heq]
      simp only [TrimmedAlignments.cellValue, Nat.cast_add, Nat.cast_one,
        add_sub_cancel_right] at hleft hdiag hup ⊢
      generalize cost (charAt ref (j : Int)) '-' = cd at *
      generalize cost '-' (charAt clr (i : Int)) = ci at *
      generalize cost (charAt clr (i : Int)) (charAt ref (j : Int)) = cs at *
      generalize readCell M ((i : Int) + 1) (j : Int) = left at *
      generalize readCell M (i : Int) ((j : Int) + 1) = up at *
      generalize readCell M (i : Int) (j : Int) = diag at *
      simp only [min_def]
      unfold toInt32
      split_ifs <;> omega

/-- The diagonal that starts in row `0` above the first base of the occurrence of
the fragment in the reference holds `0`. -/
theorem clipping_diagonal (p f q : List Char) (lastBaseIndices : List Int) (M : DPMatrix)
    (hF : Filled (fun _ => 0)
      (TrimmedAlignments.cellValue (p ++ f ++ q) f lastBaseIndices)
      (f.length + 1) ((p ++ f ++ q).length + 1) M)
    (hB : f.length < 1073741824) :
    ∀ k : Nat, k ≤ f.length → readCell M k ((p.length : Int) + k) = 0 := by
  have hV := trimmed_values_twice _ _ _ _ _ _ hF (by omega)
  have hlen : (p ++ f ++ q).length = p.length + f.length + q.length := by
    simp only [List.length_append]
  intro k
  induction k with
  | zero =>
    intro _
    have z : toInt32 0 = 0 := by decide
    simp only [Nat.cast_zero, add_zero]
    rcases Nat.eq_zero_or_pos p.length with h | h
    · rw [h, Nat.cast_zero, hF.col0 0 (le_refl _) (by omega), z]
    · rw [hF.row0 _ (by omega) (by rw [hlen]; push_cast; omega), z]
  | succ k ih =>
    intro hk
    have ih2 := ih (by omega)
    have hleft := hV (k + 1) (by omega) (p.length + k) (by omega)
    have hup := hV k (by omega) (p.length + k + 1) (by omega)
    have hc1 := cost_nonneg (charAt (p ++ f ++ q) ((p.length : Int) + k)) '-'
    have hc3 := cost_nonneg '-' (charAt f (k : Int))
    have hch := charAt_append_mid p f q k (by omega)
    have e : ((p.length : Int) + ((k + 1 : Nat) : Int)) = (p.length : Int) + k + 1 := by
      push_cast; ring
    rw [e, hF.inner _ _ (by push_cast; omega) (by push_cast; omega) (by omega)
      (by rw [hlen]; push_cast; omega)]
    simp only [TrimmedAlignments.cellValue, Nat.cast_add, Nat.cast_one,
      add_sub_cancel_right] at hleft hup ⊢
    rw [hch, cost_self, ih2]
    rw [hch] at hc1
    generalize cost (charAt f (k : Int)) '-' = cd at *
    generalize cost '-' (charAt f (k : Int)) = ci at *
    generalize readCell M ((k : Int) + 1) ((p.length : Int) + k) = left at *
    generalize readCell M (k : Int) ((p.length : Int) + k + 1) = up at *
    simp only [min_def]
    unfold toInt32
    split_ifs <;> omega

/-- In the row of the fragment's last base the deletions are free: the row holds
`0` from the end of the occurrence of the fragment onwards. -/
theorem clipping_last_row (p f q : List Char) (M : DPMatrix)
    (hF : Filled (fun _ => 0)
      (TrimmedAlignments.cellValue (p ++ f ++ q) f [(f.length : Int) - 1])
      (f.length + 1) ((p ++ f ++ q).length + 1) M)
    (hne : f ≠ []) (hB : f.length < 1073741824) :
    ∀ k : Nat, k ≤ q.length →
      readCell M f.length ((p.length : Int) + f.length + k) = 0 := by
  have hV := trimmed_values_twice _ _ _ _ _ _ hF (by omega)
  have hpos : 0 < f.length := List.length_pos.mpr hne
  have hlen : (p ++ f ++ q).length = p.length + f.length + q.length := by
    simp only [List.length_append]
  intro k
  induction k with
  | zero =>
    intro _
    simp only [Nat.cast_zero, add_zero]
    exact clipping_diagonal p f q _ M hF hB f.length (le_refl _)
  | succ k ih =>
    intro hk
    have ih2 := ih (by omega)
    have hup := hV (f.length - 1) (by omega) (p.length + f.length + k + 1) (by omega)
    have hdiag := hV (f.length - 1) (by omega) (p.length + f.length + k) (by omega)
    have e1 : (((f.length - 1 : Nat)) : Int) = (f.length : Int) - 1 := by omega
    have hc3 := cost_nonneg '-' (charAt f ((f.length : Int) - 1))
    have hc4 := cost_nonneg (charAt f ((f.length : Int) - 1))
      (charAt (p ++ f ++ q) ((p.length : Int) + f.length + k))
    have e : ((p.length : Int) + f.length + ((k + 1 : Nat) : Int))
        = (p.length : Int) + f.length + k + 1 := by push_cast; ring
    have hm : decide ((f.length : Int) - 1 ∈ [(f.length : Int) - 1]) = true := by simp
    rw [e, hF.inner _ _ (by omega) (by push_cast; omega) (by omega)
      (by rw [hlen]; push_cast; omega)]
    simp only [TrimmedAlignments.cellValue, Nat.cast_add, Nat.cast_one,
      add_sub_cancel_right, e1, hm, if_true] at hup hdiag ⊢
    rw [ih2]
    generalize cost '-' (charAt f ((f.length : Int) - 1)) = ci at *
    generalize cost (charAt f ((f.length : Int) - 1))
      (charAt (p ++ f ++ q) ((p.length : Int) + f.length + k)) = cs at *
    generalize readCell M ((f.length : Int) - 1) ((p.length : Int) + f.length + k + 1) = up at *
    generalize readCell M ((f.length : Int) - 1) ((p.length : Int) + f.length + k) = diag at *
    simp only [min_def]
    unfold toInt32
    split_ifs <;> omega

theorem trimmed_filledObject_columns (reference uLongRead cLongRead : List Char) :
    (TrimmedAlignments.filledObject reference uLongRead cLongRead).columns
      = (reference.length : Int) + 1 := rfl

theorem upperBases_not_space : ∀ c ∈ upperBases, isspace c = false := by decide

/-- With `2^31` bases in the fragment, column `0` of the last row holds `-2^31`
after the `int` store, and the free deletions of that row carry it to every column. -/
theorem wrap_last_row (ref clr : List Char) (n : Nat) (hn : n = 2147483648) (M : DPMatrix)
    (C : Nat)
    (hF : Filled (fun _ => 0) (TrimmedAlignments.cellValue ref clr [(n : Int) - 1])
      (n + 1) C M) :
    ∀ j : Nat, j < C → readCell M n j = -2147483648 := by
  intro j
  induction j with
  | zero =>
    intro h
    rw [Nat.cast_zero, hF.col0 n (by omega) (by push_cast; omega)]
    unfold toInt32
    omega
  | succ j ih =>
    intro h
    have ih2 := ih (by omega)
    have hup := filled_cell_range hF ((n : Int) - 1) ((j : Int) + 1) (by omega)
      (by push_cast; omega) (by omega) (by omega)
    have hdiag := filled_cell_range hF ((n : Int) - 1) (j : Int) (by omega)
      (by push_cast; omega) (by omega) (by omega)
    have hc3 := cost_nonneg '-' (charAt clr ((n : Int) - 1))
    have hc4 := cost_nonneg (charAt clr ((n : Int) - 1)) (charAt ref (j : Int))
    have hm : decide ((n : Int) - 1 ∈ [(n : Int) - 1]) = true := by simp
    have e : (((j + 1 : Nat)) : Int) = (j : Int) + 1 := by push_cast; rfl
    rw [e, hF.inner _ _ (by omega) (by push_cast; omega) (by omega) (by omega)]
    simp only [TrimmedAlignments.cellValue, add_sub_cancel_right, hm, if_true]
    rw [ih2]
    generalize cost '-' (charAt clr ((n : Int) - 1)) = ci at *
    generalize cost (charAt clr ((n : Int) - 1)) (charAt ref (j : Int)) = cs at *
    generalize readCell M ((n : Int) - 1) ((j : Int) + 1) = up at *
    generalize readCell M ((n : Int) - 1) (j : Int) = diag at *
    simp only [min_def]
    unfold toInt32
    split_ifs <;> omega

/-- The bottom-right cell for a fragment of `n = 2^31` bases `A` that is also the
reference and the uncorrected read. -/
theorem wrap_clipping (n : Nat) (hn : n = 2147483648) :
    readCell
      (TrimmedAlignments.filledObject ([] ++ List.replicate n 'A' ++ [])
        (List.replicate n 'A') (List.replicate n 'A')).matrix
      ((TrimmedAlignments.filledObject ([] ++ List.replicate n 'A' ++ [])
        (List.replicate n 'A') (List.replicate n 'A')).rows - 1)
      ((TrimmedAlignments.filledObject ([] ++ List.replicate n 'A' ++ [])
        (List.replicate n 'A') (List.replicate n 'A')).columns - 1)
      = -2147483648 := by
  have hsp : ∀ c ∈ List.replicate n 'A', isspace c = false := by
    intro c hc
    rw [List.eq_of_mem_replicate hc]
    decide
  have hne : List.replicate n 'A' ≠ [] := by
    intro h
    have := congrArg List.length h
    rw [List.length_replicate, List.length_nil] at this
    omega
  have hlen : ([] ++ List.replicate n 'A' ++ []).length = (List.replicate n 'A').length := by
    rw [List.nil_append, List.append_nil]
  have hlbi := trimmed_single_fragment ([] ++ List.replicate n 'A' ++ [])
    (List.replicate n 'A') _ hsp hne
  rw [List.length_replicate] at hlbi
  have hF := trimmed_filled ([] ++ List.replicate n 'A' ++ [])
    (List.replicate n 'A') (List.replicate n 'A') hlen
  rw [hlbi, filter_replicate_A, List.length_replicate] at hF
  have hrows : (TrimmedAlignments.filledObject ([] ++ List.replicate n 'A' ++ [])
      (List.replicate n 'A') (List.replicate n 'A')).rows - 1 = (n : Int) := by
    show (((List.replicate n 'A').filter (fun c => c != ' ')).length : Int) + 1 - 1 = _
    rw [filter_replicate_A, List.length_replicate, add_sub_cancel_right]
  rw [hrows, trimmed_filledObject_columns, add_sub_cancel_right]
  exact wrap_last_row _ _ n hn _ _ hF _ (by omega)

/-! ## C22 -/

/-- The size condition on the fragment comes from the `int` cells alone.  For a
fragment of `2^31` bases `A`, with reference and uncorrected read equal to it, the
store of the row index `2^31` into the cell `(2^31, 0)` would leave `-2^31`, and
the free deletions of the last-base row would carry it to the bottom-right cell.
That matrix has `(2^31 + 1)^2` cells of four bytes, more than a 64-bit address
space holds: the program cannot be given this input. -/
theorem clipping_int_limit :
    (∀ c ∈ List.replicate 2147483648 'A', c ∈ upperBases) ∧
    List.replicate 2147483648 'A' ≠ [] ∧
    ([] ++ List.replicate 2147483648 'A' ++ []).length
      = (List.replicate 2147483648 'A').length ∧
    readCell
      (TrimmedAlignments.filledObject ([] ++ List.replicate 2147483648 'A' ++ [])
        (List.replicate 2147483648 'A') (List.replicate 2147483648 'A')).matrix
      ((TrimmedAlignments.filledObject ([] ++ List.replicate 2147483648 'A' ++ [])
        (List.replicate 2147483648 'A') (List.replicate 2147483648 'A')).rows - 1)
      ((TrimmedAlignments.filledObject ([] ++ List.replicate 2147483648 'A' ++ [])
        (List.replicate 2147483648 'A') (List.replicate 2147483648 'A')).columns - 1)
      = -2147483648 ∧
    ¬ (readCell
      (TrimmedAlignments.filledObject ([] ++ List.replicate 2147483648 'A' ++ [])
        (List.replicate 2147483648 'A') (List.replicate 2147483648 'A')).matrix
      ((TrimmedAlignments.filledObject ([] ++ List.replicate 2147483648 'A' ++ [])
        (List.replicate 2147483648 'A') (List.replicate 2147483648 'A')).rows - 1)
      ((TrimmedAlignments.filledObject ([] ++ List.replicate 2147483648 'A' ++ [])
        (List.replicate 2147483648 'A') (List.replicate 2147483648 'A')).columns - 1)
      = 0) := by
  have hup : ∀ c ∈ List.replicate 2147483648 'A', c ∈ upperBases := by
    intro c hc
    rw [List.eq_of_mem_replicate hc]
    decide
  have hne : List.replicate 2147483648 'A' ≠ [] := by
    intro h
    have := congrArg List.length h
    rw [List.length_replicate] at this
    exact absurd this (by decide)
  have h := wrap_clipping 2147483648 rfl
  exact ⟨hup, hne, by rw [List.nil_append, List.append_nil], h, by rw [h]; decide⟩

/-- C22: trimmed variant, free clipping.  For every non-empty fragment `f` over
the uppercase letters `A`, `C`, `G`, `T`, `N`, every reference of the form
`p ++ f ++ q` and every uncorrected read of the same length as the reference, the
bottom-right cell of the matrix filled by `initialize` is `0`: row `0` holds `0`,
and so does the row of the fragment's last base from the end of the occurrence of
`f` onwards.  The fragment has fewer than `2^30` bases, as it has in every matrix
that can be allocated: the reference is at least as long as the fragment, so a
matrix with `2^30` rows has at least `2^60` cells of four bytes. -/
theorem free_clipping (p f q uLongRead : List Char)
    (hf : ∀ c ∈ f, c ∈ upperBases) (hne : f ≠ [])
    (hlen : (p ++ f ++ q).length = uLongRead.length)
    (hB : f.length < 2 ^ 30) :
    readCell (TrimmedAlignments.filledObject (p ++ f ++ q) uLongRead f).matrix
      ((TrimmedAlignments.filledObject (p ++ f ++ q) uLongRead f).rows - 1)
      ((TrimmedAlignments.filledObject (p ++ f ++ q) uLongRead f).columns - 1) = 0 ∧
    (∀ j : Int, 0 ≤ j →
      j < (TrimmedAlignments.filledObject (p ++ f ++ q) uLongRead f).columns →
      readCell (TrimmedAlignments.filledObject (p ++ f ++ q) uLongRead f).matrix 0 j = 0) ∧
    (∀ j : Int, (p.length : Int) + f.length ≤ j →
      j < (TrimmedAlignments.filledObject (p ++ f ++ q) uLongRead f).columns →
      readCell (TrimmedAlignments.filledObject (p ++ f ++ q) uLongRead f).matrix
        ((TrimmedAlignments.filledObject (p ++ f ++ q) uLongRead f).rows - 1) j = 0) := by
  have hfil : f.filter (fun c => c != ' ') = f := filter_noSpace (not_space_of_upperBases hf)
  have hlbi := trimmed_single_fragment (p ++ f ++ q) uLongRead f
    (fun c hc => upperBases_not_space c (hf c hc)) hne
  have hF := trimmed_filled (p ++ f ++ q) uLongRead f hlen
  rw [hlbi, hfil] at hF
  have hB2 : f.length < 1073741824 := by norm_num at hB; exact hB
  have hl : (p ++ f ++ q).length = p.length + f.length + q.length := by
    simp only [List.length_append]
  have hrows : (TrimmedAlignments.filledObject (p ++ f ++ q) uLongRead f).rows - 1
      = (f.length : Int) := by
    show (((f.filter (fun c => c != ' ')).length : Nat) : Int) + 1 - 1 = _
    rw [hfil, add_sub_cancel_right]
  have hcols : (TrimmedAlignments.filledObject (p ++ f ++ q) uLongRead f).columns
      = ((p ++ f ++ q).length : Int) + 1 := rfl
  have hlast : ∀ j : Int, (p.length : Int) + f.length ≤ j →
      j < ((p ++ f ++ q).length : Int) + 1 →
      readCell (TrimmedAlignments.filledObject (p ++ f ++ q) uLongRead f).matrix f.length j
        = 0 := by
    intro j h1 h2
    have := clipping_last_row p f q _ hF hne hB2 (j - p.length - f.length).toNat
      (by rw [hl] at h2; push_cast at h2; omega)
    have e : (p.length : Int) + f.length + ((j - p.length - f.length).toNat : Nat) = j := by
      omega
    rw [e] at this
    exact this
  have z : toInt32 0 = 0 := by decide
  rw [hrows, hcols]
  refine ⟨?_, ?_, hlast⟩
  · have e : ((p ++ f ++ q).length : Int) + 1 - 1 = ((p ++ f ++ q).length : Int) := by ring
    rw [e]
    exact hlast _ (by rw [hl]; push_cast; omega) (by omega)
  · intro j h0 h1
    rcases eq_or_lt_of_le h0 with h | h
    · subst h
      rw [hF.col0 0 (le_refl _) (by omega), z]
    · rw [hF.row0 j (by omega) (by push_cast; omega), z]

/-- Witness of C22: the fragment `CGT` inside the reference `ACGTA`. -/
theorem free_clipping_witness :
    (∀ c ∈ "CGT".toList, c ∈ upperBases) ∧ "CGT".toList ≠ [] ∧
    ("A".toList ++ "CGT".toList ++ "A".toList).length = "ACGTA".toList.length ∧
    "CGT".toList.length < 2 ^ 30 ∧
    readCell
      (TrimmedAlignments.filledObject ("A".toList ++ "CGT".toList ++ "A".toList)
        "ACGTA".toList "CGT".toList).matrix
      ((TrimmedAlignments.filledObject ("A".toList ++ "CGT".toList ++ "A".toList)
        "ACGTA".toList "CGT".toList).rows - 1)
      ((TrimmedAlignments.filledObject ("A".toList ++ "CGT".toList ++ "A".toList)
        "ACGTA".toList "CGT".toList).columns - 1) = 0 :=
  ⟨by decide, by decide, by decide, by decide,
    (free_clipping "A".toList "CGT".toList "A".toList "ACGTA".toList
      (by decide) (by decide) (by decide) (by decide)).1⟩

/-! ## The columns of the untrimmed alignment -/

end LRCStats
